import Mathlib

/-!
# Link shortener: identity cookie, short codes, in-memory store, shorten and resolve

A shallow embedding of the Go service `Dnlbb/link-shortener`:

* `internal/Middlewares/SessionMiddleware.go`: `SignData`, `verifyData`, `CreateCookie`,
  `ExtractUserIDFromCookie`, `MiddlewareAuth`;
* `internal/storage/storage.go`, `repository.go`, `postgres_storage.go`: `Repository`,
  `InMemoryStorage`, `PostgresStorage`;
* `internal/models/models.go`: the request and response shapes;
* `internal/handlers/handler.go`: `GenerateShortURL`, `Handler.Fpost`, `Handler.Fget`,
  `Handler.ModifPost`, `Handler.ModifFget`, `Handler.Batch`, `Handler.GetUserURLs`,
  `Handler.DelUserUrls`.

Go strings are Lean strings; `[]byte(s)` is the UTF-8 encoding `toBytes s`. Bytes and
32-bit words are natural numbers, reduced modulo `2 ^ 32` where the hash functions wrap.
The library digests the source calls (SHA-1, SHA-256, HMAC, base64, hex) are written out
in full so that short codes and signatures can be computed. The URL parser of `net/url`,
the clock and the entropy source are inputs of the model (`Env`), the functions of
`encoding/json` likewise (`Codec`). The relational backend is the table `urls` under the
statements the source sends, with the constraints its schema declares.
-/

namespace LinkShortener

/-! ## Bytes -/

/-- UTF-8 bytes of one character, as `[]byte(s)` lays a Go string out. -/
def utf8Bytes (c : Char) : List Nat :=
  let v := c.toNat
  if v < 0x80 then [v]
  else if v < 0x800 then [0xC0 + v / 0x40, 0x80 + v % 0x40]
  else if v < 0x10000 then [0xE0 + v / 0x1000, 0x80 + v / 0x40 % 0x40, 0x80 + v % 0x40]
  else [0xF0 + v / 0x40000, 0x80 + v / 0x1000 % 0x40, 0x80 + v / 0x40 % 0x40, 0x80 + v % 0x40]

/-- The conversion `[]byte(s)`. -/
def toBytes (s : String) : List Nat := s.data.flatMap utf8Bytes

/-- Addition of 32-bit words. -/
def add32 (a b : Nat) : Nat := (a + b) % 2 ^ 32

/-- Left rotation of a 32-bit word. -/
def rotl32 (x n : Nat) : Nat := ((x <<< n) % 2 ^ 32) ||| (x >>> (32 - n))

/-- Right rotation of a 32-bit word. -/
def rotr32 (x n : Nat) : Nat := (x >>> n) ||| ((x <<< (32 - n)) % 2 ^ 32)

/-- Bitwise complement of a 32-bit word. -/
def not32 (x : Nat) : Nat := x ^^^ 0xFFFFFFFF

/-- Big-endian bytes of `x`, `n` of them. -/
def beBytes : Nat → Nat → List Nat
  | 0, _ => []
  | n + 1, x => (x / 256 ^ n) % 256 :: beBytes n x

/-- Big-endian value of a byte list. -/
def beValue (bs : List Nat) : Nat := bs.foldl (fun acc b => acc * 256 + b) 0

/-- Message padding shared by SHA-1 and SHA-256: a `0x80` byte, zeros up to 56 modulo 64,
then the bit length on 8 bytes. -/
def mdPad (msg : List Nat) : List Nat :=
  msg ++ 0x80 :: List.replicate ((119 - msg.length % 64) % 64) 0 ++ beBytes 8 (8 * msg.length)

/-- Cut a byte list into `n` consecutive pieces of `k` bytes. -/
def chunks (k : Nat) : Nat → List Nat → List (List Nat)
  | 0, _ => []
  | n + 1, bs => bs.take k :: chunks k n (bs.drop k)

/-- The 64-byte blocks of a padded message. -/
def blocks64 (bs : List Nat) : List (List Nat) := chunks 64 (bs.length / 64) bs

/-- The sixteen big-endian words of a block. -/
def blockWords (blk : List Nat) : List Nat := (chunks 4 16 blk).map beValue

/-! ## SHA-1 (`crypto/sha1`) -/

/-- Message schedule of SHA-1: `n` more words after the ones in `w`. -/
def sha1Extend : Nat → List Nat → List Nat
  | 0, w => w
  | n + 1, w =>
    let i := w.length
    sha1Extend n (w ++ [rotl32 (w.getD (i - 3) 0 ^^^ w.getD (i - 8) 0 ^^^
      w.getD (i - 14) 0 ^^^ w.getD (i - 16) 0) 1])

/-- Chaining value of SHA-1. -/
structure Sha1State where
  a : Nat
  b : Nat
  c : Nat
  d : Nat
  e : Nat

/-- Round `i` of the SHA-1 compression function on schedule word `wi`. -/
def sha1Round (i : Nat) (wi : Nat) (s : Sha1State) : Sha1State :=
  let fk : Nat × Nat :=
    if i < 20 then ((s.b &&& s.c) ||| (not32 s.b &&& s.d), 0x5A827999)
    else if i < 40 then (s.b ^^^ s.c ^^^ s.d, 0x6ED9EBA1)
    else if i < 60 then ((s.b &&& s.c) ||| (s.b &&& s.d) ||| (s.c &&& s.d), 0x8F1BBCDC)
    else (s.b ^^^ s.c ^^^ s.d, 0xCA62C1D6)
  let t := add32 (add32 (add32 (add32 (rotl32 s.a 5) fk.1) s.e) wi) fk.2
  { a := t, b := s.a, c := rotl32 s.b 30, d := s.c, e := s.d }

/-- The rounds of SHA-1 over the schedule, numbered from `i`. -/
def sha1Rounds : Nat → List Nat → Sha1State → Sha1State
  | _, [], s => s
  | i, wi :: ws, s => sha1Rounds (i + 1) ws (sha1Round i wi s)

/-- SHA-1 compression of one block into the chaining value. -/
def sha1Block (h : Sha1State) (blk : List Nat) : Sha1State :=
  let s := sha1Rounds 0 (sha1Extend 64 (blockWords blk)) h
  { a := add32 h.a s.a, b := add32 h.b s.b, c := add32 h.c s.c, d := add32 h.d s.d,
    e := add32 h.e s.e }

/-- Initial chaining value of SHA-1. -/
def sha1Init : Sha1State :=
  { a := 0x67452301, b := 0xEFCDAB89, c := 0x98BADCFE, d := 0x10325476, e := 0xC3D2E1F0 }

/-- The 20-byte SHA-1 digest: `h := sha1.New(); h.Write(msg); h.Sum(nil)`. -/
def sha1 (msg : List Nat) : List Nat :=
  let h := (blocks64 (mdPad msg)).foldl sha1Block sha1Init
  beBytes 4 h.a ++ beBytes 4 h.b ++ beBytes 4 h.c ++ beBytes 4 h.d ++ beBytes 4 h.e

/-! ## SHA-256 and HMAC (`crypto/sha256`, `crypto/hmac`) -/

/-- Round constants of SHA-256, the table `_K` of the library, written in decimal: the
first is `0x428a2f98`, the last `0xc67178f2`. -/
def sha256K : List Nat := [
  1116352408, 1899447441, 3049323471, 3921009573, 961987163, 1508970993,
  2453635748, 2870763221, 3624381080, 310598401, 607225278, 1426881987,
  1925078388, 2162078206, 2614888103, 3248222580, 3835390401, 4022224774,
  264347078, 604807628, 770255983, 1249150122, 1555081692, 1996064986,
  2554220882, 2821834349, 2952996808, 3210313671, 3336571891, 3584528711,
  113926993, 338241895, 666307205, 773529912, 1294757372, 1396182291,
  1695183700, 1986661051, 2177026350, 2456956037, 2730485921, 2820302411,
  3259730800, 3345764771, 3516065817, 3600352804, 4094571909, 275423344,
  430227734, 506948616, 659060556, 883997877, 958139571, 1322822218,
  1537002063, 1747873779, 1955562222, 2024104815, 2227730452, 2361852424,
  2428436474, 2756734187, 3204031479, 3329325298]

/-- Message schedule of SHA-256: `n` more words after the ones in `w`. -/
def sha256Extend : Nat → List Nat → List Nat
  | 0, w => w
  | n + 1, w =>
    let i := w.length
    let w15 := w.getD (i - 15) 0
    let w2 := w.getD (i - 2) 0
    let s0 := rotr32 w15 7 ^^^ rotr32 w15 18 ^^^ (w15 >>> 3)
    let s1 := rotr32 w2 17 ^^^ rotr32 w2 19 ^^^ (w2 >>> 10)
    sha256Extend n (w ++ [add32 (add32 (add32 (w.getD (i - 16) 0) s0) (w.getD (i - 7) 0)) s1])

/-- Chaining value of SHA-256. -/
structure Sha256State where
  a : Nat
  b : Nat
  c : Nat
  d : Nat
  e : Nat
  f : Nat
  g : Nat
  h : Nat

/-- One round of the SHA-256 compression function with constant `k` and schedule word `w`. -/
def sha256Round (k w : Nat) (s : Sha256State) : Sha256State :=
  let S1 := rotr32 s.e 6 ^^^ rotr32 s.e 11 ^^^ rotr32 s.e 25
  let ch := (s.e &&& s.f) ^^^ (not32 s.e &&& s.g)
  let t1 := add32 (add32 (add32 (add32 s.h S1) ch) k) w
  let S0 := rotr32 s.a 2 ^^^ rotr32 s.a 13 ^^^ rotr32 s.a 22
  let maj := (s.a &&& s.b) ^^^ (s.a &&& s.c) ^^^ (s.b &&& s.c)
  let t2 := add32 S0 maj
  { a := add32 t1 t2, b := s.a, c := s.b, d := s.c, e := add32 s.d t1, f := s.e, g := s.f,
    h := s.g }

/-- The rounds of SHA-256 over the constants and the schedule. -/
def sha256Rounds : List Nat → List Nat → Sha256State → Sha256State
  | k :: ks, w :: ws, s => sha256Rounds ks ws (sha256Round k w s)
  | _, _, s => s

/-- SHA-256 compression of one block into the chaining value. -/
def sha256Block (h : Sha256State) (blk : List Nat) : Sha256State :=
  let s := sha256Rounds sha256K (sha256Extend 48 (blockWords blk)) h
  { a := add32 h.a s.a, b := add32 h.b s.b, c := add32 h.c s.c, d := add32 h.d s.d,
    e := add32 h.e s.e, f := add32 h.f s.f, g := add32 h.g s.g, h := add32 h.h s.h }

/-- Initial chaining value of SHA-256. -/
def sha256Init : Sha256State :=
  { a := 0x6a09e667, b := 0xbb67ae85, c := 0x3c6ef372, d := 0xa54ff53a,
    e := 0x510e527f, f := 0x9b05688c, g := 0x1f83d9ab, h := 0x5be0cd19 }

/-- The 32-byte SHA-256 digest. -/
def sha256 (msg : List Nat) : List Nat :=
  let h := (blocks64 (mdPad msg)).foldl sha256Block sha256Init
  beBytes 4 h.a ++ beBytes 4 h.b ++ beBytes 4 h.c ++ beBytes 4 h.d ++
    beBytes 4 h.e ++ beBytes 4 h.f ++ beBytes 4 h.g ++ beBytes 4 h.h

/-- The MAC `h := hmac.New(sha256.New, key); h.Write(msg); h.Sum(nil)`: a key longer than
the 64-byte block is hashed first, then padded with zeros to the block size. -/
def hmacSha256 (key msg : List Nat) : List Nat :=
  let k0 := if key.length > 64 then sha256 key else key
  let k := k0 ++ List.replicate (64 - k0.length) 0
  sha256 (k.map (· ^^^ 0x5c) ++ sha256 (k.map (· ^^^ 0x36) ++ msg))

/-- Comparison `hmac.Equal`: constant time in Go, true exactly on equal byte strings. -/
def hmacEqual (mac1 mac2 : List Nat) : Bool := mac1 == mac2

/-! ## Text encodings (`encoding/base64`, `encoding/hex`) -/

/-- Alphabet of `base64.StdEncoding`. -/
def base64Alphabet : List Char :=
  "ABCDEFGHIJKLMNOPQRSTUVWXYZabcdefghijklmnopqrstuvwxyz0123456789+/".data

/-- Character of a 6-bit value in the standard base64 alphabet. -/
def base64Char (n : Nat) : Char := base64Alphabet.getD n 'A'

/-- The encoding `base64.StdEncoding.EncodeToString`, padded with `=`. -/
def base64Encode : List Nat → List Char
  | b0 :: b1 :: b2 :: rest =>
    base64Char (b0 / 4 % 64) :: base64Char ((b0 % 4) * 16 + b1 / 16 % 16) ::
      base64Char ((b1 % 16) * 4 + b2 / 64 % 4) :: base64Char (b2 % 64) :: base64Encode rest
  | [b0, b1] =>
    [base64Char (b0 / 4 % 64), base64Char ((b0 % 4) * 16 + b1 / 16 % 16),
      base64Char ((b1 % 16) * 4), '=']
  | [b0] => [base64Char (b0 / 4 % 64), base64Char ((b0 % 4) * 16), '=', '=']
  | [] => []

/-- Digits of lowercase hexadecimal. -/
def hexDigits : List Char := "0123456789abcdef".data

/-- Lowercase hexadecimal digit of a 4-bit value. -/
def hexDigit (n : Nat) : Char := hexDigits.getD n '0'

/-- The encoding `hex.EncodeToString`: two lowercase digits per byte. -/
def hexEncode (bs : List Nat) : List Char :=
  bs.flatMap fun b => [hexDigit (b / 16 % 16), hexDigit (b % 16)]

/-! ## Strings (`strings`) -/

/-- The pieces of `s` between occurrences of the separator `sep`: `strings.Split(s, sep)`
for a separator of one byte, the only way the source calls it. One more piece than there
are separators; the empty string gives one empty piece. -/
def splitChars (sep : Char) : List Char → List (List Char)
  | [] => [[]]
  | c :: cs =>
    if c = sep then [] :: splitChars sep cs
    else
      match splitChars sep cs with
      | [] => [[c]]
      | p :: ps => (c :: p) :: ps

/-- Function `strings.Split(s, sep)` with a one-character separator. -/
def Split (s : String) (sep : Char) : List String := (splitChars sep s.data).map String.mk

/-! ## Requests and responses (`net/http`, `context`, `chi`) -/

/-- A cookie: the fields of `http.Cookie` the source sets or reads. `Expires` is in seconds
on the clock of `Env.now`. -/
structure Cookie where
  Name : String
  Value : String
  Expires : Option Nat := none
deriving DecidableEq, Repr

/-- The key type of the middleware: `type contextKey string`. -/
structure contextKey where
  key : String
deriving DecidableEq, Repr

/-- The constant `UserIDKey contextKey = "userID"`. -/
def UserIDKey : contextKey := ⟨"userID"⟩

/-- The two errors a finished context reports through `ctx.Err()`. -/
inductive ContextError where
  | DeadlineExceeded
  | Canceled
deriving DecidableEq, Repr

/-- A `context.Context` as a handler sees it when it polls `ctx.Done()`: `err` is
`ctx.Err()` at that moment (`none` while the context is live), `values` the chain of
`WithValue` bindings, most recent first. The values the service stores are strings. -/
structure Context where
  err : Option ContextError := none
  deadline : Option Nat := none
  values : List (contextKey × String) := []
deriving DecidableEq, Repr

/-- Derived context `context.WithTimeout(parent, d)` created at time `now`: the earlier of
the two deadlines. The passage of time itself is not modelled; `err` is kept. -/
def Context.WithTimeout (ctx : Context) (now d : Nat) : Context :=
  { ctx with deadline := some (match ctx.deadline with
                               | none => now + d
                               | some t => min t (now + d)) }

/-- Derived context `context.WithValue(parent, key, val)`. -/
def Context.WithValue (ctx : Context) (k : contextKey) (v : String) : Context :=
  { ctx with values := (k, v) :: ctx.values }

/-- Lookup `ctx.Value(key).(string)`: the most recent binding of the key, if any. -/
def Context.Value (ctx : Context) (k : contextKey) : Option String :=
  (ctx.values.find? fun p => p.1 == k).map Prod.snd

/-- An `http.Request` after routing: URL path, the cookies of the `Cookie` header, the body
(`none` when reading it fails), the URL parameters chi bound, and the request context. -/
structure Request where
  Path : String := "/"
  cookies : List Cookie := []
  Body : Option String := some ""
  URLParams : List (String × String) := []
  ctx : Context := {}
deriving DecidableEq, Repr

/-- Method `r.Cookie(name)`: the first cookie of that name; `none` stands for
`http.ErrNoCookie`. -/
def Request.Cookie (r : Request) (name : String) : Option Cookie :=
  r.cookies.find? fun c => c.Name == name

/-- Method `r.WithContext(ctx)`. -/
def Request.WithContext (r : Request) (ctx : Context) : Request := { r with ctx := ctx }

/-- Function `chi.URLParam(r, key)`: the value bound last to the key, or the empty string. -/
def URLParam (r : Request) (key : String) : String :=
  match r.URLParams.reverse.find? fun p => p.1 == key with
  | some p => p.2
  | none => ""

/-- An `http.ResponseWriter` with what was written to it so far: the header map, the
`Set-Cookie` lines in structured form, the status code (`none` until the header is
written) and the body. -/
structure ResponseWriter where
  header : List (String × String) := []
  cookies : List Cookie := []
  status : Option Nat := none
  body : String := ""
deriving DecidableEq, Repr

/-- Method `w.Header().Set(k, v)`. -/
def ResponseWriter.SetHeader (w : ResponseWriter) (k v : String) : ResponseWriter :=
  { w with header := (k, v) :: w.header.filter fun p => p.1 != k }

/-- Method `w.Header().Del(k)`. -/
def ResponseWriter.DelHeader (w : ResponseWriter) (k : String) : ResponseWriter :=
  { w with header := w.header.filter fun p => p.1 != k }

/-- Method `w.Header().Get(k)`: the empty string when the header is absent. -/
def ResponseWriter.GetHeader (w : ResponseWriter) (k : String) : String :=
  match w.header.find? fun p => p.1 == k with
  | some p => p.2
  | none => ""

/-- Method `w.WriteHeader(code)`: only the first call fixes the status. -/
def ResponseWriter.WriteHeader (w : ResponseWriter) (code : Nat) : ResponseWriter :=
  match w.status with
  | none => { w with status := some code }
  | some _ => w

/-- Method `w.Write(b)`: writes the header with status 200 if none was written, then appends
to the body. -/
def ResponseWriter.Write (w : ResponseWriter) (b : String) : ResponseWriter :=
  let w1 := w.WriteHeader 200
  { w1 with body := w1.body ++ b }

/-- Function `http.SetCookie(w, cookie)`: adds a `Set-Cookie` header line. -/
def SetCookie (w : ResponseWriter) (c : Cookie) : ResponseWriter :=
  { w with cookies := w.cookies ++ [c] }

/-- Function `http.Error(w, msg, code)`: plain-text headers, the status, the message and a
newline. -/
def httpError (w : ResponseWriter) (msg : String) (code : Nat) : ResponseWriter :=
  (((((w.DelHeader "Content-Length").SetHeader "Content-Type" "text/plain; charset=utf-8").SetHeader
    "X-Content-Type-Options" "nosniff").WriteHeader code).Write (msg ++ "\n"))

/-- Status codes of `net/http` the handlers use. -/
def StatusOK : Nat := 200
def StatusCreated : Nat := 201
def StatusTemporaryRedirect : Nat := 307
def StatusBadRequest : Nat := 400
def StatusUnauthorized : Nat := 401
def StatusRequestTimeout : Nat := 408
def StatusConflict : Nat := 409
def StatusGone : Nat := 410
def StatusInternalServerError : Nat := 500
def StatusGatewayTimeout : Nat := 504

/-! ## Configuration and ambient inputs -/

/-- The global `config.Conf`. -/
structure ConfigFlags where
  Start : String
  Result : String
  File : String
  DB : String
  Key : String
deriving DecidableEq, Repr

/-- The fields of `url.URL` the handlers inspect. -/
structure URL where
  Scheme : String
  Host : String
deriving DecidableEq, Repr

/-- What a request reads from outside the repository code: the global configuration, the
library function `url.ParseRequestURI` (an error message or the parsed URL), the sixteen
random bytes `uuid.New` draws, and the clock `time.Now` in seconds. -/
structure Env where
  Conf : ConfigFlags
  ParseRequestURI : String → Except String URL
  random : List Nat
  now : Nat

/-- Text of a random (version 4) UUID over sixteen bytes, `uuid.New().String()`: version and
variant bits forced, then hexadecimal in groups of 4, 2, 2, 2 and 6 bytes. -/
def uuidString (b : List Nat) : String :=
  let u : List Nat := (List.range 16).map fun i =>
    let x := b.getD i 0 % 256
    if i = 6 then x % 16 + 0x40 else if i = 8 then x % 64 + 0x80 else x
  String.mk (hexEncode (u.take 4) ++ '-' :: hexEncode ((u.drop 4).take 2) ++
    '-' :: hexEncode ((u.drop 6).take 2) ++ '-' :: hexEncode ((u.drop 8).take 2) ++
    '-' :: hexEncode (u.drop 10))

/-! ## Session middleware (`internal/Middlewares/SessionMiddleware.go`) -/

/-- Signature of `data`: base64 of the HMAC-SHA256 under `config.Conf.Key`. -/
def SignData (env : Env) (data : String) : String :=
  String.mk (base64Encode (hmacSha256 (toBytes env.Conf.Key) (toBytes data)))

/-- Check of a signature against the recomputed one. -/
def verifyData (env : Env) (data signature : String) : Bool :=
  let expectedSignature := SignData env data
  hmacEqual (toBytes expectedSignature) (toBytes signature)

/-- Mint an identity: a fresh UUID, its signature, and a `session` cookie
`id|signature` expiring in 24 hours. Returns the writer and the id. -/
def CreateCookie (env : Env) (w : ResponseWriter) : ResponseWriter × String :=
  let UserID := uuidString env.random
  let signature := SignData env UserID
  let cookieValue := UserID ++ "|" ++ signature
  (SetCookie w { Name := "session", Value := cookieValue, Expires := some (env.now + 24 * 3600) },
    UserID)

/-- Error text of `http.ErrNoCookie`. -/
def ErrNoCookie : String := "http: named cookie not present"

/-- The user id of the `session` cookie and the error, as the Go pair `(string, error)`. -/
def ExtractUserIDFromCookie (env : Env) (r : Request) : String × Option String :=
  match r.Cookie "session" with
  | none => ("", some ErrNoCookie)
  | some cookie =>
    let parts := cookie.Value
    let splitParts := Split parts '|'
    if splitParts.length ≠ 2 then ("", some "invalid cookie format")
    else
      let userID := splitParts.getD 0 ""
      let signature := splitParts.getD 1 ""
      if !verifyData env userID signature then ("", some "invalid signature")
      else (userID, none)

/-- A handler over a server state `W`: the new state and the writer after the request. -/
abbrev HandlerFunc (W : Type) := W → ResponseWriter → Request → W × ResponseWriter

/-- The authentication middleware around `next`. Logging is left out. -/
def MiddlewareAuth {W : Type} (env : Env) (next : HandlerFunc W) : HandlerFunc W :=
  fun world w r =>
    let ctx := r.ctx.WithTimeout env.now 30
    let res := ExtractUserIDFromCookie env r
    if r.Path = "/api/user/urls" ∧ res.2 ≠ none then
      (world, httpError w "Unauthorized" StatusUnauthorized)
    else
      let minted := if res.2 ≠ none then CreateCookie env w else (w, res.1)
      let ctx := ctx.WithValue UserIDKey minted.2
      next world minted.1 (r.WithContext ctx)

/-! ## Models (`internal/models/models.go`) -/

/-- Body of a JSON shorten request, field `url`. -/
structure RequestModifyPost where
  Body : String
deriving DecidableEq, Repr

/-- Body of a JSON shorten response, field `result`. -/
structure ResponseModifyPost where
  Body : String
deriving DecidableEq, Repr

/-- Body of a resolve request, field `short-url`. -/
structure RequestModifyGet where
  Body : String
deriving DecidableEq, Repr

/-- Body of a resolve response, field `result`. -/
structure ResponseModifyGet where
  Body : String
deriving DecidableEq, Repr

/-- One entry of a batch request: `correlation_id`, `original_url`. -/
structure MiniBatchReq where
  ID : String
  OriginalURL : String
deriving DecidableEq, Repr

/-- The type `ReqBatch`. -/
abbrev ReqBatch := List MiniBatchReq

/-- One entry of a batch response: `correlation_id`, `short_url`. -/
structure MiniBatchResp where
  ID : String
  ShortURL : String
deriving DecidableEq, Repr

/-- The type `RespBatch`. -/
abbrev RespBatch := List MiniBatchResp

/-- One entry of an owner listing: `short_url`, `original_url`. -/
structure ResponseToOwner where
  ShortURL : String
  OriginalURL : String
deriving DecidableEq, Repr

/-- The type `UserDelUrls`. -/
abbrev UserDelUrls := List String

/-! ## The relational table (`internal/storage/postgres_storage.go`) -/

/-- A row of the table `urls`. The serial `id`, which no statement of the source reads, is
left out. -/
structure UrlRow where
  short_url : String
  original_url : String
  owner : String
  DeletedFlag : Bool
deriving DecidableEq, Repr

/-- The relational backend: its handle `db` is held as the content of the table `urls` it
reaches, in insertion order, once `CreateTable` has run. Failures of the connection are not
modelled: a statement fails only on a constraint of the schema. -/
structure PostgresStorage where
  urls : List UrlRow
deriving DecidableEq, Repr

/-- A transaction `*sql.Tx`: the rows inserted through it and not yet committed. -/
structure Tx where
  pending : List UrlRow := []
deriving DecidableEq, Repr

/-- What a handler reaches through the type assertion `repo.(*storage.PostgresStorage)`:
the transactions of `GetDB()` and the two methods outside the interface. -/
structure PostgresMethods (σ : Type) where
  Begin : σ → Except String Tx
  Commit : Tx → σ → σ × Option String
  Rollback : Tx → σ → σ
  FindAllByOwner : σ → String → Except String (List ResponseToOwner)
  DeleterURL : σ → String → String → σ × Option String

/-! ## Storage (`internal/storage/repository.go`, `storage.go`) -/

/-- The interface `Repository` over a store state `σ`: every method takes the state; `Save`
and `CreateTable` return the new state and the error (`none` for `nil`). -/
structure Repository (σ : Type) where
  Save : σ → String → String → String → σ × Option String
  Find : σ → String → String × Bool
  GetUUID : σ → Nat
  CreateTable : σ → σ × Option String
  /-- The dynamic type of the interface value: `some` exactly for a `*PostgresStorage`. -/
  asPostgres : Option (PostgresMethods σ) := none

/-- A stored link of the in-memory backend. -/
structure URLData where
  OriginalURL : String
  OwnerID : String
deriving DecidableEq, Repr

/-- Lookup `m[k]` in a Go map held as an association list with one entry per key. -/
def mapGet (m : List (String × URLData)) (k : String) : Option URLData :=
  (m.find? fun p => p.1 == k).map Prod.snd

/-- Assignment `m[k] = v`: the binding of `k` is replaced. -/
def mapSet (m : List (String × URLData)) (k : String) (v : URLData) : List (String × URLData) :=
  (k, v) :: m.filter fun p => p.1 != k

/-- The in-memory backend; the mutex is not modelled, calls are atomic. The counter `UUID`
is a Go `int`, far from its bound. -/
structure InMemoryStorage where
  data : List (String × URLData)
  UUID : Nat
deriving DecidableEq, Repr

/-- Constructor `NewInMemoryStorage`. -/
def NewInMemoryStorage : InMemoryStorage := { data := [], UUID := 0 }

/-- Method `GetUUID` of the in-memory backend. -/
def InMemoryStorage.GetUUID (s : InMemoryStorage) : Nat := s.UUID

/-- Method `Save` of the in-memory backend: overwrite the entry, count the call. -/
def InMemoryStorage.Save (s : InMemoryStorage) (shortURL originalURL owner : String) :
    InMemoryStorage × Option String :=
  ({ data := mapSet s.data shortURL { OriginalURL := originalURL, OwnerID := owner },
     UUID := s.UUID + 1 }, none)

/-- Method `Find` of the in-memory backend. -/
def InMemoryStorage.Find (s : InMemoryStorage) (shortURL : String) : String × Bool :=
  match mapGet s.data shortURL with
  | none => ("", false)
  | some urlData => (urlData.OriginalURL, true)

/-- Method `CreateTable` of the in-memory backend. -/
def InMemoryStorage.CreateTable (s : InMemoryStorage) : InMemoryStorage × Option String :=
  (s, none)

/-- The in-memory backend as a `Repository`. -/
def InMemoryStorage.repository : Repository InMemoryStorage :=
  { Save := InMemoryStorage.Save, Find := InMemoryStorage.Find,
    GetUUID := InMemoryStorage.GetUUID, CreateTable := InMemoryStorage.CreateTable }

/-! ## Relational backend (`internal/storage/postgres_storage.go`) -/

/-- Constructor `NewPostgresStorage` over a database whose table `urls` holds `urls`. -/
def NewPostgresStorage (urls : List UrlRow) : PostgresStorage := { urls := urls }

/-- Method `CreateTable` on a database that has the table: `IF NOT EXISTS` changes nothing. -/
def PostgresStorage.CreateTable (s : PostgresStorage) : PostgresStorage × Option String :=
  (s, none)

/-- Method `Save`: the `INSERT ... ON CONFLICT (short_url) DO NOTHING`. The values must fit
`VARCHAR(8)` and `VARCHAR(50)`; a row with the short URL makes the statement do nothing; a
row with the original URL under another short URL violates the unique index
`idx_original_url`; otherwise the row is added, not deleted. -/
def PostgresStorage.Save (s : PostgresStorage) (shortURL originalURL owner : String) :
    PostgresStorage × Option String :=
  if shortURL.length > 8 then (s, some "value too long for type character varying(8)")
  else if owner.length > 50 then (s, some "value too long for type character varying(50)")
  else if s.urls.any fun row => row.short_url == shortURL then (s, none)
  else if s.urls.any fun row => row.original_url == originalURL then
    (s, some "duplicate key value violates unique constraint idx_original_url")
  else
    let row : UrlRow :=
      { short_url := shortURL, original_url := originalURL, owner := owner, DeletedFlag := false }
    ({ urls := s.urls ++ [row] }, none)

/-- Method `Find`: the `SELECT original_url, DeletedFlag ... WHERE short_url = $1`, first
row; the sentinel `deleted` stands for a deleted row. -/
def PostgresStorage.Find (s : PostgresStorage) (shortURL : String) : String × Bool :=
  match s.urls.find? fun row => row.short_url == shortURL with
  | none => ("", false)
  | some row => if row.DeletedFlag then ("deleted", true) else (row.original_url, true)

/-- Method `GetUUID`: the `SELECT COUNT(*) FROM urls`. -/
def PostgresStorage.GetUUID (s : PostgresStorage) : Nat := s.urls.length

/-- Method `FindAllByOwner`: the `SELECT short_url, original_url ... WHERE owner = $1`. -/
def PostgresStorage.FindAllByOwner (s : PostgresStorage) (owner : String) :
    Except String (List ResponseToOwner) :=
  .ok ((s.urls.filter fun row => row.owner == owner).map fun row =>
    { ShortURL := "http://localhost:8080/" ++ row.short_url, OriginalURL := row.original_url })

/-- Method `DeleterURL`: the `UPDATE urls SET DeletedFlag = true WHERE short_url = $1 AND
owner = $2`. The wait group is not modelled. -/
def PostgresStorage.DeleterURL (s : PostgresStorage) (url user : String) :
    PostgresStorage × Option String :=
  ({ urls := s.urls.map fun row =>
      if row.short_url == url && row.owner == user then { row with DeletedFlag := true }
      else row }, none)

/-- Call `db.Begin()`: a transaction with nothing in it yet. -/
def PostgresStorage.Begin (_s : PostgresStorage) : Except String Tx := .ok {}

/-- Call `tx.Commit()`: the rows inserted through the transaction reach the table. -/
def PostgresStorage.Commit (tx : Tx) (s : PostgresStorage) : PostgresStorage × Option String :=
  ({ urls := s.urls ++ tx.pending }, none)

/-- Call `tx.Rollback()`: the rows inserted through the transaction are dropped; the table
keeps what was written outside it. -/
def PostgresStorage.Rollback (_tx : Tx) (s : PostgresStorage) : PostgresStorage := s

/-- The relational backend as a `Repository`; the type assertion succeeds on it. -/
def PostgresStorage.repository : Repository PostgresStorage :=
  { Save := PostgresStorage.Save, Find := PostgresStorage.Find,
    GetUUID := PostgresStorage.GetUUID, CreateTable := PostgresStorage.CreateTable,
    asPostgres := some
      { Begin := PostgresStorage.Begin, Commit := PostgresStorage.Commit,
        Rollback := PostgresStorage.Rollback,
        FindAllByOwner := PostgresStorage.FindAllByOwner,
        DeleterURL := PostgresStorage.DeleterURL } }

/-! ## Sequences of calls on the relational backend -/

/-- A later call on the relational backend that writes: `Save` or `DeleterURL`. -/
inductive StoreCall where
  | Save (shortURL originalURL owner : String)
  | DeleterURL (url user : String)
deriving DecidableEq, Repr

/-- The table after one call. -/
def PostgresStorage.call (s : PostgresStorage) : StoreCall → PostgresStorage
  | .Save shortURL originalURL owner => (s.Save shortURL originalURL owner).1
  | .DeleterURL url user => (s.DeleterURL url user).1

/-- The table after a sequence of calls, in order. -/
def PostgresStorage.calls (s : PostgresStorage) (cs : List StoreCall) : PostgresStorage :=
  cs.foldl PostgresStorage.call s

/-- The row `Find` reads for a short code is deleted. -/
def tombstoned (s : PostgresStorage) (C : String) : Prop :=
  ∃ row, s.urls.find? (fun row => row.short_url == C) = some row ∧ row.DeletedFlag = true

/-! ## Handlers (`internal/handlers/handler.go`) -/

/-- The handler `Handler` with its repository. -/
structure Handler (σ : Type) where
  repo : Repository σ

/-- Constructor `NewHandler`. -/
def NewHandler {σ : Type} (repo : Repository σ) : Handler σ := { repo := repo }

/-- One line of the export file: the anonymous struct `ToFile`. -/
structure ExportRecord where
  UUID : Nat
  ShortURL : String
  OriginalURL : String
deriving DecidableEq, Repr

/-- What persists across requests: the state of the repository and the lines `saveToFile`
appended to `config.Conf.File`. Failures of the file write, which the handlers ignore, are
not modelled. -/
structure Server (σ : Type) where
  store : σ
  file : List ExportRecord := []

/-- Short code of a URL: the first 8 characters of the hexadecimal SHA-1 digest. -/
def GenerateShortURL (url : String) : String :=
  String.mk ((hexEncode (sha1 (toBytes url))).take 8)

/-- The test `err != nil || parsedURL.Scheme == "" || parsedURL.Host == ""` the handlers
apply to the result of `url.ParseRequestURI`. -/
def rejectsURL (parsed : Except String URL) : Bool :=
  match parsed with
  | .error _ => true
  | .ok parsedURL => parsedURL.Scheme == "" || parsedURL.Host == ""

/-- The answer of every handler to a context that is already done. -/
def contextDone (e : ContextError) (w : ResponseWriter) : ResponseWriter :=
  if e = ContextError.DeadlineExceeded then httpError w "Request timed out" StatusGatewayTimeout
  else httpError w "Request cancelled by the client" StatusRequestTimeout

/-- Handler `Fpost`: shorten the URL in the plain-text body. -/
def Handler.Fpost {σ : Type} (h : Handler σ) (env : Env) (ctx : Context) :
    HandlerFunc (Server σ) :=
  fun sv w r =>
    match ctx.err with
    | some e => (sv, contextDone e w)
    | none =>
      match r.ctx.Value UserIDKey with
      | none => (sv, httpError w "User ID not found in context" StatusInternalServerError)
      | some userID =>
        match r.Body with
        | none => (sv, (w.WriteHeader StatusBadRequest).Write "Error reading the request body")
        | some originalURL =>
          if rejectsURL (env.ParseRequestURI originalURL) then
            (sv, (w.WriteHeader StatusBadRequest).Write
              "Url parsing error or empty schema or empty host")
          else
            let shortURL := GenerateShortURL originalURL
            let found := h.repo.Find sv.store shortURL
            if found.2 then
              (sv, ((w.SetHeader "Content-Type" "text/plain").WriteHeader StatusConflict).Write
                ("http://localhost:8080/" ++ shortURL))
            else
              let saved := h.repo.Save sv.store shortURL originalURL userID
              match saved.2 with
              | some _ =>
                ({ sv with store := saved.1 },
                  httpError w "Error saving the link to the repository" StatusInternalServerError)
              | none =>
                let path := if env.Conf.Result = "" then "http://localhost:8080" else env.Conf.Result
                let file :=
                  if env.Conf.File ≠ "" then
                    sv.file ++ [{ UUID := h.repo.GetUUID saved.1,
                                  ShortURL := "http://localhost:8080/" ++ shortURL,
                                  OriginalURL := originalURL }]
                  else sv.file
                let response := path ++ "/" ++ shortURL
                ({ store := saved.1, file := file },
                  ((w.SetHeader "Content-Type" "text/plain").WriteHeader StatusCreated).Write
                    response)

/-- Handler `Fget`: redirect from a short code to its URL. -/
def Handler.Fget {σ : Type} (h : Handler σ) (ctx : Context) : HandlerFunc (Server σ) :=
  fun sv w r =>
    match ctx.err with
    | some e => (sv, contextDone e w)
    | none =>
      let shortURL := URLParam r "shortURL"
      let found := h.repo.Find sv.store shortURL
      if found.1 = "deleted" then (sv, w.WriteHeader StatusGone)
      else if shortURL = "" then (sv, w.WriteHeader StatusBadRequest)
      else if !found.2 then
        (sv, (w.WriteHeader StatusBadRequest).Write "The link was not found in the repository.")
      else (sv, (w.SetHeader "Location" found.1).WriteHeader StatusTemporaryRedirect)

/-! ## Library calls of the JSON handlers (`encoding/json`, `strings`) -/

/-- What the handlers get from `encoding/json` and from reading the body: `json.Unmarshal`
and `Decoder.Decode` into each request type (an error message or the value),
`json.Marshal` of each response type, and the text of a failed read of the body. -/
structure Codec where
  UnmarshalModifyPost : String → Except String RequestModifyPost
  UnmarshalModifyGet : String → Except String RequestModifyGet
  DecodeReqBatch : String → Except String ReqBatch
  DecodeUserDelUrls : String → Except String UserDelUrls
  MarshalModifyPost : ResponseModifyPost → Except String String
  MarshalModifyGet : ResponseModifyGet → Except String String
  MarshalRespBatch : RespBatch → Except String String
  MarshalToOwner : List ResponseToOwner → Except String String
  readError : String

/-- Length `len(s)` of a Go string, in bytes. -/
def byteLen (s : String) : Nat := (toBytes s).length

/-- Test `strings.HasPrefix(s, p)`. -/
def startsWith (s p : String) : Bool := p.data.isPrefixOf s.data

/-- The characters of `s` with the first occurrence of `old` replaced by `new`. -/
def replaceFirstChars (old new : List Char) : List Char → List Char
  | [] => if old = [] then new else []
  | c :: cs =>
    if old.isPrefixOf (c :: cs) then new ++ (c :: cs).drop old.length
    else c :: replaceFirstChars old new cs

/-- Call `strings.Replace(s, old, new, 1)`. -/
def ReplaceFirst (s old new : String) : String :=
  String.mk (replaceFirstChars old.data new.data s.data)

/-! ## JSON handlers (`internal/handlers/handler.go`) -/

/-- The constant `maxURLLength` of `ModifPost`. -/
def maxURLLength : Nat := 2048

/-- Handler `ModifPost`: shorten the URL of a JSON body. -/
def Handler.ModifPost {σ : Type} (h : Handler σ) (env : Env) (codec : Codec) (ctx : Context) :
    HandlerFunc (Server σ) :=
  fun sv w r =>
    match ctx.err with
    | some e => (sv, contextDone e w)
    | none =>
      match r.Body with
      | none =>
        (sv, (httpError w codec.readError StatusBadRequest).Write "Error reading the request body")
      | some buf =>
        if byteLen buf = 0 then
          (sv, (w.WriteHeader StatusBadRequest).Write "Error: empty request body")
        else
          match codec.UnmarshalModifyPost buf with
          | .error _ => (sv, (w.WriteHeader StatusBadRequest).Write "An anmarshaling error")
          | .ok req =>
            if byteLen req.Body > maxURLLength then
              (sv, (w.WriteHeader StatusBadRequest).Write "Error: the request body is too long")
            else if rejectsURL (env.ParseRequestURI req.Body) then
              (sv, (w.WriteHeader StatusBadRequest).Write
                "Url parsing error or empty schema or empty host")
            else
              match r.ctx.Value UserIDKey with
              | none => (sv, httpError w "User ID not found in context" StatusInternalServerError)
              | some userID =>
                let shortURL := GenerateShortURL req.Body
                let found := h.repo.Find sv.store shortURL
                if found.2 then
                  match codec.MarshalModifyPost { Body := "http://localhost:8080/" ++ shortURL } with
                  | .error e => (sv, httpError w e StatusBadRequest)
                  | .ok resp =>
                    (sv, ((w.SetHeader "Content-Type" "application/json").WriteHeader
                      StatusConflict).Write resp)
                else
                  let saved := h.repo.Save sv.store shortURL req.Body userID
                  match saved.2 with
                  | some _ =>
                    ({ sv with store := saved.1 },
                      (w.WriteHeader StatusBadRequest).Write
                        "error saving the link to the repository")
                  | none =>
                    let file :=
                      if env.Conf.File ≠ "" then
                        sv.file ++ [{ UUID := h.repo.GetUUID saved.1,
                                      ShortURL := "http://localhost:8080/" ++ shortURL,
                                      OriginalURL := req.Body }]
                      else sv.file
                    match codec.MarshalModifyPost
                        { Body := "http://localhost:8080/" ++ shortURL } with
                    | .error e => ({ store := saved.1, file := file }, httpError w e StatusBadRequest)
                    | .ok resp =>
                      ({ store := saved.1, file := file },
                        ((w.SetHeader "Content-Type" "application/json").WriteHeader
                          StatusCreated).Write resp)

/-- Handler `ModifFget`: resolve a full short URL given in a JSON body. -/
def Handler.ModifFget {σ : Type} (h : Handler σ) (env : Env) (codec : Codec) (ctx : Context) :
    HandlerFunc (Server σ) :=
  fun sv w r =>
    match ctx.err with
    | some e => (sv, contextDone e w)
    | none =>
      match r.Body with
      | none =>
        (sv, (httpError w codec.readError StatusBadRequest).Write "Error reading the request body")
      | some buf =>
        if byteLen buf = 0 then
          (sv, (w.WriteHeader StatusBadRequest).Write "Error: empty request body")
        else
          match codec.UnmarshalModifyGet buf with
          | .error _ => (sv, (w.WriteHeader StatusBadRequest).Write "An anmarshaling error")
          | .ok req =>
            if rejectsURL (env.ParseRequestURI req.Body) then
              (sv, (w.WriteHeader StatusBadRequest).Write
                "Url parsing error or empty schema or empty host")
            else
              let baseURL :=
                if startsWith req.Body "http://127.0.0.1:8080/" then "http://127.0.0.1:8080/"
                else "http://localhost:8080/"
              let key := ReplaceFirst req.Body baseURL ""
              let found := h.repo.Find sv.store key
              if key = "" then
                (sv, (w.WriteHeader StatusBadRequest).Write
                  "Url parsing error or empty schema or empty host")
              else if !found.2 then
                (sv, (w.WriteHeader StatusBadRequest).Write
                  "The link was not found in the repository.")
              else
                match codec.MarshalModifyGet { Body := found.1 } with
                | .error e => (sv, httpError w e StatusBadRequest)
                | .ok resp =>
                  (sv, ((w.SetHeader "Content-Type" "application/json").WriteHeader
                    StatusOK).Write resp)

/-- The loop of `Batch` over the entries: each is saved through the repository, outside
the transaction; the first failure stops the loop (`none`), otherwise the responses are
collected in order. -/
def batchLoop {σ : Type} (h : Handler σ) (userID : String) (FlagToFile : Bool) :
    List MiniBatchReq → Server σ → RespBatch → Server σ × Option RespBatch
  | [], sv, resp => (sv, some resp)
  | req :: rest, sv, resp =>
    let shortURL := GenerateShortURL req.OriginalURL
    let saved := h.repo.Save sv.store shortURL req.OriginalURL userID
    match saved.2 with
    | some _ => ({ sv with store := saved.1 }, none)
    | none =>
      let file :=
        if FlagToFile then
          sv.file ++ [{ UUID := h.repo.GetUUID saved.1,
                        ShortURL := "http://localhost:8080/" ++ shortURL,
                        OriginalURL := req.OriginalURL }]
        else sv.file
      batchLoop h userID FlagToFile rest { store := saved.1, file := file }
        (resp ++ [{ ID := req.ID, ShortURL := "http://localhost:8080/" ++ shortURL }])

/-- Handler `Batch`: shorten every URL of a JSON array. The result is `none` when the type
assertion on the repository panics. The deferred `tx.Rollback()` runs at every return after
`db.Begin()`; after a commit it finds the transaction closed and does nothing. -/
def Handler.Batch {σ : Type} (h : Handler σ) (env : Env) (codec : Codec) (ctx : Context)
    (sv : Server σ) (w : ResponseWriter) (r : Request) : Option (Server σ × ResponseWriter) :=
  match ctx.err with
  | some e => some (sv, contextDone e w)
  | none =>
    match r.ctx.Value UserIDKey with
    | none => some (sv, httpError w "User ID not found in context" StatusInternalServerError)
    | some userID =>
      let decoded : Except String ReqBatch :=
        match r.Body with
        | none => .error codec.readError
        | some body => codec.DecodeReqBatch body
      let FlagToFile : Bool := env.Conf.File ≠ ""
      match decoded with
      | .error _ =>
        some (sv, httpError w "Error reading or unmarshaling the request body" StatusBadRequest)
      | .ok reqBatch =>
        if reqBatch.length = 0 then
          some (sv, httpError w "Error: empty request body" StatusBadRequest)
        else
          match h.repo.asPostgres with
          | none => none
          | some db =>
            match db.Begin sv.store with
            | .error _ =>
              some (sv, httpError w "Error starting the transaction" StatusInternalServerError)
            | .ok tx =>
              let looped := batchLoop h userID FlagToFile reqBatch sv []
              match looped.2 with
              | none =>
                some ({ looped.1 with store := db.Rollback tx looped.1.store },
                  httpError w "Error saving the link to the repository."
                    StatusInternalServerError)
              | some resp =>
                let committed := db.Commit tx looped.1.store
                match committed.2 with
                | some _ =>
                  some ({ looped.1 with store := db.Rollback tx committed.1 },
                    httpError w "Error committing the transaction" StatusInternalServerError)
                | none =>
                  match codec.MarshalRespBatch resp with
                  | .error _ =>
                    some ({ looped.1 with store := committed.1 },
                      httpError w "Error marshaling the response" StatusInternalServerError)
                  | .ok response =>
                    some ({ looped.1 with store := committed.1 },
                      ((w.SetHeader "Content-Type" "application/json").WriteHeader
                        StatusCreated).Write response)

/-- Status codes of `net/http` the owner handlers use. -/
def StatusAccepted : Nat := 202
def StatusNoContent : Nat := 204

/-! ## Owner handlers (`internal/handlers/handler.go`) -/

/-- Handler `GetUserURLs`: the links of the user. The result is `none` when the type
assertion on the repository panics. After a failed marshal the source does not return: the
`http.Error` is followed by the header, the status and the write of the nil text. -/
def Handler.GetUserURLs {σ : Type} (h : Handler σ) (codec : Codec) (ctx : Context)
    (sv : Server σ) (w : ResponseWriter) (r : Request) : Option (Server σ × ResponseWriter) :=
  match ctx.err with
  | some e => some (sv, contextDone e w)
  | none =>
    match r.ctx.Value UserIDKey with
    | none => some (sv, httpError w "User ID not found in context" StatusInternalServerError)
    | some userID =>
      match h.repo.asPostgres with
      | none => none
      | some db =>
        match db.FindAllByOwner sv.store userID with
        | .error _ =>
          some (sv, httpError w "Error retrieving URLs from storage" StatusInternalServerError)
        | .ok urls =>
          if urls.length = 0 then some (sv, w.WriteHeader StatusNoContent)
          else
            match codec.MarshalToOwner urls with
            | .error _ =>
              some (sv, ((((httpError w "Error with marshal" StatusBadRequest).SetHeader
                "Content-Type" "application/json").WriteHeader StatusOK).Write ""))
            | .ok resp =>
              some (sv, ((w.SetHeader "Content-Type" "application/json").WriteHeader
                StatusOK).Write resp)

/-- Handler `DelUserUrls`: soft delete of the listed codes for the user. The result is `none`
when the type assertion on the repository panics. The goroutines, one `DeleterURL` per code,
are joined before the answer; each runs one statement, and they are taken here one after
the other in the order of the list. Their errors are dropped. -/
def Handler.DelUserUrls {σ : Type} (h : Handler σ) (codec : Codec) (ctx : Context)
    (sv : Server σ) (w : ResponseWriter) (r : Request) : Option (Server σ × ResponseWriter) :=
  match ctx.err with
  | some e => some (sv, contextDone e w)
  | none =>
    match r.ctx.Value UserIDKey with
    | none => some (sv, httpError w "User ID not found in context" StatusInternalServerError)
    | some userID =>
      let decoded : Except String UserDelUrls :=
        match r.Body with
        | none => .error codec.readError
        | some body => codec.DecodeUserDelUrls body
      match decoded with
      | .error _ =>
        some (sv, httpError w "Error reading or unmarshaling the request body" StatusBadRequest)
      | .ok req =>
        if req.length = 0 then
          some (sv, httpError w "Error: empty request body" StatusBadRequest)
        else
          match h.repo.asPostgres with
          | none => none
          | some db =>
            let store := req.foldl (fun s url => (db.DeleterURL s url userID).1) sv.store
            some ({ sv with store := store }, w.WriteHeader StatusAccepted)

/-- The choice of `main` between the backends: the relational one when `config.Conf.DB` is
set, the in-memory one otherwise. -/
def usesPostgres (conf : ConfigFlags) : Bool := conf.DB ≠ ""

/-! ## Sequences of calls on the in-memory backend -/

/-- A call of a method of the interface `Repository`. -/
inductive MemCall where
  | Save (shortURL originalURL owner : String)
  | Find (shortURL : String)
  | GetUUID
  | CreateTable
deriving DecidableEq, Repr

/-- The in-memory store after one call. -/
def InMemoryStorage.call (s : InMemoryStorage) : MemCall → InMemoryStorage
  | .Save shortURL originalURL owner => (s.Save shortURL originalURL owner).1
  | .Find _ => s
  | .GetUUID => s
  | .CreateTable => (s.CreateTable).1

/-- The in-memory store after a sequence of calls, in order. -/
def InMemoryStorage.calls (s : InMemoryStorage) (cs : List MemCall) : InMemoryStorage :=
  cs.foldl InMemoryStorage.call s

/-- The number of `Save` calls in a sequence. -/
def countSaves (cs : List MemCall) : Nat :=
  (cs.filter fun c => match c with | .Save _ _ _ => true | _ => false).length

/-! ## Sequences of shorten requests -/

/-- A shorten request with the context and the writer it is served with. -/
inductive ShortenRequest where
  | Fpost (ctx : Context) (w : ResponseWriter) (r : Request)
  | ModifPost (ctx : Context) (w : ResponseWriter) (r : Request)

/-- The server state after one shorten request. -/
def Handler.serve {σ : Type} (h : Handler σ) (env : Env) (codec : Codec) (sv : Server σ) :
    ShortenRequest → Server σ
  | .Fpost ctx w r => (h.Fpost env ctx sv w r).1
  | .ModifPost ctx w r => (h.ModifPost env codec ctx sv w r).1

/-- The server state after a sequence of shorten requests, one after another. -/
def Handler.serveAll {σ : Type} (h : Handler σ) (env : Env) (codec : Codec) (sv : Server σ)
    (reqs : List ShortenRequest) : Server σ :=
  reqs.foldl (h.serve env codec) sv

/-! ## A concrete environment

The theorems below hold for every `Env`. To run the model on concrete requests an
environment is fixed here. Its parser follows `url.ParseRequestURI` of `net/url` on raw
URLs without `%`, `@` or `[` (no escapes, user information or bracketed addresses) and
rejects the others; it returns the scheme and the host only. -/

/-- Control bytes, which the library refuses anywhere in a URL. -/
def isCTL (c : Char) : Bool := c.toNat < 0x20 || c.toNat == 0x7f

/-- Scan of `getScheme`: the scheme before the first colon and the rest, or no scheme when a
character that cannot be in a scheme comes first. -/
def getScheme (raw : List Char) : Nat → List Char → Except String (List Char × List Char)
  | _, [] => .ok ([], raw)
  | i, c :: cs =>
    if c.isAlpha then getScheme raw (i + 1) cs
    else if c.isDigit || c == '+' || c == '-' || c == '.' then
      if i = 0 then .ok ([], raw) else getScheme raw (i + 1) cs
    else if c == ':' then
      if i = 0 then .error "missing protocol scheme" else .ok (raw.take i, cs)
    else .ok ([], raw)

/-- Punctuation the library leaves unescaped in a host, by code point:
the characters of `!$&()*+,;=:[]<>-_.~` and the two quote marks. -/
def hostPunctuation : List Nat :=
  [0x21, 0x24, 0x26, 0x27, 0x28, 0x29, 0x2a, 0x2b, 0x2c, 0x3b, 0x3d, 0x3a, 0x5b, 0x5d, 0x3c,
    0x3e, 0x22, 0x2d, 0x5f, 0x2e, 0x7e]

/-- Characters accepted in a host. -/
def validHostChar (c : Char) : Bool :=
  c.isAlphanum || hostPunctuation.contains c.toNat || 0x80 ≤ c.toNat

/-- Check of `validOptionalPort` on the host from its last colon on: digits only. -/
def validPortOf (host : List Char) : Bool :=
  !host.contains ':' || (host.reverse.takeWhile fun c => c != ':').all Char.isDigit

/-- Stand-in for `url.ParseRequestURI` on the fragment described above. -/
def sampleParseRequestURI (rawURL : String) : Except String URL :=
  let raw := rawURL.data
  if raw.any isCTL then .error "net/url: invalid control character in URL"
  else if raw = [] then .error "empty url"
  else if raw = ['*'] then .ok { Scheme := "", Host := "" }
  else if raw.any fun c => c == '%' || c == '@' || c == '[' then
    .error "not covered by the sample parser"
  else
    match getScheme raw 0 raw with
    | .error e => .error e
    | .ok (scheme, rest0) =>
      let scheme := String.mk (scheme.map Char.toLower)
      let rest := rest0.takeWhile fun c => c != '?'
      if rest.head? ≠ some '/' then
        if scheme ≠ "" then .ok { Scheme := scheme, Host := "" }
        else .error "invalid URI for request"
      else if scheme ≠ "" ∧ rest.take 2 = ['/', '/'] then
        let authority := (rest.drop 2).takeWhile fun c => c != '/'
        if !validPortOf authority then .error "invalid port after host"
        else if !authority.all validHostChar then .error "invalid character in host name"
        else .ok { Scheme := scheme, Host := String.mk authority }
      else .ok { Scheme := scheme, Host := "" }

/-- The configuration of the test suite with the default base URL and no export file. -/
def sampleConf : ConfigFlags :=
  { Start := ":8080", Result := "http://localhost:8080", File := "", DB := "",
    Key := "test-secret-key" }

/-- A concrete environment. -/
def sampleEnv : Env :=
  { Conf := sampleConf, ParseRequestURI := sampleParseRequestURI,
    random := [0x12, 0x34, 0x56, 0x78, 0x9a, 0xbc, 0xde, 0xf0, 0x0f, 0x1e, 0x2d, 0x3c, 0x4b,
      0x5a, 0x69, 0x78],
    now := 1700000000 }

/-! ## A concrete codec

To run the JSON handlers on concrete requests a codec is fixed here. It follows
`encoding/json` on the compact texts `json.Marshal` produces for the request types: no
white space, the fields in the order of the struct, strings without escape sequences. It
rejects every other text. Its encoder escapes as the library does and leaves out the
control characters other than line feed, carriage return and tab. -/

/-- The double quote. -/
def quoteChar : Char := Char.ofNat 34

/-- The backslash. -/
def backslashChar : Char := Char.ofNat 92

/-- The opening brace. -/
def openBrace : Char := Char.ofNat 123

/-- The closing brace. -/
def closeBrace : Char := Char.ofNat 125

/-- The rest of `s` after the literal `lit`, if `s` starts with it. -/
def stripLit (lit s : List Char) : Option (List Char) :=
  if lit.isPrefixOf s then some (s.drop lit.length) else none

/-- A string literal from its opening quote on: the content and the rest after the closing
quote. Contents with a backslash or a control character are not covered. -/
def readString (s : List Char) : Option (List Char × List Char) :=
  match s with
  | [] => none
  | q :: s1 =>
    if q ≠ quoteChar then none
    else
      let content := s1.takeWhile fun c => c != quoteChar
      if content.any fun c => c == backslashChar || c.toNat < 0x20 then none
      else
        match s1.drop content.length with
        | [] => none
        | _ :: rest => some (content, rest)

/-- The text of a key with its colon: the key in quotes, then `:`. -/
def keyText (k : String) : List Char := quoteChar :: k.data ++ [quoteChar, ':']

/-- An object with one string field `k`. -/
def readObject1 (k : String) (s : List Char) : Option (String × List Char) := do
  let s1 ← stripLit (openBrace :: keyText k) s
  let (v, s2) ← readString s1
  let s3 ← stripLit [closeBrace] s2
  pure (String.mk v, s3)

/-- An object with two string fields `k1`, `k2`, in this order. -/
def readObject2 (k1 k2 : String) (s : List Char) : Option ((String × String) × List Char) := do
  let s1 ← stripLit (openBrace :: keyText k1) s
  let (v1, s2) ← readString s1
  let s3 ← stripLit (',' :: keyText k2) s2
  let (v2, s4) ← readString s3
  let s5 ← stripLit [closeBrace] s4
  pure ((String.mk v1, String.mk v2), s5)

/-- The items of an array after its opening bracket, at most `fuel` of them. -/
def readItems {α : Type} (item : List Char → Option (α × List Char)) :
    Nat → List Char → Option (List α × List Char)
  | 0, _ => none
  | fuel + 1, s =>
    match item s with
    | none => none
    | some (a, rest) =>
      match rest with
      | ',' :: rest1 => (readItems item fuel rest1).map fun p => (a :: p.1, p.2)
      | ']' :: rest1 => some ([a], rest1)
      | _ => none

/-- An array of items. -/
def readArray {α : Type} (item : List Char → Option (α × List Char)) (s : List Char) :
    Option (List α × List Char) :=
  match s with
  | '[' :: ']' :: rest => some ([], rest)
  | '[' :: rest => readItems item rest.length rest
  | _ => none

/-- Escape of one character in a JSON string, as `json.Marshal` writes it. -/
def escapeChar (c : Char) : Option (List Char) :=
  if c = quoteChar then some [backslashChar, quoteChar]
  else if c = backslashChar then some [backslashChar, backslashChar]
  else if c.toNat = 10 then some [backslashChar, 'n']
  else if c.toNat = 13 then some [backslashChar, 'r']
  else if c.toNat = 9 then some [backslashChar, 't']
  else if c.toNat < 0x20 then none
  else if c = '<' then some (backslashChar :: "u003c".data)
  else if c = '>' then some (backslashChar :: "u003e".data)
  else if c = '&' then some (backslashChar :: "u0026".data)
  else if c.toNat = 0x2028 then some (backslashChar :: "u2028".data)
  else if c.toNat = 0x2029 then some (backslashChar :: "u2029".data)
  else some [c]

/-- A string as JSON text, in quotes. -/
def writeString (s : String) : Except String (List Char) :=
  match s.data.mapM escapeChar with
  | none => .error "not covered by the sample encoder"
  | some parts => .ok (quoteChar :: parts.flatten ++ [quoteChar])

/-- An object with one string field as JSON text. -/
def writeObject1 (k v : String) : Except String (List Char) :=
  match writeString v with
  | .error e => .error e
  | .ok t => .ok (openBrace :: keyText k ++ t ++ [closeBrace])

/-- An object with two string fields as JSON text. -/
def writeObject2 (k1 v1 k2 v2 : String) : Except String (List Char) :=
  match writeString v1, writeString v2 with
  | .ok t1, .ok t2 => .ok (openBrace :: keyText k1 ++ t1 ++ ',' :: keyText k2 ++ t2 ++ [closeBrace])
  | _, _ => .error "not covered by the sample encoder"

/-- An array of items as JSON text; the empty slice of the handlers is never written. -/
def writeArray (items : List (Except String (List Char))) : Except String String :=
  match items.mapM fun i => i.toOption with
  | none => .error "not covered by the sample encoder"
  | some texts => .ok (String.mk ('[' :: (texts.intersperse [',']).flatten ++ [']']))

/-- Whole-text decoding: the value when nothing follows it. -/
def wholeText {α : Type} (parsed : Option (α × List Char)) : Except String α :=
  match parsed with
  | some (a, []) => .ok a
  | _ => .error "not covered by the sample decoder"

/-- Stream decoding: the first value of the text. -/
def firstValue {α : Type} (parsed : Option (α × List Char)) : Except String α :=
  match parsed with
  | some (a, _) => .ok a
  | none => .error "not covered by the sample decoder"

/-- A concrete codec. -/
def sampleCodec : Codec :=
  { UnmarshalModifyPost := fun s => wholeText ((readObject1 "url" s.data).map fun p =>
      (({ Body := p.1 } : RequestModifyPost), p.2)),
    UnmarshalModifyGet := fun s => wholeText ((readObject1 "short-url" s.data).map fun p =>
      (({ Body := p.1 } : RequestModifyGet), p.2)),
    DecodeReqBatch := fun s => firstValue (readArray (fun t =>
      (readObject2 "correlation_id" "original_url" t).map fun p =>
        (({ ID := p.1.1, OriginalURL := p.1.2 } : MiniBatchReq), p.2)) s.data),
    DecodeUserDelUrls := fun s => firstValue (readArray (fun t =>
      (readString t).map fun p => (String.mk p.1, p.2)) s.data),
    MarshalModifyPost := fun v => (writeObject1 "result" v.Body).map String.mk,
    MarshalModifyGet := fun v => (writeObject1 "result" v.Body).map String.mk,
    MarshalRespBatch := fun vs => writeArray (vs.map fun v =>
      writeObject2 "correlation_id" v.ID "short_url" v.ShortURL),
    MarshalToOwner := fun vs => writeArray (vs.map fun v =>
      writeObject2 "short_url" v.ShortURL "original_url" v.OriginalURL),
    readError := "unexpected EOF" }

/-- Characters the sample decoder reads inside a string. -/
def plainChar (c : Char) : Bool := c != quoteChar && c != backslashChar && !(c.toNat < 0x20)

/-! ## Counting signatures

Two devices for comparing the number of user ids with the number of MACs. -/

/-- The MAC as a point of a finite type. -/
def macPoint (key : List Nat) (id : String) : Fin 32 → Fin 256 :=
  fun i => ⟨(hmacSha256 key (toBytes id)).getD i.val 0 % 256, Nat.mod_lt _ (by decide)⟩

/-- The id spelled by `n` letters, each `a` or `b`. -/
def idOfBits {n : Nat} (v : Fin n → Bool) : String :=
  String.mk (List.ofFn fun i => if v i then 'a' else 'b')

/-! # Theorems -/

/-! ## Splitting -/

theorem splitChars_ne_nil (sep : Char) (l : List Char) : splitChars sep l ≠ [] := by
  cases l with
  | nil => simp [splitChars]
  | cons c cs =>
    simp only [splitChars]
    split
    · simp
    · split <;> simp

theorem splitChars_length (sep : Char) (l : List Char) :
    (splitChars sep l).length = l.count sep + 1 := by
  induction l with
  | nil => simp [splitChars]
  | cons c cs ih =>
    simp only [splitChars]
    by_cases h : c = sep
    · subst h
      simp [ih]
    · rw [if_neg h]
      have hne := splitChars_ne_nil sep cs
      rw [List.count_cons_of_ne (Ne.symm h)]
      cases hs : splitChars sep cs with
      | nil => exact absurd hs hne
      | cons p ps => rw [hs] at ih; simpa using ih

theorem splitChars_of_not_mem (sep : Char) (l : List Char) (h : sep ∉ l) :
    splitChars sep l = [l] := by
  induction l with
  | nil => simp [splitChars]
  | cons c cs ih =>
    have hc : c ≠ sep := fun e => h (by simp [e])
    have hcs : sep ∉ cs := fun e => h (by simp [e])
    simp [splitChars, hc, ih hcs]

theorem splitChars_append (sep : Char) (a b : List Char) (h : sep ∉ a) :
    splitChars sep (a ++ sep :: b) = a :: splitChars sep b := by
  induction a with
  | nil => simp [splitChars]
  | cons c cs ih =>
    have hc : c ≠ sep := fun e => h (by simp [e])
    have hcs : sep ∉ cs := fun e => h (by simp [e])
    simp [splitChars, hc, ih hcs]

theorem Split_length (s : String) (sep : Char) :
    (Split s sep).length = s.data.count sep + 1 := by
  simp [Split, splitChars_length]

theorem Split_two (a b : String) (sep : Char) (ha : sep ∉ a.data) (hb : sep ∉ b.data) :
    Split (a ++ String.singleton sep ++ b) sep = [a, b] := by
  simp [Split, String.data_append, splitChars_append sep a.data b.data ha,
    splitChars_of_not_mem sep b.data hb]


/-! ## Encodings -/

theorem getD_mem_or_default {α : Type} (l : List α) (n : Nat) (d : α) :
    l.getD n d ∈ l ∨ l.getD n d = d := by
  induction l generalizing n with
  | nil => simp
  | cons a as ih =>
    cases n with
    | zero => simp
    | succ m =>
      rcases ih m with h | h
      · left; simpa using Or.inr h
      · right; simpa using h

theorem base64Char_mem (n : Nat) : base64Char n ∈ base64Alphabet := by
  rcases getD_mem_or_default base64Alphabet n 'A' with h | h
  · exact h
  · unfold base64Char; rw [h]; decide

theorem hexDigit_mem (n : Nat) : hexDigit n ∈ hexDigits := by
  rcases getD_mem_or_default hexDigits n '0' with h | h
  · exact h
  · unfold hexDigit; rw [h]; decide

theorem base64Encode_mem (bs : List Nat) :
    ∀ c ∈ base64Encode bs, c ∈ base64Alphabet ∨ c = '=' := by
  induction bs using base64Encode.induct with
  | case1 b0 b1 b2 rest ih =>
    intro c hc
    simp only [base64Encode, List.mem_cons] at hc
    rcases hc with h | h | h | h | h
    · left; rw [h]; exact base64Char_mem _
    · left; rw [h]; exact base64Char_mem _
    · left; rw [h]; exact base64Char_mem _
    · left; rw [h]; exact base64Char_mem _
    · exact ih c h
  | case2 b0 b1 =>
    intro c hc
    simp only [base64Encode, List.mem_cons, List.mem_singleton, List.not_mem_nil,
      or_false] at hc
    rcases hc with h | h | h | h
    · left; rw [h]; exact base64Char_mem _
    · left; rw [h]; exact base64Char_mem _
    · left; rw [h]; exact base64Char_mem _
    · right; exact h
  | case3 b0 =>
    intro c hc
    simp only [base64Encode, List.mem_cons, List.mem_singleton, List.not_mem_nil,
      or_false] at hc
    rcases hc with h | h | h | h
    · left; rw [h]; exact base64Char_mem _
    · left; rw [h]; exact base64Char_mem _
    · right; exact h
    · right; exact h
  | case4 => intro c hc; simp [base64Encode] at hc

theorem base64Alphabet_ascii : ∀ c ∈ base64Alphabet, c.toNat < 0x80 ∧ c ≠ '|' := by decide

theorem hexDigits_plain : ∀ c ∈ hexDigits, c.toNat < 0x80 ∧ c ≠ '|' := by decide

/-- A signature is ASCII text without the separator. -/
theorem SignData_chars (env : Env) (data : String) :
    ∀ c ∈ (SignData env data).data, c.toNat < 0x80 ∧ c ≠ '|' := by
  intro c hc
  simp only [SignData] at hc
  rcases base64Encode_mem _ c hc with h | h
  · exact base64Alphabet_ascii c h
  · rw [h]; decide

theorem utf8Bytes_ascii (c : Char) (h : c.toNat < 0x80) : utf8Bytes c = [c.toNat] := by
  simp [utf8Bytes, h]

theorem utf8Bytes_head (c : Char) :
    ∃ b bs, utf8Bytes c = b :: bs ∧ (b < 0x80 → c.toNat < 0x80) := by
  unfold utf8Bytes
  by_cases h1 : c.toNat < 0x80
  · simp [h1]
  · by_cases h2 : c.toNat < 0x800
    · simp [h1, h2]; omega
    · by_cases h3 : c.toNat < 0x10000
      · simp [h1, h2, h3]; omega
      · simp [h1, h2, h3]; omega

theorem flatMap_utf8_inj_of_ascii (s t : List Char) (ht : ∀ c ∈ t, c.toNat < 0x80)
    (h : s.flatMap utf8Bytes = t.flatMap utf8Bytes) : s = t := by
  induction s generalizing t with
  | nil =>
    cases t with
    | nil => rfl
    | cons d ds =>
      have hd := utf8Bytes_ascii d (ht d (by simp))
      simp [List.flatMap_cons, hd] at h
  | cons c cs ih =>
    obtain ⟨b, bs, hb, hlt⟩ := utf8Bytes_head c
    cases t with
    | nil => simp [List.flatMap_cons, hb] at h
    | cons d ds =>
      have hdlt := ht d (by simp)
      have hd := utf8Bytes_ascii d hdlt
      rw [List.flatMap_cons, List.flatMap_cons, hd, hb] at h
      simp only [List.cons_append, List.nil_append, List.cons.injEq] at h
      have hc : c.toNat < 0x80 := hlt (by omega)
      have hc2 := utf8Bytes_ascii c hc
      rw [hc2] at hb
      simp only [List.cons.injEq] at hb
      have hcd : c = d := by
        apply Char.ext
        apply UInt32.ext
        have : c.toNat = d.toNat := by omega
        exact this
      rw [← hb.2] at h
      simp only [List.nil_append] at h
      rw [hcd, ih ds (fun x hx => ht x (by simp [hx])) h.2]

theorem toBytes_inj_of_ascii (s t : String) (ht : ∀ c ∈ t.data, c.toNat < 0x80)
    (h : toBytes s = toBytes t) : s = t := by
  have := flatMap_utf8_inj_of_ascii s.data t.data ht h
  exact String.ext this

/-- The check succeeds exactly on the recomputed signature. -/
theorem verifyData_iff (env : Env) (data signature : String) :
    verifyData env data signature = true ↔ signature = SignData env data := by
  simp only [verifyData, hmacEqual, beq_iff_eq]
  constructor
  · intro h
    exact toBytes_inj_of_ascii signature (SignData env data)
      (fun c hc => (SignData_chars env data c hc).1) h.symm
  · intro h; rw [h]


theorem hexEncode_mem (bs : List Nat) : ∀ c ∈ hexEncode bs, c ∈ hexDigits := by
  intro c hc
  simp only [hexEncode, List.mem_flatMap, List.mem_cons, List.mem_singleton, List.not_mem_nil,
    or_false] at hc
  obtain ⟨b, _, h | h⟩ := hc
  · rw [h]; exact hexDigit_mem _
  · rw [h]; exact hexDigit_mem _

theorem hexEncode_length (bs : List Nat) : (hexEncode bs).length = 2 * bs.length := by
  induction bs with
  | nil => rfl
  | cons b bs ih =>
    simp only [hexEncode, List.flatMap_cons, List.length_append, List.length_cons,
      List.length_nil] at ih ⊢
    omega

/-- A minted user id is hexadecimal with dashes: it has no separator in it. -/
theorem uuidString_no_bar (b : List Nat) : '|' ∉ (uuidString b).data := by
  have key : ∀ bs : List Nat, '|' ∉ hexEncode bs := fun bs hm =>
    (hexDigits_plain _ (hexEncode_mem bs _ hm)).2 rfl
  have dash : ¬ '|' = '-' := by decide
  have main : ∀ u : List Nat, '|' ∉ hexEncode (u.take 4) ++ '-' :: hexEncode ((u.drop 4).take 2) ++
      '-' :: hexEncode ((u.drop 6).take 2) ++ '-' :: hexEncode ((u.drop 8).take 2) ++
      '-' :: hexEncode (u.drop 10) := by
    intro u h
    simp only [List.mem_append, List.mem_cons, key, dash, or_self] at h
  exact main _

theorem Split_signed (id sig : String) (hid : '|' ∉ id.data) (hsig : '|' ∉ sig.data) :
    Split (id ++ "|" ++ sig) '|' = [id, sig] :=
  Split_two id sig '|' hid hsig

/-- The extraction accepts `id|SignData(id)` when the id has no separator. -/
theorem extract_of_signed (env : Env) (r : Request) (cookie : Cookie) (id : String)
    (hcookie : r.Cookie "session" = some cookie)
    (hvalue : cookie.Value = id ++ "|" ++ SignData env id) (hid : '|' ∉ id.data) :
    ExtractUserIDFromCookie env r = (id, none) := by
  have hsig : '|' ∉ (SignData env id).data := fun h => (SignData_chars env id _ h).2 rfl
  have hv : verifyData env id (SignData env id) = true := (verifyData_iff env id _).2 rfl
  simp [ExtractUserIDFromCookie, hcookie, hvalue, Split_signed id _ hid hsig, hv]

/-- The extraction rejects `id|sig` with one separator when `sig` is not the signature. -/
theorem extract_of_bad_signature (env : Env) (r : Request) (cookie : Cookie)
    (id sig : String) (hcookie : r.Cookie "session" = some cookie)
    (hvalue : cookie.Value = id ++ "|" ++ sig)
    (hid : '|' ∉ id.data) (hsig : '|' ∉ sig.data) (hne : sig ≠ SignData env id) :
    ExtractUserIDFromCookie env r = ("", some "invalid signature") := by
  have hv : verifyData env id sig = false := by
    cases h : verifyData env id sig with
    | false => rfl
    | true => exact absurd ((verifyData_iff env id sig).1 h) hne
  simp [ExtractUserIDFromCookie, hcookie, hvalue, Split_signed id sig hid hsig, hv]

/-- With a `session` cookie whose value does not split in two, the extraction reports a
malformed cookie, whatever the environment. -/
theorem extract_of_malformed (env : Env) (r : Request) (cookie : Cookie)
    (hcookie : r.Cookie "session" = some cookie)
    (hlen : (Split cookie.Value '|').length ≠ 2) :
    ExtractUserIDFromCookie env r = ("", some "invalid cookie format") := by
  simp [ExtractUserIDFromCookie, hcookie, hlen]

/-- The error of the extraction is one of three, and the user id is empty with each. -/
theorem ExtractUserIDFromCookie_err (env : Env) (r : Request) (e : String)
    (h : (ExtractUserIDFromCookie env r).2 = some e) :
    (ExtractUserIDFromCookie env r).1 = "" := by
  unfold ExtractUserIDFromCookie at h ⊢
  cases hc : r.Cookie "session" with
  | none => simp
  | some cookie =>
    simp only [hc] at h ⊢
    split
    · rfl
    · split
      · rfl
      · rename_i h1 h2
        rw [if_neg h1, if_neg h2] at h
        simp at h

/-! ## Response writers -/

theorem httpError_status (w : ResponseWriter) (msg : String) (code : Nat)
    (hw : w.status = none) : (httpError w msg code).status = some code := by
  simp [httpError, ResponseWriter.Write, ResponseWriter.WriteHeader, ResponseWriter.SetHeader,
    ResponseWriter.DelHeader, hw]

theorem httpError_cookies (w : ResponseWriter) (msg : String) (code : Nat) :
    (httpError w msg code).cookies = w.cookies := by
  simp only [httpError, ResponseWriter.Write, ResponseWriter.WriteHeader,
    ResponseWriter.SetHeader, ResponseWriter.DelHeader]
  cases w.status <;> rfl

theorem httpError_body (w : ResponseWriter) (msg : String) (code : Nat) :
    (httpError w msg code).body = w.body ++ (msg ++ "\n") := by
  simp only [httpError, ResponseWriter.Write, ResponseWriter.WriteHeader,
    ResponseWriter.SetHeader, ResponseWriter.DelHeader]
  cases w.status <;> rfl

/-- The extraction fails on a missing cookie, on a malformed one and on a wrong signature. -/
theorem extract_fails (env : Env) (r : Request)
    (hbad : r.Cookie "session" = none ∨
      ∃ cookie, r.Cookie "session" = some cookie ∧
        (cookie.Value.data.count '|' ≠ 1 ∨
          ∃ id sig, cookie.Value = id ++ "|" ++ sig ∧ '|' ∉ id.data ∧ '|' ∉ sig.data ∧
            sig ≠ SignData env id)) :
    (ExtractUserIDFromCookie env r).2 ≠ none := by
  rcases hbad with h | ⟨cookie, hc, h | ⟨id, sig, hv, hid, hsig, hne⟩⟩
  · simp [ExtractUserIDFromCookie, h]
  · have hlen := Split_length cookie.Value '|'
    rw [extract_of_malformed env r cookie hc (by omega)]
    simp
  · rw [extract_of_bad_signature env r cookie id sig hc hv hid hsig hne]
    simp

/-! ## Short codes -/

theorem beBytes_length (n x : Nat) : (beBytes n x).length = n := by
  induction n with
  | zero => rfl
  | succ n ih => simp [beBytes, ih]

theorem sha1_length (msg : List Nat) : (sha1 msg).length = 20 := by
  simp [sha1, beBytes_length]

theorem GenerateShortURL_length (url : String) : (GenerateShortURL url).length = 8 := by
  simp [GenerateShortURL, hexEncode_length, sha1_length]

theorem GenerateShortURL_ne_empty (url : String) : GenerateShortURL url ≠ "" := by
  intro h
  have := GenerateShortURL_length url
  rw [h] at this
  simp at this

theorem GenerateShortURL_hex (url : String) :
    ∀ c ∈ (GenerateShortURL url).data, c ∈ hexDigits := by
  intro c hc
  simp only [GenerateShortURL] at hc
  exact hexEncode_mem _ c (List.mem_of_mem_take hc)

/-! ## In-memory store -/

theorem mapGet_mapSet_self (m : List (String × URLData)) (k : String) (v : URLData) :
    mapGet (mapSet m k v) k = some v := by
  simp [mapGet, mapSet]

theorem InMemoryStorage_Find_Save (s : InMemoryStorage) (shortURL originalURL owner : String) :
    (s.Save shortURL originalURL owner).1.Find shortURL = (originalURL, true) := by
  simp [InMemoryStorage.Save, InMemoryStorage.Find, mapGet_mapSet_self]

/-! ## Response writers, continued -/

theorem contextDone_status_ne (e : ContextError) (w : ResponseWriter) (hw : w.status = none)
    (code : Nat) (h504 : code ≠ 504) (h408 : code ≠ 408) :
    (contextDone e w).status ≠ some code := by
  unfold contextDone
  split
  · rw [httpError_status w _ _ hw]; simpa [StatusGatewayTimeout] using Ne.symm h504
  · rw [httpError_status w _ _ hw]; simpa [StatusRequestTimeout] using Ne.symm h408

theorem writeHeader_write_status (w : ResponseWriter) (code : Nat) (b : String)
    (hw : w.status = none) : ((w.WriteHeader code).Write b).status = some code := by
  simp [ResponseWriter.Write, ResponseWriter.WriteHeader, hw]

theorem writeHeader_write_body (w : ResponseWriter) (code : Nat) (b : String) :
    ((w.WriteHeader code).Write b).body = w.body ++ b := by
  obtain ⟨hd, ck, st, bd⟩ := w
  cases st <;> rfl

/-- What `Fpost` does with a body the validation rejects. -/
theorem Fpost_of_rejected {σ : Type} (h : Handler σ) (env : Env) (ctx : Context)
    (sv : Server σ) (w : ResponseWriter) (r : Request) (body : String)
    (hbody : r.Body = some body) (hbad : rejectsURL (env.ParseRequestURI body) = true) :
    (h.Fpost env ctx sv w r).1 = sv ∧
      (ctx.err = none → ∀ userID, r.ctx.Value UserIDKey = some userID →
        (h.Fpost env ctx sv w r).2 =
          (w.WriteHeader StatusBadRequest).Write
            "Url parsing error or empty schema or empty host") := by
  constructor
  · unfold Handler.Fpost
    cases ctx.err with
    | some e => rfl
    | none =>
      cases r.ctx.Value UserIDKey with
      | none => rfl
      | some userID => simp [hbody, hbad]
  · intro hctx userID hu
    simp [Handler.Fpost, hctx, hu, hbody, hbad]

/-- What `Fpost` does with a valid URL on the in-memory store, by whether its code is held. -/
theorem Fpost_of_valid (env : Env) (ctx : Context) (sv : Server InMemoryStorage)
    (w : ResponseWriter) (r : Request) (U userID : String)
    (hctx : ctx.err = none) (hu : r.ctx.Value UserIDKey = some userID)
    (hbody : r.Body = some U) (hvalid : rejectsURL (env.ParseRequestURI U) = false) :
    ((sv.store.Find (GenerateShortURL U)).2 = true →
      (NewHandler InMemoryStorage.repository).Fpost env ctx sv w r =
        (sv, ((w.SetHeader "Content-Type" "text/plain").WriteHeader StatusConflict).Write
          ("http://localhost:8080/" ++ GenerateShortURL U))) ∧
    ((sv.store.Find (GenerateShortURL U)).2 = false →
      ((NewHandler InMemoryStorage.repository).Fpost env ctx sv w r).1.store =
          (sv.store.Save (GenerateShortURL U) U userID).1 ∧
        ((NewHandler InMemoryStorage.repository).Fpost env ctx sv w r).2 =
          ((w.SetHeader "Content-Type" "text/plain").WriteHeader StatusCreated).Write
            ((if env.Conf.Result = "" then "http://localhost:8080" else env.Conf.Result) ++
              "/" ++ GenerateShortURL U)) := by
  constructor
  · intro hf
    have hf2 : (InMemoryStorage.repository.Find sv.store (GenerateShortURL U)).2 = true := hf
    simp [Handler.Fpost, NewHandler, hctx, hu, hbody, hvalid, hf2]
  · intro hf
    have hf2 : (InMemoryStorage.repository.Find sv.store (GenerateShortURL U)).2 = false := hf
    have hs : ∀ a b c, (InMemoryStorage.repository.Save sv.store a b c).2 = none :=
      fun _ _ _ => rfl
    have hs1 : ∀ a b c, (InMemoryStorage.repository.Save sv.store a b c).1 =
      (sv.store.Save a b c).1 := fun _ _ _ => rfl
    constructor
    · simp only [Handler.Fpost, NewHandler, hctx, hu, hbody, hvalid, hf2, hs]
      simp [hs1]
    · simp only [Handler.Fpost, NewHandler, hctx, hu, hbody, hvalid, hf2, hs]
      simp

theorem rejectsURL_iff (parsed : Except String URL) :
    rejectsURL parsed = true ↔
      (∃ e, parsed = .error e) ∨ ∃ u, parsed = .ok u ∧ (u.Scheme = "" ∨ u.Host = "") := by
  cases parsed with
  | error e => simp [rejectsURL]
  | ok u => simp [rejectsURL]

/-- A fresh writer answers 201 from `Fpost` only on a live context that carries a user id. -/
theorem Fpost_created_inv {σ : Type} (h : Handler σ) (env : Env) (ctx : Context)
    (sv : Server σ) (w : ResponseWriter) (r : Request) (hw : w.status = none)
    (hcreated : (h.Fpost env ctx sv w r).2.status = some StatusCreated) :
    ctx.err = none ∧ ∃ userID, r.ctx.Value UserIDKey = some userID := by
  unfold Handler.Fpost at hcreated
  cases hctx : ctx.err with
  | some e =>
    rw [hctx] at hcreated
    exact absurd hcreated (contextDone_status_ne e w hw _ (by decide) (by decide))
  | none =>
    refine ⟨rfl, ?_⟩
    cases hu : r.ctx.Value UserIDKey with
    | some userID => exact ⟨userID, rfl⟩
    | none =>
      rw [hctx] at hcreated
      simp only [hu] at hcreated
      rw [httpError_status w _ _ hw] at hcreated
      exact absurd hcreated (by decide)

theorem Fget_of_found (ctx : Context) (sv : Server InMemoryStorage) (w : ResponseWriter)
    (r : Request) (U : String) (hctx : ctx.err = none)
    (hfind : sv.store.Find (URLParam r "shortURL") = (U, true))
    (hU : U ≠ "deleted") (hparam : URLParam r "shortURL" ≠ "") :
    ((NewHandler InMemoryStorage.repository).Fget ctx sv w r).2 =
      (w.SetHeader "Location" U).WriteHeader StatusTemporaryRedirect := by
  have hf : InMemoryStorage.repository.Find sv.store (URLParam r "shortURL") = (U, true) :=
    hfind
  simp [Handler.Fget, NewHandler, hctx, hf, hU, hparam]

theorem setHeader_writeHeader (w : ResponseWriter) (k v : String) (code : Nat)
    (hw : w.status = none) :
    ((w.SetHeader k v).WriteHeader code).status = some code ∧
      ((w.SetHeader k v).WriteHeader code).GetHeader k = v := by
  simp [ResponseWriter.SetHeader, ResponseWriter.WriteHeader, ResponseWriter.GetHeader, hw]

theorem tail_of_append (p c : String) (n : Nat) (hc : c.length = n) :
    (p ++ c).data.drop ((p ++ c).length - n) = c.data := by
  have h1 : (p ++ c).length - n = p.data.length := by
    have h2 : (p ++ c).length = p.data.length + c.data.length := by
      show (p ++ c).data.length = _
      rw [String.data_append, List.length_append]
    have h3 : c.data.length = n := hc
    omega
  rw [h1, String.data_append, List.drop_left]

/-! ## Collisions of the signature -/

theorem beBytes_lt (n x : Nat) : ∀ b ∈ beBytes n x, b < 256 := by
  induction n with
  | zero => intro b hb; simp [beBytes] at hb
  | succ n ih =>
    intro b hb
    simp only [beBytes, List.mem_cons] at hb
    rcases hb with h | h
    · rw [h]; exact Nat.mod_lt _ (by decide)
    · exact ih b h

theorem sha256_length (msg : List Nat) : (sha256 msg).length = 32 := by
  simp [sha256, beBytes_length]

theorem sha256_lt (msg : List Nat) : ∀ b ∈ sha256 msg, b < 256 := by
  intro b hb
  simp only [sha256, List.mem_append] at hb
  rcases hb with ((((((h | h) | h) | h) | h) | h) | h) | h <;> exact beBytes_lt _ _ b h

theorem hmacSha256_length (key msg : List Nat) : (hmacSha256 key msg).length = 32 :=
  sha256_length _

theorem hmacSha256_lt (key msg : List Nat) : ∀ b ∈ hmacSha256 key msg, b < 256 :=
  sha256_lt _

set_option maxRecDepth 100000 in
/-- The encodings agree with the published values: SHA-256 of `abc` (FIPS 180-4), the
HMAC-SHA256 of test case 2 of RFC 4231, and base64 of `foobar`, `fooba`, `foob`
(RFC 4648). -/
theorem sha256_test_vectors :
    String.mk (hexEncode (sha256 (toBytes "abc"))) =
        "ba7816bf8f01cfea414140de5dae2223b00361a396177a9cb410ff61f20015ad" ∧
      String.mk (hexEncode (hmacSha256 (toBytes "Jefe") (toBytes "what do ya want for nothing?")))
        = "5bdcc146bf60754e6a042426089575c75a003f089d2739839dec58b964ec3843" ∧
      String.mk (base64Encode (toBytes "foobar")) = "Zm9vYmFy" ∧
      String.mk (base64Encode (toBytes "fooba")) = "Zm9vYmE=" ∧
      String.mk (base64Encode (toBytes "foob")) = "Zm9vYg==" :=
  ⟨by decide, by decide, by decide, by decide, by decide⟩

theorem mac_eq_of_macPoint_eq (key : List Nat) (id id2 : String)
    (h : macPoint key id = macPoint key id2) :
    hmacSha256 key (toBytes id) = hmacSha256 key (toBytes id2) := by
  apply List.ext_getElem
  · rw [hmacSha256_length, hmacSha256_length]
  · intro n h1 h2
    have hn : n < 32 := by rw [hmacSha256_length] at h1; exact h1
    have hp := congrFun h ⟨n, hn⟩
    simp only [macPoint, Fin.mk.injEq] at hp
    rw [List.getD_eq_getElem _ _ h1, List.getD_eq_getElem _ _ h2] at hp
    have b1 := hmacSha256_lt key (toBytes id) _ (List.getElem_mem h1)
    have b2 := hmacSha256_lt key (toBytes id2) _ (List.getElem_mem h2)
    rw [Nat.mod_eq_of_lt b1, Nat.mod_eq_of_lt b2] at hp
    exact hp

theorem idOfBits_injective {n : Nat} : Function.Injective (idOfBits (n := n)) := by
  intro v v2 h
  have h1 : (List.ofFn fun i => if v i then 'a' else 'b') =
      List.ofFn fun i => if v2 i then 'a' else 'b' := congrArg String.data h
  have h2 := List.ofFn_injective h1
  funext i
  have h3 := congrFun h2 i
  cases hv : v i <;> cases hv2 : v2 i <;> simp [hv, hv2] at h3 <;> rfl

theorem idOfBits_no_bar {n : Nat} (v : Fin n → Bool) : '|' ∉ (idOfBits v).data := by
  intro h
  simp only [idOfBits, List.mem_ofFn, Set.mem_range] at h
  obtain ⟨i, hi⟩ := h
  cases hv : v i <;> simp [hv] at hi

/-- Two different ids of 257 letters carry the same signature: there are more such ids
than 32-byte MACs. -/
theorem SignData_collision (env : Env) :
    ∃ id id2 : String, id2 ≠ id ∧ '|' ∉ id.data ∧ '|' ∉ id2.data ∧
      SignData env id2 = SignData env id := by
  have hcard : Fintype.card (Fin 32 → Fin 256) < Fintype.card (Fin 257 → Bool) := by
    rw [Fintype.card_fun, Fintype.card_fun, Fintype.card_fin, Fintype.card_fin,
      Fintype.card_fin, Fintype.card_bool]
    norm_num
  obtain ⟨v, v2, hne, heq⟩ := Fintype.exists_ne_map_eq_of_card_lt
    (fun v : Fin 257 → Bool => macPoint (toBytes env.Conf.Key) (idOfBits v)) hcard
  refine ⟨idOfBits v2, idOfBits v, fun h => hne (idOfBits_injective h), idOfBits_no_bar v2,
    idOfBits_no_bar v, ?_⟩
  simp only [SignData]
  rw [mac_eq_of_macPoint_eq _ _ _ heq]

/-- What the extraction does with a cookie `id2|SignData(id)`: it returns `id2` exactly when
`id2` has no separator and `SignData(id2) = SignData(id)`; in every other case it fails and
returns the empty id, with "invalid signature" when `id2` has no separator and with
"invalid cookie format" when it has one. -/
theorem extract_of_tampered_id (env : Env) (r : Request) (cookie : Cookie)
    (id id2 : String) (hcookie : r.Cookie "session" = some cookie)
    (hvalue : cookie.Value = id2 ++ "|" ++ SignData env id) :
    (ExtractUserIDFromCookie env r = (id2, none) ↔
        '|' ∉ id2.data ∧ SignData env id2 = SignData env id) ∧
      ('|' ∉ id2.data → SignData env id2 ≠ SignData env id →
        ExtractUserIDFromCookie env r = ("", some "invalid signature")) ∧
      ('|' ∈ id2.data →
        ExtractUserIDFromCookie env r = ("", some "invalid cookie format")) := by
  have hsig : '|' ∉ (SignData env id).data := fun h => (SignData_chars env id _ h).2 rfl
  have hbad : '|' ∈ id2.data →
      ExtractUserIDFromCookie env r = ("", some "invalid cookie format") := by
    intro hmem
    apply extract_of_malformed env r cookie hcookie
    rw [Split_length, hvalue]
    have hpos := List.count_pos_iff.2 hmem
    have : (id2 ++ "|" ++ SignData env id).data = id2.data ++ '|' :: (SignData env id).data := by
      simp [String.data_append]
    rw [this, List.count_append, List.count_cons_self]
    omega
  have hwrong : '|' ∉ id2.data → SignData env id2 ≠ SignData env id →
      ExtractUserIDFromCookie env r = ("", some "invalid signature") := fun hid hs =>
    extract_of_bad_signature env r cookie id2 _ hcookie hvalue hid hsig (Ne.symm hs)
  refine ⟨⟨?_, ?_⟩, hwrong, hbad⟩
  · intro hok
    by_cases hid : '|' ∈ id2.data
    · rw [hbad hid] at hok
      simp at hok
    · refine ⟨hid, ?_⟩
      by_contra hs
      rw [hwrong hid hs] at hok
      simp at hok
  · rintro ⟨hid, hs⟩
    exact extract_of_signed env r cookie id2 hcookie (by rw [hvalue, hs]) hid

/-! ## Shorten handlers and conflicts -/

theorem setHeader_status (w : ResponseWriter) (k v : String) :
    (w.SetHeader k v).status = w.status := rfl

theorem writeHeader_status (w : ResponseWriter) (code : Nat) (hw : w.status = none) :
    (w.WriteHeader code).status = some code := by
  simp [ResponseWriter.WriteHeader, hw]

theorem writeHeader_write_header (w : ResponseWriter) (code : Nat) (b : String) :
    ((w.WriteHeader code).Write b).header = w.header := by
  obtain ⟨hd, ck, st, bd⟩ := w
  cases st <;> rfl

/-- With a valid URL in the body, on a live context carrying a user id, `Fpost` answers 409
exactly when the repository finds the short code. -/
theorem Fpost_conflict_iff {σ : Type} (h : Handler σ) (env : Env) (ctx : Context)
    (sv : Server σ) (w : ResponseWriter) (r : Request) (U userID : String)
    (hctx : ctx.err = none) (hu : r.ctx.Value UserIDKey = some userID)
    (hbody : r.Body = some U) (hvalid : rejectsURL (env.ParseRequestURI U) = false)
    (hw : w.status = none) :
    (h.Fpost env ctx sv w r).2.status = some 409 ↔
      (h.repo.Find sv.store (GenerateShortURL U)).2 = true := by
  have hsw : (w.SetHeader "Content-Type" "text/plain").status = none := hw
  constructor
  · intro hst
    by_contra hf
    have hf2 : (h.repo.Find sv.store (GenerateShortURL U)).2 = false := by
      simpa using hf
    simp only [Handler.Fpost, hctx, hu, hbody, hvalid, hf2, Bool.false_eq_true, ↓reduceIte] at hst
    cases hs : (h.repo.Save sv.store (GenerateShortURL U) U userID).2 with
    | some e =>
      simp only [hs] at hst
      rw [httpError_status w _ _ hw] at hst
      exact absurd hst (by decide)
    | none =>
      simp only [hs] at hst
      rw [writeHeader_write_status _ _ _ hsw] at hst
      exact absurd hst (by decide)
  · intro hf
    simp only [Handler.Fpost, hctx, hu, hbody, hvalid, hf]
    exact writeHeader_write_status _ _ _ hsw

/-- The same for `ModifPost`, when the conflict response can be marshalled. -/
theorem ModifPost_conflict_iff {σ : Type} (h : Handler σ) (env : Env) (codec : Codec)
    (ctx : Context) (sv : Server σ) (w : ResponseWriter) (r : Request)
    (buf userID resp : String) (req : RequestModifyPost)
    (hctx : ctx.err = none) (hu : r.ctx.Value UserIDKey = some userID)
    (hbody : r.Body = some buf) (hbuf : byteLen buf ≠ 0)
    (hreq : codec.UnmarshalModifyPost buf = .ok req)
    (hlen : byteLen req.Body ≤ maxURLLength)
    (hvalid : rejectsURL (env.ParseRequestURI req.Body) = false)
    (hmarshal : codec.MarshalModifyPost
      { Body := "http://localhost:8080/" ++ GenerateShortURL req.Body } = .ok resp)
    (hw : w.status = none) :
    (h.ModifPost env codec ctx sv w r).2.status = some 409 ↔
      (h.repo.Find sv.store (GenerateShortURL req.Body)).2 = true := by
  have hsw : (w.SetHeader "Content-Type" "application/json").status = none := hw
  have hlen2 : ¬ byteLen req.Body > maxURLLength := by omega
  constructor
  · intro hst
    by_contra hf
    have hf2 : (h.repo.Find sv.store (GenerateShortURL req.Body)).2 = false := by
      simpa using hf
    simp only [Handler.ModifPost, hctx, hu, hbody, hbuf, hreq, hlen2, hvalid, hf2,
      hmarshal, Bool.false_eq_true, ↓reduceIte] at hst
    cases hs : (h.repo.Save sv.store (GenerateShortURL req.Body) req.Body userID).2 with
    | some e =>
      simp only [hs] at hst
      rw [writeHeader_write_status _ _ _ hw] at hst
      exact absurd hst (by decide)
    | none =>
      simp only [hs] at hst
      rw [writeHeader_write_status _ _ _ hsw] at hst
      exact absurd hst (by decide)
  · intro hf
    simp only [Handler.ModifPost, hctx, hu, hbody, hbuf, hreq, hlen2, hvalid, hf, hmarshal,
      if_false, if_true]
    exact writeHeader_write_status _ _ _ hsw

/-- What `ModifPost` does with a URL over the length cap. -/
theorem ModifPost_of_too_long {σ : Type} (h : Handler σ) (env : Env) (codec : Codec)
    (ctx : Context) (sv : Server σ) (w : ResponseWriter) (r : Request)
    (buf : String) (req : RequestModifyPost)
    (hbody : r.Body = some buf) (hreq : codec.UnmarshalModifyPost buf = .ok req)
    (hlen : byteLen req.Body > maxURLLength) :
    (h.ModifPost env codec ctx sv w r).1 = sv ∧
      (ctx.err = none →
        (h.ModifPost env codec ctx sv w r).2 =
          if byteLen buf = 0 then
            (w.WriteHeader StatusBadRequest).Write "Error: empty request body"
          else (w.WriteHeader StatusBadRequest).Write "Error: the request body is too long") := by
  constructor
  · unfold Handler.ModifPost
    cases ctx.err with
    | some e => rfl
    | none =>
      simp only [hbody]
      by_cases hb : byteLen buf = 0
      · simp [hb]
      · simp [hb, hreq, hlen]
  · intro hctx
    by_cases hb : byteLen buf = 0
    · simp [Handler.ModifPost, hctx, hbody, hb]
    · simp [Handler.ModifPost, hctx, hbody, hb, hreq, hlen]

/-! ## Byte lengths and the sample codec -/

theorem byteLen_append (s t : String) : byteLen (s ++ t) = byteLen s + byteLen t := by
  simp [byteLen, toBytes, String.data_append, List.flatMap_append]

theorem byteLen_replicate (n : Nat) (c : Char) :
    byteLen (String.mk (List.replicate n c)) = n * (utf8Bytes c).length := by
  induction n with
  | zero => simp [byteLen, toBytes]
  | succ n ih =>
    simp only [byteLen, toBytes, List.replicate_succ, List.flatMap_cons, List.length_append] at ih ⊢
    rw [ih]; ring

theorem isPrefixOf_append_self (a b : List Char) : a.isPrefixOf (a ++ b) = true := by
  induction a with
  | nil => simp [List.isPrefixOf]
  | cons x xs ih => simp [List.isPrefixOf, ih]

theorem stripLit_append (lit rest : List Char) : stripLit lit (lit ++ rest) = some rest := by
  simp [stripLit, isPrefixOf_append_self]

theorem readString_plain (v rest : List Char) (hv : ∀ c ∈ v, plainChar c = true) :
    readString (quoteChar :: v ++ quoteChar :: rest) = some (v, rest) := by
  have htw : (v ++ quoteChar :: rest).takeWhile (fun c => c != quoteChar) = v := by
    induction v with
    | nil => simp
    | cons x xs ih =>
      have hx := hv x (by simp)
      have hx2 : (x != quoteChar) = true := by
        simp only [plainChar, Bool.and_eq_true] at hx; exact hx.1.1
      simp only [List.cons_append, List.takeWhile_cons, hx2, ↓reduceIte, List.cons.injEq,
        true_and]
      exact ih (fun c hc => hv c (by simp [hc]))
  have hany : (v.any fun c => c == backslashChar || c.toNat < 0x20) = false := by
    rw [List.any_eq_false]
    intro c hc
    have := hv c hc
    simp only [plainChar, Bool.and_eq_true, bne_iff_ne, ne_eq, Bool.not_eq_true',
      decide_eq_false_iff_not] at this
    simp [this.1.2, this.2]
  simp only [readString, List.cons_append, ne_eq, not_true_eq_false, ↓reduceIte, htw, hany,
    Bool.false_eq_true, List.drop_left]

theorem sample_unmarshal_url (v : String) (hv : ∀ c ∈ v.data, plainChar c = true) :
    sampleCodec.UnmarshalModifyPost ("\x7b\"url\":\"" ++ v ++ "\"\x7d") = .ok { Body := v } := by
  have hdata : ("\x7b\"url\":\"" ++ v ++ "\"\x7d").data =
      (openBrace :: keyText "url") ++ (quoteChar :: v.data ++ quoteChar :: [closeBrace]) := by
    simp only [String.data_append]
    rfl
  simp only [sampleCodec, readObject1, hdata, stripLit_append, Option.bind_eq_bind,
    Option.some_bind, readString_plain v.data [closeBrace] hv]
  rfl

/-! ## Resolve handlers -/

theorem replaceFirstChars_base (base code : List Char) (hbase : base ≠ []) :
    replaceFirstChars base [] (base ++ code) = code := by
  cases base with
  | nil => exact absurd rfl hbase
  | cons c cs =>
    have hp : (c :: cs).isPrefixOf (c :: (cs ++ code)) = true :=
      isPrefixOf_append_self (c :: cs) code
    show replaceFirstChars (c :: cs) [] (c :: (cs ++ code)) = code
    unfold replaceFirstChars
    rw [if_pos hp]
    show List.drop (c :: cs).length ((c :: cs) ++ code) = code
    rw [List.drop_left]

theorem ReplaceFirst_base (base code : String) (hbase : base.data ≠ []) :
    ReplaceFirst (base ++ code) base "" = code := by
  apply String.ext
  simp only [ReplaceFirst, String.data_append]
  exact replaceFirstChars_base base.data code.data hbase

theorem startsWith_self (base code : String) : startsWith (base ++ code) base = true := by
  simp [startsWith, String.data_append, isPrefixOf_append_self]

theorem startsWith_localhost (code : String) :
    startsWith ("http://localhost:8080/" ++ code) "http://127.0.0.1:8080/" = false := by
  have h : ("http://localhost:8080/" ++ code).data =
      'h' :: 't' :: 't' :: 'p' :: ':' :: '/' :: '/' :: 'l' ::
        ("ocalhost:8080/".data ++ code.data) := by
    simp only [String.data_append]; rfl
  have h2 : "http://127.0.0.1:8080/".data =
      'h' :: 't' :: 't' :: 'p' :: ':' :: '/' :: '/' :: '1' :: "27.0.0.1:8080/".data := rfl
  simp only [startsWith, h, h2, List.isPrefixOf]
  decide

/-- The key `ModifFget` looks up for a short URL on one of the two bases is the code. -/
theorem ModifFget_key (code : String) :
    ReplaceFirst ("http://localhost:8080/" ++ code)
        (if startsWith ("http://localhost:8080/" ++ code) "http://127.0.0.1:8080/" then
          "http://127.0.0.1:8080/" else "http://localhost:8080/") "" = code ∧
      ReplaceFirst ("http://127.0.0.1:8080/" ++ code)
        (if startsWith ("http://127.0.0.1:8080/" ++ code) "http://127.0.0.1:8080/" then
          "http://127.0.0.1:8080/" else "http://localhost:8080/") "" = code := by
  rw [startsWith_localhost, startsWith_self]
  exact ⟨ReplaceFirst_base _ _ (by decide), ReplaceFirst_base _ _ (by decide)⟩

/-- What `ModifFget` answers once the body is decoded and the short URL validated. -/
theorem ModifFget_of_decoded {σ : Type} (h : Handler σ) (env : Env) (codec : Codec)
    (ctx : Context) (sv : Server σ) (w : ResponseWriter) (r : Request)
    (buf : String) (req : RequestModifyGet)
    (hctx : ctx.err = none) (hbody : r.Body = some buf) (hbuf : byteLen buf ≠ 0)
    (hreq : codec.UnmarshalModifyGet buf = .ok req)
    (hvalid : rejectsURL (env.ParseRequestURI req.Body) = false) :
    h.ModifFget env codec ctx sv w r =
      let key := ReplaceFirst req.Body
        (if startsWith req.Body "http://127.0.0.1:8080/" then "http://127.0.0.1:8080/"
          else "http://localhost:8080/") ""
      let found := h.repo.Find sv.store key
      if key = "" then
        (sv, (w.WriteHeader StatusBadRequest).Write
          "Url parsing error or empty schema or empty host")
      else if !found.2 then
        (sv, (w.WriteHeader StatusBadRequest).Write "The link was not found in the repository.")
      else
        match codec.MarshalModifyGet { Body := found.1 } with
        | .error e => (sv, httpError w e StatusBadRequest)
        | .ok resp =>
          (sv, ((w.SetHeader "Content-Type" "application/json").WriteHeader StatusOK).Write resp) := by
  simp only [Handler.ModifFget, hctx, hbody, hbuf, hreq, hvalid, Bool.false_eq_true, ↓reduceIte]

/-- On a live context and a fresh writer, `ModifFget` answers 400 to every request it does
not resolve: unreadable, empty or undecodable body, invalid short URL, empty key, key not
found. -/
theorem ModifFget_bad_request {σ : Type} (h : Handler σ) (env : Env) (codec : Codec)
    (ctx : Context) (sv : Server σ) (w : ResponseWriter) (r : Request)
    (buf : String) (req : RequestModifyGet)
    (hctx : ctx.err = none) (hw : w.status = none) (hbody : r.Body = some buf)
    (hreq : codec.UnmarshalModifyGet buf = .ok req)
    (hkey : ReplaceFirst req.Body
        (if startsWith req.Body "http://127.0.0.1:8080/" then "http://127.0.0.1:8080/"
          else "http://localhost:8080/") "" = "" ∨
      (h.repo.Find sv.store (ReplaceFirst req.Body
        (if startsWith req.Body "http://127.0.0.1:8080/" then "http://127.0.0.1:8080/"
          else "http://localhost:8080/") "")).2 = false) :
    (h.ModifFget env codec ctx sv w r).2.status = some 400 ∧
      (h.ModifFget env codec ctx sv w r).1 = sv := by
  by_cases hbuf : byteLen buf = 0
  · simp only [Handler.ModifFget, hctx, hbody, hbuf, ↓reduceIte]
    exact ⟨writeHeader_write_status _ _ _ hw, trivial⟩
  by_cases hvalid : rejectsURL (env.ParseRequestURI req.Body) = true
  · simp only [Handler.ModifFget, hctx, hbody, hbuf, hreq, hvalid, ↓reduceIte]
    exact ⟨writeHeader_write_status _ _ _ hw, trivial⟩
  have hvalid2 : rejectsURL (env.ParseRequestURI req.Body) = false := by simpa using hvalid
  rw [ModifFget_of_decoded h env codec ctx sv w r buf req hctx hbody hbuf hreq hvalid2]
  by_cases hk : ReplaceFirst req.Body
      (if startsWith req.Body "http://127.0.0.1:8080/" then "http://127.0.0.1:8080/"
        else "http://localhost:8080/") "" = ""
  · simp only [hk, ↓reduceIte]
    exact ⟨writeHeader_write_status _ _ _ hw, trivial⟩
  · have hf := hkey.resolve_left hk
    simp only [hk, hf, Bool.not_false, ↓reduceIte]
    exact ⟨writeHeader_write_status _ _ _ hw, trivial⟩

/-- What `Fget` answers to a short code the repository does not find. -/
theorem Fget_of_missing {σ : Type} (h : Handler σ) (ctx : Context) (sv : Server σ)
    (w : ResponseWriter) (r : Request) (hctx : ctx.err = none)
    (hparam : URLParam r "shortURL" ≠ "")
    (hfind : h.repo.Find sv.store (URLParam r "shortURL") = ("", false)) :
    h.Fget ctx sv w r =
      (sv, (w.WriteHeader StatusBadRequest).Write "The link was not found in the repository.") := by
  simp [Handler.Fget, hctx, hfind, hparam]

theorem InMemoryStorage_Find_missing (s : InMemoryStorage) (code : String)
    (h : mapGet s.data code = none) : s.Find code = ("", false) := by
  simp [InMemoryStorage.Find, h]

theorem PostgresStorage_Find_missing (s : PostgresStorage) (code : String)
    (h : ∀ row ∈ s.urls, row.short_url ≠ code) : s.Find code = ("", false) := by
  have hnone : s.urls.find? (fun row => row.short_url == code) = none := by
    rw [List.find?_eq_none]
    intro row hrow
    simpa using h row hrow
  simp [PostgresStorage.Find, hnone]

/-! ## Stores without the key -/

theorem mapGet_none_of_not_key (m : List (String × URLData)) (code : String)
    (h : ∀ p ∈ m, p.1 ≠ code) : mapGet m code = none := by
  have hnone : m.find? (fun p => p.1 == code) = none := by
    rw [List.find?_eq_none]
    intro p hp
    simpa using h p hp
  simp [mapGet, hnone]

/-! ## The relational table -/

theorem Find_of_tombstoned (s : PostgresStorage) (C : String) (h : tombstoned s C) :
    s.Find C = ("deleted", true) := by
  obtain ⟨row, hrow, hdel⟩ := h
  simp [PostgresStorage.Find, hrow, hdel]

theorem find?_append_of_some {α : Type} (p : α → Bool) (l l2 : List α) (a : α)
    (h : l.find? p = some a) : (l ++ l2).find? p = some a := by
  rw [List.find?_append, h]; rfl

theorem tombstoned_Save (s : PostgresStorage) (C shortURL originalURL owner : String)
    (h : tombstoned s C) : tombstoned (s.Save shortURL originalURL owner).1 C := by
  unfold PostgresStorage.Save
  split
  · exact h
  · split
    · exact h
    · split
      · exact h
      · split
        · exact h
        · obtain ⟨row, hrow, hdel⟩ := h
          exact ⟨row, find?_append_of_some _ _ _ _ hrow, hdel⟩

theorem find?_map_flag (l : List UrlRow) (C url user : String) (row : UrlRow)
    (h : l.find? (fun row => row.short_url == C) = some row) :
    (l.map fun row =>
        if row.short_url == url && row.owner == user then { row with DeletedFlag := true }
        else row).find? (fun row => row.short_url == C) =
      some (if row.short_url == url && row.owner == user then { row with DeletedFlag := true }
        else row) := by
  induction l with
  | nil => simp at h
  | cons a as ih =>
    simp only [List.map_cons, List.find?_cons] at h ⊢
    by_cases ha : (a.short_url == C) = true
    · simp only [ha] at h
      have hEq : a = row := by simpa using h
      subst hEq
      by_cases hc : (a.short_url == url && a.owner == user) = true
      · simp [hc, ha]
      · simp [hc, ha]
    · have ha2 : (a.short_url == C) = false := by simpa using ha
      simp only [ha2] at h
      by_cases hc : (a.short_url == url && a.owner == user) = true
      · simp only [hc, ↓reduceIte, ha2]
        exact ih h
      · have hc2 : (a.short_url == url && a.owner == user) = false := by simpa using hc
        simp only [hc2, Bool.false_eq_true, ↓reduceIte, ha2]
        exact ih h

theorem tombstoned_DeleterURL (s : PostgresStorage) (C url user : String)
    (h : tombstoned s C) : tombstoned (s.DeleterURL url user).1 C := by
  obtain ⟨row, hrow, hdel⟩ := h
  refine ⟨_, find?_map_flag s.urls C url user row hrow, ?_⟩
  split
  · rfl
  · exact hdel

theorem tombstoned_after_DeleterURL (s : PostgresStorage) (C owner : String) (row : UrlRow)
    (hrow : s.urls.find? (fun row => row.short_url == C) = some row)
    (howner : row.owner = owner) : tombstoned (s.DeleterURL C owner).1 C := by
  refine ⟨_, find?_map_flag s.urls C C owner row hrow, ?_⟩
  have hC : row.short_url = C := by
    have := List.find?_some hrow
    simpa using this
  simp [hC, howner]

theorem tombstoned_calls (s : PostgresStorage) (C : String) (cs : List StoreCall)
    (h : tombstoned s C) : tombstoned (s.calls cs) C := by
  induction cs generalizing s with
  | nil => exact h
  | cons c cs ih =>
    simp only [PostgresStorage.calls, List.foldl_cons]
    apply ih
    cases c with
    | Save a b o => exact tombstoned_Save s C a b o h
    | DeleterURL u v => exact tombstoned_DeleterURL s C u v h

theorem Fget_of_deleted {σ : Type} (h : Handler σ) (ctx : Context) (sv : Server σ)
    (w : ResponseWriter) (r : Request) (hctx : ctx.err = none)
    (hfind : (h.repo.Find sv.store (URLParam r "shortURL")).1 = "deleted") :
    h.Fget ctx sv w r = (sv, w.WriteHeader StatusGone) := by
  simp [Handler.Fget, hctx, hfind]

/-- A `DeleterURL` that matches no row leaves the table as it is. -/
theorem DeleterURL_of_no_match (s : PostgresStorage) (C A : String)
    (h : ∀ row ∈ s.urls, row.short_url = C → row.owner ≠ A) :
    s.DeleterURL C A = (s, none) := by
  have hmap : (s.urls.map fun row =>
      if row.short_url == C && row.owner == A then { row with DeletedFlag := true }
      else row) = s.urls := by
    conv_rhs => rw [← List.map_id s.urls]
    apply List.map_congr_left
    intro row hrow
    by_cases hc : row.short_url = C
    · have := h row hrow hc
      simp [hc, this]
    · simp [hc]
  simp only [PostgresStorage.DeleterURL, hmap]

/-! ## The batch loop -/

/-- A row with the short URL makes `Find` report it. -/
theorem PostgresStorage_Find_of_row (s : PostgresStorage) (c : String)
    (h : (s.urls.any fun row => row.short_url == c) = true) : (s.Find c).2 = true := by
  unfold PostgresStorage.Find
  cases hf : s.urls.find? (fun row => row.short_url == c) with
  | none =>
    rw [List.find?_eq_none] at hf
    rw [List.any_eq_true] at h
    obtain ⟨row, hmem, hrow⟩ := h
    exact absurd hrow (hf row hmem)
  | some row =>
    show (if row.DeletedFlag then ("deleted", true) else (row.original_url, true)).2 = true
    split <;> rfl

/-- The rows of the table stay through `Save`. -/
theorem PostgresStorage_Save_keeps_row (s : PostgresStorage) (a b o c : String)
    (h : (s.urls.any fun row => row.short_url == c) = true) :
    ((s.Save a b o).1.urls.any fun row => row.short_url == c) = true := by
  unfold PostgresStorage.Save
  split
  · exact h
  · split
    · exact h
    · split
      · exact h
      · split
        · exact h
        · show ((s.urls ++ _).any fun row => row.short_url == c) = true
          rw [List.any_append, h, Bool.true_or]

/-- After a `Save` without error the table has a row with the short URL. -/
theorem PostgresStorage_Save_adds_row (s : PostgresStorage) (a b o : String)
    (h : (s.Save a b o).2 = none) :
    ((s.Save a b o).1.urls.any fun row => row.short_url == a) = true := by
  unfold PostgresStorage.Save at h ⊢
  split at h
  · exact absurd h (by simp)
  · split at h
    · exact absurd h (by simp)
    · split at h
      · rename_i h3
        rw [if_neg (by assumption), if_neg (by assumption), if_pos h3]
        exact h3
      · split at h
        · exact absurd h (by simp)
        · rw [if_neg (by assumption), if_neg (by assumption), if_neg (by assumption),
            if_neg (by assumption)]
          show ((s.urls ++ _).any fun row => row.short_url == a) = true
          rw [List.any_append]
          simp

/-- When the loop of `Batch` ends without a failed save, it has appended one response per
entry, in order. -/
theorem batchLoop_resp {σ : Type} (h : Handler σ) (userID : String) (FlagToFile : Bool)
    (reqs : List MiniBatchReq) :
    ∀ (sv : Server σ) (resp0 resp : RespBatch),
      (batchLoop h userID FlagToFile reqs sv resp0).2 = some resp →
      resp = resp0 ++ reqs.map fun req =>
        { ID := req.ID,
          ShortURL := "http://localhost:8080/" ++ GenerateShortURL req.OriginalURL } := by
  induction reqs with
  | nil =>
    intro sv resp0 resp hl
    simp only [batchLoop] at hl
    simpa using (Option.some.inj hl).symm
  | cons req rest ih =>
    intro sv resp0 resp hl
    unfold batchLoop at hl
    simp only at hl
    split at hl
    · exact absurd hl (by simp)
    · have := ih _ _ _ hl
      rw [this]
      simp

/-- The loop of `Batch` on the relational backend keeps the rows of the table. -/
theorem batchLoop_keeps_row (userID : String) (FlagToFile : Bool) (c : String)
    (reqs : List MiniBatchReq) :
    ∀ (sv : Server PostgresStorage) (resp0 : RespBatch),
      (sv.store.urls.any fun row => row.short_url == c) = true →
      ((batchLoop (NewHandler PostgresStorage.repository) userID FlagToFile reqs sv
        resp0).1.store.urls.any fun row => row.short_url == c) = true := by
  induction reqs with
  | nil => intro sv resp0 h; exact h
  | cons req rest ih =>
    intro sv resp0 h
    have hk := PostgresStorage_Save_keeps_row sv.store (GenerateShortURL req.OriginalURL)
      req.OriginalURL userID c h
    unfold batchLoop
    simp only
    split
    · exact hk
    · exact ih _ _ hk

/-- When the loop of `Batch` on the relational backend ends without a failed save, the
table has a row for the code of every entry. -/
theorem batchLoop_rows (userID : String) (FlagToFile : Bool) (reqs : List MiniBatchReq) :
    ∀ (sv : Server PostgresStorage) (resp0 resp : RespBatch),
      (batchLoop (NewHandler PostgresStorage.repository) userID FlagToFile reqs sv resp0).2
        = some resp →
      ∀ req ∈ reqs,
        ((batchLoop (NewHandler PostgresStorage.repository) userID FlagToFile reqs sv
          resp0).1.store.urls.any
            fun row => row.short_url == GenerateShortURL req.OriginalURL) = true := by
  induction reqs with
  | nil => intro sv resp0 resp _ req hmem; exact absurd hmem (List.not_mem_nil _)
  | cons req0 rest ih =>
    intro sv resp0 resp hl req hmem
    unfold batchLoop at hl ⊢
    simp only at hl ⊢
    split at hl
    · exact absurd hl (by simp)
    · rename_i hsave
      rcases List.mem_cons.mp hmem with heq | hrest
      · subst heq
        exact batchLoop_keeps_row userID FlagToFile _ rest _ _
          (PostgresStorage_Save_adds_row sv.store _ _ _ hsave)
      · exact ih _ _ _ hl req hrest

/-- The success path of `Batch` on the relational backend. -/
theorem Batch_of_saved (env : Env) (codec : Codec) (ctx : Context)
    (sv : Server PostgresStorage) (w : ResponseWriter) (r : Request)
    (userID body response : String) (reqBatch : ReqBatch) (resp : RespBatch)
    (hctx : ctx.err = none) (huser : r.ctx.Value UserIDKey = some userID)
    (hbody : r.Body = some body) (hdec : codec.DecodeReqBatch body = .ok reqBatch)
    (hne : reqBatch ≠ [])
    (hloop : (batchLoop (NewHandler PostgresStorage.repository) userID
      (decide (env.Conf.File ≠ "")) reqBatch sv []).2 = some resp)
    (hm : codec.MarshalRespBatch resp = .ok response) :
    (NewHandler PostgresStorage.repository).Batch env codec ctx sv w r =
      some ((batchLoop (NewHandler PostgresStorage.repository) userID
          (decide (env.Conf.File ≠ "")) reqBatch sv []).1,
        ((w.SetHeader "Content-Type" "application/json").WriteHeader StatusCreated).Write
          response) := by
  have hlen : ¬ reqBatch.length = 0 := by
    intro h0; exact hne (List.length_eq_zero.mp h0)
  unfold Handler.Batch
  simp only [hctx, huser, hbody, hdec, hlen, ↓reduceIte]
  simp only [NewHandler, PostgresStorage.repository, PostgresStorage.Begin] at hloop ⊢
  simp only [hloop, PostgresStorage.Commit, List.append_nil, hm]

/-! ## Finished contexts -/

theorem contextDone_status (e : ContextError) (w : ResponseWriter) (hw : w.status = none) :
    (contextDone e w).status =
      some (if e = ContextError.DeadlineExceeded then 504 else 408) := by
  unfold contextDone
  split
  · rw [httpError_status w _ _ hw]; rfl
  · rw [httpError_status w _ _ hw]; rfl

theorem contextDone_body (e : ContextError) (w : ResponseWriter) :
    (contextDone e w).body =
      w.body ++ (if e = ContextError.DeadlineExceeded then "Request timed out\n"
        else "Request cancelled by the client\n") := by
  unfold contextDone
  split
  · rw [httpError_body]; rfl
  · rw [httpError_body]; rfl

/-! ## The counter of the in-memory store -/

theorem countSaves_append (cs1 cs2 : List MemCall) :
    countSaves (cs1 ++ cs2) = countSaves cs1 + countSaves cs2 := by
  simp [countSaves]

theorem GetUserURLs_of_user (codec : Codec) (ctx : Context) (sv : Server PostgresStorage)
    (w : ResponseWriter) (r : Request) (userID : String)
    (hctx : ctx.err = none) (huser : r.ctx.Value UserIDKey = some userID) :
    (NewHandler PostgresStorage.repository).GetUserURLs codec ctx sv w r =
      let urls : List ResponseToOwner :=
        (sv.store.urls.filter fun row => row.owner == userID).map fun row =>
          { ShortURL := "http://localhost:8080/" ++ row.short_url,
            OriginalURL := row.original_url }
      if urls.length = 0 then some (sv, w.WriteHeader StatusNoContent)
      else
        match codec.MarshalToOwner urls with
        | .error _ =>
          some (sv, ((((httpError w "Error with marshal" StatusBadRequest).SetHeader
            "Content-Type" "application/json").WriteHeader StatusOK).Write ""))
        | .ok resp =>
          some (sv, ((w.SetHeader "Content-Type" "application/json").WriteHeader
            StatusOK).Write resp) := by
  simp only [Handler.GetUserURLs, hctx, huser, NewHandler, PostgresStorage.repository,
    PostgresStorage.FindAllByOwner]

theorem filter_owner_eq_nil (urls : List UrlRow) (userID : String) :
    ((urls.filter fun row => row.owner == userID).map fun row =>
        ({ ShortURL := "http://localhost:8080/" ++ row.short_url,
           OriginalURL := row.original_url } : ResponseToOwner)).length = 0 ↔
      ∀ row ∈ urls, row.owner ≠ userID := by
  rw [List.length_map, List.length_eq_zero, List.filter_eq_nil_iff]
  constructor
  · intro h row hrow; simpa using h row hrow
  · intro h row hrow; simpa using h row hrow

theorem httpError_then_status (w : ResponseWriter) (msg k v b : String) (code code2 : Nat)
    (hw : w.status = none) :
    ((((httpError w msg code).SetHeader k v).WriteHeader code2).Write b).status = some code := by
  have h1 := httpError_status w msg code hw
  simp [ResponseWriter.Write, ResponseWriter.WriteHeader, ResponseWriter.SetHeader, h1]

theorem DelUserUrls_of_decoded {σ : Type} (h : Handler σ) (db : PostgresMethods σ)
    (codec : Codec) (ctx : Context) (sv : Server σ) (w : ResponseWriter) (r : Request)
    (userID body : String) (req : UserDelUrls)
    (hdb : h.repo.asPostgres = some db) (hctx : ctx.err = none)
    (huser : r.ctx.Value UserIDKey = some userID) (hbody : r.Body = some body)
    (hdec : codec.DecodeUserDelUrls body = .ok req) :
    h.DelUserUrls codec ctx sv w r =
      if req.length = 0 then some (sv, httpError w "Error: empty request body" StatusBadRequest)
      else
        some (⟨req.foldl (fun s url => (db.DeleterURL s url userID).1) sv.store, sv.file⟩,
          w.WriteHeader StatusAccepted) := by
  simp only [Handler.DelUserUrls, hctx, huser, hbody, hdec, hdb]

/-- Two `DeleterURL` statements of one user give the same table in either order. -/
theorem DeleterURL_comm (s : PostgresStorage) (a b user : String) :
    ((s.DeleterURL a user).1.DeleterURL b user).1 = ((s.DeleterURL b user).1.DeleterURL a user).1 := by
  simp only [PostgresStorage.DeleterURL, List.map_map]
  congr 1
  apply List.map_congr_left
  intro row _
  simp only [Function.comp]
  by_cases ha : (row.short_url == a && row.owner == user) = true <;>
    by_cases hb : (row.short_url == b && row.owner == user) = true <;>
    simp [ha, hb]

/-- The table after the `DeleterURL` statements of a list of codes does not depend on the
order in which they run. -/
theorem DeleterURL_foldl_perm (user : String) (l1 l2 : List String) (hp : l1.Perm l2) :
    ∀ s : PostgresStorage,
      l1.foldl (fun s url => (s.DeleterURL url user).1) s =
        l2.foldl (fun s url => (s.DeleterURL url user).1) s := by
  induction hp with
  | nil => intro s; rfl
  | cons x _ ih => intro s; exact ih _
  | swap x y l =>
    intro s
    show l.foldl _ ((s.DeleterURL y user).1.DeleterURL x user).1 =
      l.foldl _ ((s.DeleterURL x user).1.DeleterURL y user).1
    rw [DeleterURL_comm]
  | trans _ _ ih1 ih2 => intro s; rw [ih1, ih2]

/-! ## Shorten requests and the store -/

/-- The store after `Fpost` is the store before it, or the one after a `Save` under a code
that `Find` did not report. -/
theorem Fpost_store_cases {σ : Type} (h : Handler σ) (env : Env) (ctx : Context)
    (sv : Server σ) (w : ResponseWriter) (r : Request) :
    (h.Fpost env ctx sv w r).1.store = sv.store ∨
      ∃ U userID : String, (h.repo.Find sv.store (GenerateShortURL U)).2 = false ∧
        (h.Fpost env ctx sv w r).1.store =
          (h.repo.Save sv.store (GenerateShortURL U) U userID).1 := by
  unfold Handler.Fpost
  cases ctx.err with
  | some e => exact Or.inl rfl
  | none =>
    cases r.ctx.Value UserIDKey with
    | none => exact Or.inl rfl
    | some userID =>
      cases r.Body with
      | none => exact Or.inl rfl
      | some U =>
        cases hrej : rejectsURL (env.ParseRequestURI U) with
        | true => left; simp [hrej]
        | false =>
          cases hf : (h.repo.Find sv.store (GenerateShortURL U)).2 with
          | true => left; simp [hrej, hf]
          | false =>
            right
            refine ⟨U, userID, hf, ?_⟩
            cases hs : (h.repo.Save sv.store (GenerateShortURL U) U userID).2 with
            | some e => simp [hrej, hf, hs]
            | none => simp [hrej, hf, hs]

/-- The same for `ModifPost`. -/
theorem ModifPost_store_cases {σ : Type} (h : Handler σ) (env : Env) (codec : Codec)
    (ctx : Context) (sv : Server σ) (w : ResponseWriter) (r : Request) :
    (h.ModifPost env codec ctx sv w r).1.store = sv.store ∨
      ∃ U userID : String, (h.repo.Find sv.store (GenerateShortURL U)).2 = false ∧
        (h.ModifPost env codec ctx sv w r).1.store =
          (h.repo.Save sv.store (GenerateShortURL U) U userID).1 := by
  unfold Handler.ModifPost
  cases ctx.err with
  | some e => exact Or.inl rfl
  | none =>
    cases r.Body with
    | none => exact Or.inl rfl
    | some buf =>
      by_cases hbuf : byteLen buf = 0
      · left; simp [hbuf]
      · cases hreq : codec.UnmarshalModifyPost buf with
        | error e => left; simp [hbuf, hreq]
        | ok req =>
          by_cases hlen : byteLen req.Body > maxURLLength
          · left; simp [hbuf, hreq, hlen]
          · cases hrej : rejectsURL (env.ParseRequestURI req.Body) with
            | true => left; simp [hbuf, hreq, hlen, hrej]
            | false =>
              cases hu : r.ctx.Value UserIDKey with
              | none => left; simp [hbuf, hreq, hlen, hrej, hu]
              | some userID =>
                cases hf : (h.repo.Find sv.store (GenerateShortURL req.Body)).2 with
                | true =>
                  left
                  cases hm : codec.MarshalModifyPost
                      { Body := "http://localhost:8080/" ++ GenerateShortURL req.Body } with
                  | error e => simp [hbuf, hreq, hlen, hrej, hu, hf, hm]
                  | ok resp => simp [hbuf, hreq, hlen, hrej, hu, hf, hm]
                | false =>
                  right
                  refine ⟨req.Body, userID, hf, ?_⟩
                  cases hs : (h.repo.Save sv.store (GenerateShortURL req.Body) req.Body
                      userID).2 with
                  | some e => simp [hbuf, hreq, hlen, hrej, hu, hf, hs]
                  | none =>
                    cases hm : codec.MarshalModifyPost
                        { Body := "http://localhost:8080/" ++ GenerateShortURL req.Body } with
                    | error e => simp [hbuf, hreq, hlen, hrej, hu, hf, hs, hm]
                    | ok resp => simp [hbuf, hreq, hlen, hrej, hu, hf, hs, hm]

theorem mapGet_eq_none_iff (m : List (String × URLData)) (k : String) :
    mapGet m k = none ↔ ∀ p ∈ m, p.1 ≠ k := by
  unfold mapGet
  rw [Option.map_eq_none', List.find?_eq_none]
  constructor
  · intro h p hp; simpa using h p hp
  · intro h p hp; simpa using h p hp

theorem mapGet_mapSet_of_ne (m : List (String × URLData)) (k code : String) (v : URLData)
    (hne : code ≠ k) : mapGet (mapSet m k v) code = mapGet m code := by
  unfold mapGet mapSet
  have h1 : ((k, v).1 == code) = false := by simpa using Ne.symm hne
  rw [List.find?_cons_of_neg _ (by simpa using Ne.symm hne)]
  congr 1
  induction m with
  | nil => rfl
  | cons p m ih =>
    by_cases hp : p.1 = k
    · have hpc : (p.1 == code) = false := by rw [hp]; simpa using Ne.symm hne
      rw [List.filter_cons_of_neg (by simpa using hp), List.find?_cons_of_neg _ (by simpa using hpc)]
      exact ih
    · rw [List.filter_cons_of_pos (by simpa using hp)]
      by_cases hpc : (p.1 == code) = true
      · simp only [List.find?_cons, hpc]
      · have hpc2 : (p.1 == code) = false := by simpa using hpc
        simp only [List.find?_cons, hpc2]
        exact ih

theorem mapSet_of_absent (m : List (String × URLData)) (k : String) (v : URLData)
    (habs : mapGet m k = none) : mapSet m k v = (k, v) :: m := by
  unfold mapSet
  congr 1
  rw [List.filter_eq_self]
  intro p hp
  simpa using (mapGet_eq_none_iff m k).mp habs p hp

/-- A `Save` of the in-memory store under a code it does not hold keeps every record, adds
one, and counts one. -/
theorem InMemoryStorage_Save_new (s : InMemoryStorage) (k u o : String)
    (habs : (s.Find k).2 = false) :
    (∀ code d, mapGet s.data code = some d → mapGet (s.Save k u o).1.data code = some d) ∧
      (s.Save k u o).1.data = (k, ⟨u, o⟩) :: s.data ∧
      (s.Save k u o).1.UUID = s.UUID + 1 ∧
      ∀ p ∈ s.data, p.1 ≠ k := by
  have hnone : mapGet s.data k = none := by
    unfold InMemoryStorage.Find at habs
    cases hg : mapGet s.data k with
    | none => rfl
    | some d => rw [hg] at habs; exact absurd habs (by simp)
  refine ⟨?_, mapSet_of_absent _ _ _ hnone, rfl, (mapGet_eq_none_iff _ _).mp hnone⟩
  intro code d hd
  have hne : code ≠ k := by
    intro he; rw [he, hnone] at hd; exact absurd hd (by simp)
  show mapGet (mapSet s.data k _) code = some d
  rw [mapGet_mapSet_of_ne _ _ _ _ hne, hd]

/-- One shorten request on the in-memory store keeps every record and keeps the count equal
to the number of records, the codes being distinct. -/
theorem serve_inv (env : Env) (codec : Codec) (sv : Server InMemoryStorage)
    (q : ShortenRequest) :
    (∀ code d, mapGet sv.store.data code = some d →
      mapGet ((NewHandler InMemoryStorage.repository).serve env codec sv q).store.data code
        = some d) ∧
    ((sv.store.data.map Prod.fst).Nodup ∧ sv.store.UUID = sv.store.data.length →
      (((NewHandler InMemoryStorage.repository).serve env codec sv q).store.data.map
          Prod.fst).Nodup ∧
        ((NewHandler InMemoryStorage.repository).serve env codec sv q).store.UUID =
          ((NewHandler InMemoryStorage.repository).serve env codec sv q).store.data.length) := by
  have hcases : ((NewHandler InMemoryStorage.repository).serve env codec sv q).store = sv.store ∨
      ∃ U userID : String, (sv.store.Find (GenerateShortURL U)).2 = false ∧
        ((NewHandler InMemoryStorage.repository).serve env codec sv q).store =
          (sv.store.Save (GenerateShortURL U) U userID).1 := by
    cases q with
    | Fpost ctx w r => exact Fpost_store_cases _ env ctx sv w r
    | ModifPost ctx w r => exact ModifPost_store_cases _ env codec ctx sv w r
  rcases hcases with hsame | ⟨U, userID, habs, hsave⟩
  · rw [hsame]
    exact ⟨fun _ _ hd => hd, fun hi => hi⟩
  · rw [hsave]
    obtain ⟨hkeep, hdata, huuid, hfresh⟩ := InMemoryStorage_Save_new sv.store _ U userID habs
    refine ⟨hkeep, ?_⟩
    rintro ⟨hnd, hcount⟩
    rw [hdata, huuid, hcount]
    refine ⟨?_, rfl⟩
    rw [List.map_cons, List.nodup_cons]
    refine ⟨?_, hnd⟩
    intro hmem
    obtain ⟨p, hp, hpk⟩ := List.mem_map.mp hmem
    exact hfresh p hp hpk

/-- The same over a sequence of shorten requests. -/
theorem serveAll_inv (env : Env) (codec : Codec) (reqs : List ShortenRequest) :
    ∀ sv : Server InMemoryStorage,
      (∀ code d, mapGet sv.store.data code = some d →
        mapGet ((NewHandler InMemoryStorage.repository).serveAll env codec sv reqs).store.data
          code = some d) ∧
      ((sv.store.data.map Prod.fst).Nodup ∧ sv.store.UUID = sv.store.data.length →
        (((NewHandler InMemoryStorage.repository).serveAll env codec sv reqs).store.data.map
            Prod.fst).Nodup ∧
          ((NewHandler InMemoryStorage.repository).serveAll env codec sv reqs).store.UUID =
            ((NewHandler InMemoryStorage.repository).serveAll env codec sv
              reqs).store.data.length) := by
  induction reqs with
  | nil => intro sv; exact ⟨fun _ _ hd => hd, fun hi => hi⟩
  | cons q reqs ih =>
    intro sv
    obtain ⟨h1, h2⟩ := serve_inv env codec sv q
    obtain ⟨h3, h4⟩ := ih ((NewHandler InMemoryStorage.repository).serve env codec sv q)
    exact ⟨fun code d hd => h3 code d (h1 code d hd), fun hi => h4 (h2 hi)⟩

theorem serveAll_append {σ : Type} (h : Handler σ) (env : Env) (codec : Codec)
    (sv : Server σ) (reqs1 reqs2 : List ShortenRequest) :
    h.serveAll env codec sv (reqs1 ++ reqs2) =
      h.serveAll env codec (h.serveAll env codec sv reqs1) reqs2 := by
  simp [Handler.serveAll, List.foldl_append]

/-! # Claims -/

/-- C1. Round trip on the in-memory store: for every URL `U` that passes the shorten
validation and whose short code is not stored, once `Fpost` has answered 201 Created (on
a fresh writer), `Fget` with path parameter `GenerateShortURL(U)`, on a live context and a
fresh writer, answers 307 Temporary Redirect with `Location` exactly `U`. The library
parser is any parser that, like `url.ParseRequestURI`, does not validate the word
`deleted`. -/
theorem Fpost_Fget_roundtrip (env : Env) (ctx ctx2 : Context) (sv : Server InMemoryStorage)
    (w w2 : ResponseWriter) (r r2 : Request) (U : String)
    (hdeleted : rejectsURL (env.ParseRequestURI "deleted") = true)
    (hbody : r.Body = some U)
    (hvalid : rejectsURL (env.ParseRequestURI U) = false)
    (hfresh : (sv.store.Find (GenerateShortURL U)).2 = false)
    (hw : w.status = none)
    (hcreated :
      ((NewHandler InMemoryStorage.repository).Fpost env ctx sv w r).2.status = some 201)
    (hctx2 : ctx2.err = none) (hw2 : w2.status = none)
    (hparam : URLParam r2 "shortURL" = GenerateShortURL U) :
    ((NewHandler InMemoryStorage.repository).Fget ctx2
        ((NewHandler InMemoryStorage.repository).Fpost env ctx sv w r).1 w2 r2).2.status
        = some 307 ∧
      ((NewHandler InMemoryStorage.repository).Fget ctx2
        ((NewHandler InMemoryStorage.repository).Fpost env ctx sv w r).1 w2 r2).2.GetHeader
        "Location" = U := by
  obtain ⟨hctx, userID, hu⟩ := Fpost_created_inv _ env ctx sv w r hw hcreated
  obtain ⟨hstore, _⟩ := (Fpost_of_valid env ctx sv w r U userID hctx hu hbody hvalid).2 hfresh
  have hU : U ≠ "deleted" := by
    intro h
    rw [h, hdeleted] at hvalid
    exact absurd hvalid (by decide)
  have hfind : ((NewHandler InMemoryStorage.repository).Fpost env ctx sv w r).1.store.Find
      (URLParam r2 "shortURL") = (U, true) := by
    rw [hstore, hparam]
    exact InMemoryStorage_Find_Save _ _ _ _
  have hne : URLParam r2 "shortURL" ≠ "" := by
    rw [hparam]; exact GenerateShortURL_ne_empty U
  rw [Fget_of_found ctx2 _ w2 r2 U hctx2 hfind hU hne]
  exact setHeader_writeHeader w2 "Location" U _ hw2

set_option maxRecDepth 100000 in
theorem Fpost_Fget_roundtrip_witness :
    ((NewHandler InMemoryStorage.repository).Fget {}
        ((NewHandler InMemoryStorage.repository).Fpost sampleEnv {}
          { store := NewInMemoryStorage } {}
          { Body := some "https://practicum.yandex.ru/",
            ctx := { values := [(UserIDKey, "mockUserID")] } }).1 {}
        { Path := "/a6499d23", URLParams := [("shortURL", "a6499d23")] }).2.status
        = some 307 ∧
      ((NewHandler InMemoryStorage.repository).Fget {}
        ((NewHandler InMemoryStorage.repository).Fpost sampleEnv {}
          { store := NewInMemoryStorage } {}
          { Body := some "https://practicum.yandex.ru/",
            ctx := { values := [(UserIDKey, "mockUserID")] } }).1 {}
        { Path := "/a6499d23", URLParams := [("shortURL", "a6499d23")] }).2.GetHeader
        "Location" = "https://practicum.yandex.ru/" :=
  Fpost_Fget_roundtrip sampleEnv {} {} { store := NewInMemoryStorage } {} {}
    { Body := some "https://practicum.yandex.ru/",
      ctx := { values := [(UserIDKey, "mockUserID")] } }
    { Path := "/a6499d23", URLParams := [("shortURL", "a6499d23")] }
    "https://practicum.yandex.ru/" (by decide) rfl (by decide) (by decide) rfl (by decide)
    rfl rfl (by decide)

/-- C2. Idempotence of shorten on the in-memory store: for a valid URL `U` whose code is
not yet stored, two consecutive `Fpost(U)` requests (live contexts carrying a user id,
fresh writers) answer 201 Created and then 409 Conflict; the first body is the base URL,
a slash and `GenerateShortURL(U)`, the second is `http://localhost:8080/` and the same
code, so the last 8 characters of both bodies are the same short code; the second request
leaves the server state as the first one left it. -/
theorem Fpost_twice (env : Env) (ctx ctx2 : Context) (sv : Server InMemoryStorage)
    (w w2 : ResponseWriter) (r r2 : Request) (U userID userID2 : String)
    (hctx : ctx.err = none) (hctx2 : ctx2.err = none)
    (hu : r.ctx.Value UserIDKey = some userID) (hu2 : r2.ctx.Value UserIDKey = some userID2)
    (hbody : r.Body = some U) (hbody2 : r2.Body = some U)
    (hvalid : rejectsURL (env.ParseRequestURI U) = false)
    (hfresh : (sv.store.Find (GenerateShortURL U)).2 = false)
    (hw : w.status = none) (hw2 : w2.status = none) :
    let first := (NewHandler InMemoryStorage.repository).Fpost env ctx sv w r
    let second := (NewHandler InMemoryStorage.repository).Fpost env ctx2 first.1 w2 r2
    first.2.status = some 201 ∧ second.2.status = some 409 ∧
      first.2.body = w.body ++
        ((if env.Conf.Result = "" then "http://localhost:8080" else env.Conf.Result) ++ "/" ++
          GenerateShortURL U) ∧
      second.2.body = w2.body ++ ("http://localhost:8080/" ++ GenerateShortURL U) ∧
      first.2.body.data.drop (first.2.body.length - 8) = (GenerateShortURL U).data ∧
      second.2.body.data.drop (second.2.body.length - 8) = (GenerateShortURL U).data ∧
      second.1.store = first.1.store ∧ second.1.file = first.1.file := by
  intro first second
  obtain ⟨hstore, hresp⟩ :=
    (Fpost_of_valid env ctx sv w r U userID hctx hu hbody hvalid).2 hfresh
  have hheld : (first.1.store.Find (GenerateShortURL U)).2 = true := by
    show (((NewHandler InMemoryStorage.repository).Fpost env ctx sv w r).1.store.Find
      (GenerateShortURL U)).2 = true
    rw [hstore, InMemoryStorage_Find_Save]
  have hsecond :=
    (Fpost_of_valid env ctx2 first.1 w2 r2 U userID2 hctx2 hu2 hbody2 hvalid).1 hheld
  have hb1 : first.2.body = w.body ++
      ((if env.Conf.Result = "" then "http://localhost:8080" else env.Conf.Result) ++ "/" ++
        GenerateShortURL U) := by
    show ((NewHandler InMemoryStorage.repository).Fpost env ctx sv w r).2.body = _
    rw [hresp, writeHeader_write_body]; rfl
  have hb2 : second.2.body = w2.body ++ ("http://localhost:8080/" ++ GenerateShortURL U) := by
    show ((NewHandler InMemoryStorage.repository).Fpost env ctx2 first.1 w2 r2).2.body = _
    rw [hsecond, writeHeader_write_body]; rfl
  refine ⟨?_, ?_, hb1, hb2, ?_, ?_, ?_, ?_⟩
  · show ((NewHandler InMemoryStorage.repository).Fpost env ctx sv w r).2.status = _
    rw [hresp]
    exact writeHeader_write_status _ _ _ (by simp [ResponseWriter.SetHeader, hw])
  · show ((NewHandler InMemoryStorage.repository).Fpost env ctx2 first.1 w2 r2).2.status = _
    rw [hsecond]
    exact writeHeader_write_status _ _ _ (by simp [ResponseWriter.SetHeader, hw2])
  · rw [hb1, ← String.append_assoc, ← String.append_assoc]
    exact tail_of_append _ _ 8 (GenerateShortURL_length U)
  · rw [hb2, ← String.append_assoc]
    exact tail_of_append _ _ 8 (GenerateShortURL_length U)
  · show ((NewHandler InMemoryStorage.repository).Fpost env ctx2 first.1 w2 r2).1.store = _
    rw [hsecond]
  · show ((NewHandler InMemoryStorage.repository).Fpost env ctx2 first.1 w2 r2).1.file = _
    rw [hsecond]

set_option maxRecDepth 100000 in
theorem Fpost_twice_witness :
    ((NewHandler InMemoryStorage.repository).Fpost sampleEnv {} { store := NewInMemoryStorage } {}
        { Body := some "https://example.com/",
          ctx := { values := [(UserIDKey, "mockUserID")] } }).2.status = some 201 ∧
      ((NewHandler InMemoryStorage.repository).Fpost sampleEnv {}
        ((NewHandler InMemoryStorage.repository).Fpost sampleEnv {}
          { store := NewInMemoryStorage } {}
          { Body := some "https://example.com/",
            ctx := { values := [(UserIDKey, "mockUserID")] } }).1 {}
        { Body := some "https://example.com/",
          ctx := { values := [(UserIDKey, "otherUserID")] } }).2.status = some 409 :=
  have h := Fpost_twice sampleEnv {} {} { store := NewInMemoryStorage } {} {}
    { Body := some "https://example.com/", ctx := { values := [(UserIDKey, "mockUserID")] } }
    { Body := some "https://example.com/", ctx := { values := [(UserIDKey, "otherUserID")] } }
    "https://example.com/" "mockUserID" "otherUserID" rfl rfl (by decide) (by decide) rfl rfl
    (by decide) (by decide) rfl rfl
  ⟨h.1, h.2.1⟩

/-- C3. Identity round trip: for every signing key (every environment) and every user id
without the separator, in particular every id minted by `CreateCookie`, a request whose
`session` cookie is `id|SignData(id)` yields exactly `id` and no error. -/
theorem ExtractUserIDFromCookie_roundtrip (env : Env) (r : Request) (cookie : Cookie)
    (id : String) (hcookie : r.Cookie "session" = some cookie)
    (hvalue : cookie.Value = id ++ "|" ++ SignData env id)
    (hid : '|' ∉ id.data ∨ ∃ w, id = (CreateCookie env w).2) :
    ExtractUserIDFromCookie env r = (id, none) := by
  refine extract_of_signed env r cookie id hcookie hvalue ?_
  rcases hid with h | ⟨w, h⟩
  · exact h
  · rw [h]; exact uuidString_no_bar _

set_option maxRecDepth 100000 in
theorem ExtractUserIDFromCookie_roundtrip_witness :
    ExtractUserIDFromCookie sampleEnv
      { cookies := [{ Name := "session", Value := "mockUserID" ++ "|" ++ SignData sampleEnv "mockUserID" }] }
      = ("mockUserID", none) :=
  ExtractUserIDFromCookie_roundtrip sampleEnv _ 
    { Name := "session", Value := "mockUserID" ++ "|" ++ SignData sampleEnv "mockUserID" }
    "mockUserID" rfl rfl (Or.inl (by decide))

/-- C4. Signature tampering is rejected: a `session` cookie `id|sig` with exactly one
separator whose `sig` is not `SignData(id)` fails with the error "invalid signature" and
the empty user id. -/
theorem ExtractUserIDFromCookie_bad_signature (env : Env) (r : Request) (cookie : Cookie)
    (id sig : String) (hcookie : r.Cookie "session" = some cookie)
    (hvalue : cookie.Value = id ++ "|" ++ sig)
    (hid : '|' ∉ id.data) (hsig : '|' ∉ sig.data) (hne : sig ≠ SignData env id) :
    ExtractUserIDFromCookie env r = ("", some "invalid signature") :=
  extract_of_bad_signature env r cookie id sig hcookie hvalue hid hsig hne

set_option maxRecDepth 100000 in
theorem ExtractUserIDFromCookie_bad_signature_witness :
    ExtractUserIDFromCookie sampleEnv
      { cookies := [{ Name := "session", Value := "mockUserID|IF4PCz+k+lNW2kBUF9psnIGSLl5wYaNHlQheTFNi/CS=" }] }
      = ("", some "invalid signature") :=
  ExtractUserIDFromCookie_bad_signature sampleEnv _
    { Name := "session", Value := "mockUserID|IF4PCz+k+lNW2kBUF9psnIGSLl5wYaNHlQheTFNi/CS=" }
    "mockUserID" "IF4PCz+k+lNW2kBUF9psnIGSLl5wYaNHlQheTFNi/CS=" rfl rfl
    (by decide) (by decide) (by decide)

/-- C6. Malformed tokens: for a request with a `session` cookie, the extraction fails with
"invalid cookie format" if and only if the value does not hold exactly one separator, that
is, if and only if splitting it does not give two parts; in that case the outcome is the
same under every environment, so under every signing key: no signature enters it. -/
theorem ExtractUserIDFromCookie_malformed (env : Env) (r : Request) (cookie : Cookie)
    (hcookie : r.Cookie "session" = some cookie) :
    ((ExtractUserIDFromCookie env r).2 = some "invalid cookie format" ↔
        cookie.Value.data.count '|' ≠ 1) ∧
      (cookie.Value.data.count '|' ≠ 1 ↔ (Split cookie.Value '|').length ≠ 2) ∧
      (cookie.Value.data.count '|' ≠ 1 →
        ∀ env2 : Env, ExtractUserIDFromCookie env2 r = ("", some "invalid cookie format")) := by
  have hlen := Split_length cookie.Value '|'
  refine ⟨?_, by omega, ?_⟩
  · unfold ExtractUserIDFromCookie
    simp only [hcookie]
    by_cases h2 : (Split cookie.Value '|').length = 2
    · have hcount : cookie.Value.data.count '|' = 1 := by omega
      simp only [h2, ne_eq, not_true_eq_false, if_false, hcount]
      split <;> simp
    · have hcount : cookie.Value.data.count '|' ≠ 1 := by omega
      simp [h2, hcount]
  · intro hcount env2
    have h2 : (Split cookie.Value '|').length ≠ 2 := by omega
    exact extract_of_malformed env2 r cookie hcookie h2

theorem ExtractUserIDFromCookie_malformed_witness :
    (ExtractUserIDFromCookie sampleEnv { cookies := [{ Name := "session", Value := "a|b|c" }] }).2
      = some "invalid cookie format" :=
  (ExtractUserIDFromCookie_malformed sampleEnv
    { cookies := [{ Name := "session", Value := "a|b|c" }] }
    { Name := "session", Value := "a|b|c" } (by decide)).1.2 (by decide)

/-- C7. Auth gate: on the path `/api/user/urls`, when the `session` cookie is missing,
malformed or carries a wrong signature, `MiddlewareAuth` answers 401 Unauthorized on a
fresh writer, leaves the server state as it was, sets no cookie, and its outcome is the
same for every `next`: the next handler is not invoked. -/
theorem MiddlewareAuth_unauthorized {W : Type} (env : Env) (next : HandlerFunc W) (world : W)
    (w : ResponseWriter) (r : Request) (hpath : r.Path = "/api/user/urls")
    (hbad : r.Cookie "session" = none ∨
      ∃ cookie, r.Cookie "session" = some cookie ∧
        (cookie.Value.data.count '|' ≠ 1 ∨
          ∃ id sig, cookie.Value = id ++ "|" ++ sig ∧ '|' ∉ id.data ∧ '|' ∉ sig.data ∧
            sig ≠ SignData env id))
    (hw : w.status = none) :
    MiddlewareAuth env next world w r = (world, httpError w "Unauthorized" StatusUnauthorized) ∧
      (MiddlewareAuth env next world w r).2.status = some 401 ∧
      (MiddlewareAuth env next world w r).2.body = w.body ++ "Unauthorized\n" ∧
      (MiddlewareAuth env next world w r).2.cookies = w.cookies ∧
      ∀ next2 : HandlerFunc W,
        MiddlewareAuth env next2 world w r = MiddlewareAuth env next world w r := by
  have herr := extract_fails env r hbad
  have key : ∀ n : HandlerFunc W,
      MiddlewareAuth env n world w r = (world, httpError w "Unauthorized" StatusUnauthorized) := by
    intro n
    simp only [MiddlewareAuth]
    rw [if_pos ⟨hpath, herr⟩]
  refine ⟨key next, ?_, ?_, ?_, ?_⟩
  · rw [key next]; exact httpError_status w _ _ hw
  · rw [key next]; exact httpError_body w _ _
  · rw [key next]; exact httpError_cookies w _ _
  · intro n; rw [key n, key next]

theorem MiddlewareAuth_unauthorized_witness :
    (MiddlewareAuth sampleEnv (fun (world : Nat) w _ => (world + 1, w.WriteHeader StatusOK)) 0 {}
      { Path := "/api/user/urls", cookies := [{ Name := "session", Value := "a|b|c" }] }).2.status
      = some 401 :=
  (MiddlewareAuth_unauthorized sampleEnv (fun (world : Nat) w _ => (world + 1, w.WriteHeader StatusOK))
    0 {} { Path := "/api/user/urls", cookies := [{ Name := "session", Value := "a|b|c" }] } rfl
    (Or.inr ⟨{ Name := "session", Value := "a|b|c" }, by decide, Or.inl (by decide)⟩) rfl).2.1

set_option maxRecDepth 100000 in
/-- C9. Short code shape: for every input string, the empty one included,
`GenerateShortURL` is the first 8 characters of the lowercase hexadecimal SHA-1 digest of
the input bytes; it has length 8, all its characters are among `0-9a-f`, and it is a
function of the input alone. The digest is checked against the published SHA-1 values of
the empty string and of `abc`. -/
theorem GenerateShortURL_shape (url : String) :
    GenerateShortURL url = String.mk ((hexEncode (sha1 (toBytes url))).take 8) ∧
      (GenerateShortURL url).length = 8 ∧
      (∀ c ∈ (GenerateShortURL url).data, c ∈ "0123456789abcdef".data) ∧
      (∀ url2 : String, url2 = url → GenerateShortURL url2 = GenerateShortURL url) ∧
      String.mk (hexEncode (sha1 (toBytes ""))) = "da39a3ee5e6b4b0d3255bfef95601890afd80709" ∧
      String.mk (hexEncode (sha1 (toBytes "abc"))) = "a9993e364706816aba3e25717850c26c9cd0d89d" ∧
      GenerateShortURL "" = "da39a3ee" :=
  ⟨rfl, GenerateShortURL_length url, GenerateShortURL_hex url, fun _ h => by rw [h],
    by decide, by decide, by decide⟩

/-- C10. Shorten validation: for every request body that fails to parse as a request URI,
or parses with an empty scheme or an empty host, `Fpost` leaves the server state as it was
(no `Save`, for every repository), and on a live context that carries a user id, with a
fresh writer, it answers 400 Bad Request with the validation message. -/
theorem Fpost_invalid_url {σ : Type} (h : Handler σ) (env : Env) (ctx : Context)
    (sv : Server σ) (w : ResponseWriter) (r : Request) (body : String)
    (hbody : r.Body = some body)
    (hbad : (∃ e, env.ParseRequestURI body = .error e) ∨
      ∃ u, env.ParseRequestURI body = .ok u ∧ (u.Scheme = "" ∨ u.Host = "")) :
    (h.Fpost env ctx sv w r).1.store = sv.store ∧ (h.Fpost env ctx sv w r).1.file = sv.file ∧
      (ctx.err = none → (∃ userID, r.ctx.Value UserIDKey = some userID) → w.status = none →
        (h.Fpost env ctx sv w r).2.status = some 400 ∧
          (h.Fpost env ctx sv w r).2.body =
            w.body ++ "Url parsing error or empty schema or empty host" ∧
          (h.Fpost env ctx sv w r).2.header = w.header) := by
  have hrej := (rejectsURL_iff _).2 hbad
  obtain ⟨h1, h2⟩ := Fpost_of_rejected h env ctx sv w r body hbody hrej
  refine ⟨by rw [h1], by rw [h1], ?_⟩
  rintro hctx ⟨userID, hu⟩ hw
  rw [h2 hctx userID hu]
  refine ⟨writeHeader_write_status _ _ _ hw, writeHeader_write_body _ _ _, ?_⟩
  simp [ResponseWriter.Write, ResponseWriter.WriteHeader, hw]

theorem Fpost_invalid_url_witness :
    (((NewHandler InMemoryStorage.repository).Fpost sampleEnv {} { store := NewInMemoryStorage }
        {} { Body := some "invalid-url",
             ctx := { values := [(UserIDKey, "mockUserID")] } }).2.status = some 400 ∧
      ((NewHandler InMemoryStorage.repository).Fpost sampleEnv {} { store := NewInMemoryStorage }
        {} { Body := some "invalid-url",
             ctx := { values := [(UserIDKey, "mockUserID")] } }).1.store = NewInMemoryStorage) ∧
    ((NewHandler InMemoryStorage.repository).Fpost sampleEnv {} { store := NewInMemoryStorage }
        {} { Body := some "",
             ctx := { values := [(UserIDKey, "mockUserID")] } }).2.status = some 400 ∧
    ((NewHandler InMemoryStorage.repository).Fpost sampleEnv {} { store := NewInMemoryStorage }
        {} { Body := some "https:///",
             ctx := { values := [(UserIDKey, "mockUserID")] } }).2.status = some 400 ∧
    ((NewHandler InMemoryStorage.repository).Fpost sampleEnv {} { store := NewInMemoryStorage }
        {} { Body := some "/path/to/resource",
             ctx := { values := [(UserIDKey, "mockUserID")] } }).2.status = some 400 :=
  have h1 := Fpost_invalid_url (NewHandler InMemoryStorage.repository) sampleEnv {}
    { store := NewInMemoryStorage } {}
    { Body := some "invalid-url", ctx := { values := [(UserIDKey, "mockUserID")] } }
    "invalid-url" rfl (Or.inl ⟨_, rfl⟩)
  have h2 := Fpost_invalid_url (NewHandler InMemoryStorage.repository) sampleEnv {}
    { store := NewInMemoryStorage } {}
    { Body := some "", ctx := { values := [(UserIDKey, "mockUserID")] } }
    "" rfl (Or.inl ⟨_, rfl⟩)
  have h3 := Fpost_invalid_url (NewHandler InMemoryStorage.repository) sampleEnv {}
    { store := NewInMemoryStorage } {}
    { Body := some "https:///", ctx := { values := [(UserIDKey, "mockUserID")] } }
    "https:///" rfl (Or.inr ⟨_, rfl, Or.inr rfl⟩)
  have h4 := Fpost_invalid_url (NewHandler InMemoryStorage.repository) sampleEnv {}
    { store := NewInMemoryStorage } {}
    { Body := some "/path/to/resource", ctx := { values := [(UserIDKey, "mockUserID")] } }
    "/path/to/resource" rfl (Or.inr ⟨_, rfl, Or.inl rfl⟩)
  ⟨⟨(h1.2.2 rfl ⟨"mockUserID", rfl⟩ rfl).1, h1.1⟩, (h2.2.2 rfl ⟨"mockUserID", rfl⟩ rfl).1,
    (h3.2.2 rfl ⟨"mockUserID", rfl⟩ rfl).1, (h4.2.2 rfl ⟨"mockUserID", rfl⟩ rfl).1⟩

set_option maxRecDepth 100000 in
/-- C11, as stated, fails: `https://example.com/22959` and `https://example.com/65751`
have the same short code `91a02b7f`. After the first is shortened on the empty in-memory
store, the store holds the first URL under that code, and shortening the second one is
answered 409 Conflict, by `Fpost` and by `ModifPost`, although the stored URL differs. -/
theorem conflict_without_match :
    "https://example.com/22959" ≠ "https://example.com/65751" ∧
    GenerateShortURL "https://example.com/22959" = "91a02b7f" ∧
    GenerateShortURL "https://example.com/65751" = "91a02b7f" ∧
    ((NewHandler InMemoryStorage.repository).Fpost sampleEnv {} { store := NewInMemoryStorage } {}
      { Body := some "https://example.com/22959",
        ctx := { values := [(UserIDKey, "mockUserID")] } }).1.store =
      { data := [("91a02b7f", ⟨"https://example.com/22959", "mockUserID"⟩)], UUID := 1 } ∧
    ((NewHandler InMemoryStorage.repository).Fpost sampleEnv {}
      { store := { data := [("91a02b7f", ⟨"https://example.com/22959", "mockUserID"⟩)], UUID := 1 } } {}
      { Body := some "https://example.com/65751",
        ctx := { values := [(UserIDKey, "mockUserID")] } }).2.status = some 409 ∧
    ((NewHandler InMemoryStorage.repository).ModifPost sampleEnv sampleCodec {}
      { store := { data := [("91a02b7f", ⟨"https://example.com/22959", "mockUserID"⟩)], UUID := 1 } } {}
      { Body := some "\x7b\"url\":\"https://example.com/65751\"\x7d",
        ctx := { values := [(UserIDKey, "mockUserID")] } }).2.status = some 409 := by
  refine ⟨by decide, by decide, by decide, by decide, by decide, by decide⟩

/-- C11, amended. For every repository and store state and every valid URL `U`, on a live
context carrying a user id and a fresh writer, `Fpost` answers 409 Conflict exactly when
`Find` reports a record under `GenerateShortURL(U)`, and so does `ModifPost` (for a URL
within the length cap, the conflict response being marshalled); the URL of that record is
not compared with `U`. -/
theorem conflict_iff_found {σ : Type} (h : Handler σ) (env : Env) (codec : Codec)
    (ctx : Context) (sv : Server σ) (w : ResponseWriter)
    (hctx : ctx.err = none) (hw : w.status = none) :
    (∀ (r : Request) (U userID : String), r.ctx.Value UserIDKey = some userID →
      r.Body = some U → rejectsURL (env.ParseRequestURI U) = false →
      ((h.Fpost env ctx sv w r).2.status = some 409 ↔
        (h.repo.Find sv.store (GenerateShortURL U)).2 = true)) ∧
    (∀ (r : Request) (buf userID resp : String) (req : RequestModifyPost),
      r.ctx.Value UserIDKey = some userID → r.Body = some buf → byteLen buf ≠ 0 →
      codec.UnmarshalModifyPost buf = .ok req → byteLen req.Body ≤ maxURLLength →
      rejectsURL (env.ParseRequestURI req.Body) = false →
      codec.MarshalModifyPost
        { Body := "http://localhost:8080/" ++ GenerateShortURL req.Body } = .ok resp →
      ((h.ModifPost env codec ctx sv w r).2.status = some 409 ↔
        (h.repo.Find sv.store (GenerateShortURL req.Body)).2 = true)) :=
  ⟨fun r U userID hu hbody hvalid =>
      Fpost_conflict_iff h env ctx sv w r U userID hctx hu hbody hvalid hw,
    fun r buf userID resp req hu hbody hbuf hreq hlen hvalid hmarshal =>
      ModifPost_conflict_iff h env codec ctx sv w r buf userID resp req hctx hu hbody hbuf hreq
        hlen hvalid hmarshal hw⟩

theorem conflict_iff_found_witness :
    ((NewHandler InMemoryStorage.repository).Fpost sampleEnv {}
      { store := { data := [("91a02b7f", ⟨"https://example.com/22959", "mockUserID"⟩)], UUID := 1 } } {}
      { Body := some "https://example.com/65751",
        ctx := { values := [(UserIDKey, "mockUserID")] } }).2.status = some 409 ↔
    (InMemoryStorage.repository.Find
      { data := [("91a02b7f", ⟨"https://example.com/22959", "mockUserID"⟩)], UUID := 1 }
      (GenerateShortURL "https://example.com/65751")).2 = true :=
  (conflict_iff_found (NewHandler InMemoryStorage.repository) sampleEnv sampleCodec {}
    { store := { data := [("91a02b7f", ⟨"https://example.com/22959", "mockUserID"⟩)], UUID := 1 } } {}
    rfl rfl).1
    { Body := some "https://example.com/65751", ctx := { values := [(UserIDKey, "mockUserID")] } }
    "https://example.com/65751" "mockUserID" rfl rfl (by decide)

/-- C12. Resolve miss: for every non-empty short code that is not a key of the store, in
the in-memory backend as in the relational one, `Fget` on a live context and a fresh
writer answers 400 Bad Request with the body "The link was not found in the repository.",
leaves the headers as they were (no `Location` is set) and leaves the server state. -/
theorem Fget_miss (ctx : Context) (w : ResponseWriter) (r : Request) (code : String)
    (hctx : ctx.err = none) (hw : w.status = none)
    (hparam : URLParam r "shortURL" = code) (hne : code ≠ "") :
    (∀ sv : Server InMemoryStorage, (∀ p ∈ sv.store.data, p.1 ≠ code) →
      ((NewHandler InMemoryStorage.repository).Fget ctx sv w r).2.status = some 400 ∧
      ((NewHandler InMemoryStorage.repository).Fget ctx sv w r).2.body =
        w.body ++ "The link was not found in the repository." ∧
      ((NewHandler InMemoryStorage.repository).Fget ctx sv w r).2.header = w.header ∧
      ((NewHandler InMemoryStorage.repository).Fget ctx sv w r).1.store = sv.store) ∧
    (∀ sv : Server PostgresStorage, (∀ row ∈ sv.store.urls, row.short_url ≠ code) →
      ((NewHandler PostgresStorage.repository).Fget ctx sv w r).2.status = some 400 ∧
      ((NewHandler PostgresStorage.repository).Fget ctx sv w r).2.body =
        w.body ++ "The link was not found in the repository." ∧
      ((NewHandler PostgresStorage.repository).Fget ctx sv w r).2.header = w.header ∧
      ((NewHandler PostgresStorage.repository).Fget ctx sv w r).1.store = sv.store) := by
  have hp : URLParam r "shortURL" ≠ "" := by rw [hparam]; exact hne
  constructor
  · intro sv hkey
    have hfind : (NewHandler InMemoryStorage.repository).repo.Find sv.store
        (URLParam r "shortURL") = ("", false) := by
      rw [hparam]
      exact InMemoryStorage_Find_missing _ _ (mapGet_none_of_not_key _ _ hkey)
    rw [Fget_of_missing _ ctx sv w r hctx hp hfind]
    exact ⟨writeHeader_write_status _ _ _ hw, writeHeader_write_body _ _ _,
      writeHeader_write_header _ _ _, rfl⟩
  · intro sv hkey
    have hfind : (NewHandler PostgresStorage.repository).repo.Find sv.store
        (URLParam r "shortURL") = ("", false) := by
      rw [hparam]
      exact PostgresStorage_Find_missing _ _ hkey
    rw [Fget_of_missing _ ctx sv w r hctx hp hfind]
    exact ⟨writeHeader_write_status _ _ _ hw, writeHeader_write_body _ _ _,
      writeHeader_write_header _ _ _, rfl⟩

theorem Fget_miss_witness :
    ((NewHandler InMemoryStorage.repository).Fget {} { store := NewInMemoryStorage } {}
        { Path := "/invalidURL", URLParams := [("shortURL", "invalidURL")] }).2.status
        = some 400 ∧
      ((NewHandler PostgresStorage.repository).Fget {} { store := NewPostgresStorage [] } {}
        { Path := "/invalidURL", URLParams := [("shortURL", "invalidURL")] }).2.body
        = "" ++ "The link was not found in the repository." :=
  have h := Fget_miss {} {} { Path := "/invalidURL", URLParams := [("shortURL", "invalidURL")] }
    "invalidURL" rfl rfl (by decide) (by decide)
  ⟨(h.1 { store := NewInMemoryStorage } (by decide)).1,
    (h.2 { store := NewPostgresStorage [] } (by decide)).2.1⟩

/-- C13. Soft delete is permanent and visible: on the relational backend, once
`DeleterURL(C, owner)` has run on a table whose row for `C` has that owner, `Find(C)`
returns `("deleted", true)` and `Fget` for `C` (live context, fresh writer) answers 410
Gone, and both stay so after every later sequence of `Save` and `DeleterURL` calls: a
deleted row for `C` is still in the table. -/
theorem soft_delete_permanent (s : PostgresStorage) (C owner : String) (row : UrlRow)
    (hrow : s.urls.find? (fun row => row.short_url == C) = some row)
    (howner : row.owner = owner) (cs : List StoreCall) :
    ((s.DeleterURL C owner).1.calls cs).Find C = ("deleted", true) ∧
      (∀ (ctx : Context) (w : ResponseWriter) (r : Request) (file : List ExportRecord),
        ctx.err = none → w.status = none → URLParam r "shortURL" = C →
        ((NewHandler PostgresStorage.repository).Fget ctx
          { store := (s.DeleterURL C owner).1.calls cs, file := file } w r).2.status
          = some 410) ∧
      ∃ row2 ∈ ((s.DeleterURL C owner).1.calls cs).urls,
        row2.short_url = C ∧ row2.DeletedFlag = true := by
  have ht := tombstoned_calls _ C cs (tombstoned_after_DeleterURL s C owner row hrow howner)
  have hfind := Find_of_tombstoned _ C ht
  refine ⟨hfind, ?_, ?_⟩
  · intro ctx w r file hctx hw hparam
    have hf : ((NewHandler PostgresStorage.repository).repo.Find
        ({ store := (s.DeleterURL C owner).1.calls cs, file := file } :
          Server PostgresStorage).store (URLParam r "shortURL")).1 = "deleted" := by
      rw [hparam]
      show (((s.DeleterURL C owner).1.calls cs).Find C).1 = "deleted"
      rw [hfind]
    rw [Fget_of_deleted _ ctx _ w r hctx hf]
    exact writeHeader_status w _ hw
  · obtain ⟨row2, hrow2, hdel⟩ := ht
    refine ⟨row2, List.mem_of_find?_eq_some hrow2, ?_, hdel⟩
    have := List.find?_some hrow2
    simpa using this

theorem soft_delete_permanent_witness :
    (((NewPostgresStorage [⟨"b559c7ed", "https://example.com/", "owner1", false⟩]).DeleterURL
        "b559c7ed" "owner1").1.calls
      [StoreCall.Save "b559c7ed" "https://example.com/" "owner2",
        StoreCall.DeleterURL "b559c7ed" "owner2",
        StoreCall.Save "aaaaaaaa" "https://example.org/" "owner1"]).Find "b559c7ed"
      = ("deleted", true) :=
  (soft_delete_permanent (NewPostgresStorage [⟨"b559c7ed", "https://example.com/", "owner1", false⟩])
    "b559c7ed" "owner1" ⟨"b559c7ed", "https://example.com/", "owner1", false⟩ (by decide) rfl
    [StoreCall.Save "b559c7ed" "https://example.com/" "owner2",
      StoreCall.DeleterURL "b559c7ed" "owner2",
      StoreCall.Save "aaaaaaaa" "https://example.org/" "owner1"]).1

/-- C14. Owner isolation: for every table state, short code `C` and user `A`, when every
row for `C` has an owner other than `A` (the row for `C` belongs to some `B ≠ A`, or there
is no row for `C`), `DeleterURL(C, A)` returns no error and leaves the table as it is, so
`Find(C)` returns what it returned before: the original URL when the row is not deleted. -/
theorem DeleterURL_owner_isolation (s : PostgresStorage) (C A : String)
    (h : ∀ row ∈ s.urls, row.short_url = C → row.owner ≠ A) :
    s.DeleterURL C A = (s, none) ∧
      (s.DeleterURL C A).1.Find C = s.Find C ∧
      (∀ row, s.urls.find? (fun row => row.short_url == C) = some row →
        row.DeletedFlag = false → (s.DeleterURL C A).1.Find C = (row.original_url, true)) := by
  have hsame := DeleterURL_of_no_match s C A h
  refine ⟨hsame, by rw [hsame], ?_⟩
  intro row hrow hdel
  rw [hsame]
  simp [PostgresStorage.Find, hrow, hdel]

theorem DeleterURL_owner_isolation_witness :
    (NewPostgresStorage [⟨"b559c7ed", "https://example.com/", "userB", false⟩]).DeleterURL
        "b559c7ed" "userA"
      = (NewPostgresStorage [⟨"b559c7ed", "https://example.com/", "userB", false⟩], none) ∧
    (NewPostgresStorage [⟨"b559c7ed", "https://example.com/", "userB", false⟩]).DeleterURL
        "zzzzzzzz" "userB"
      = (NewPostgresStorage [⟨"b559c7ed", "https://example.com/", "userB", false⟩], none) :=
  ⟨(DeleterURL_owner_isolation
      (NewPostgresStorage [⟨"b559c7ed", "https://example.com/", "userB", false⟩])
      "b559c7ed" "userA" (by decide)).1,
    (DeleterURL_owner_isolation
      (NewPostgresStorage [⟨"b559c7ed", "https://example.com/", "userB", false⟩])
      "zzzzzzzz" "userB" (by decide)).1⟩

/-- C15 at the failing input: on the in-memory store holding `b559c7ed` for
`https://example.com/` saved by `owner1`, `Save` of the same code and URL by `owner2`
returns no error but replaces the owner by `owner2` and moves the counter from 1 to 2;
the relational backend, at the same input, returns no error and keeps the table. -/
theorem InMemoryStorage_Save_on_existing_key :
    (NewInMemoryStorage.Save "b559c7ed" "https://example.com/" "owner1").1 =
        { data := [("b559c7ed", ⟨"https://example.com/", "owner1"⟩)], UUID := 1 } ∧
      InMemoryStorage.Save { data := [("b559c7ed", ⟨"https://example.com/", "owner1"⟩)], UUID := 1 }
          "b559c7ed" "https://example.com/" "owner2" =
        ({ data := [("b559c7ed", ⟨"https://example.com/", "owner2"⟩)], UUID := 2 }, none) ∧
      PostgresStorage.Save
          (NewPostgresStorage [⟨"b559c7ed", "https://example.com/", "owner1", false⟩])
          "b559c7ed" "https://example.com/" "owner2" =
        (NewPostgresStorage [⟨"b559c7ed", "https://example.com/", "owner1", false⟩], none) := by
  decide

/-- C16. Batch shorten shape: on the relational backend, for a live context, a fresh
writer, a user id in the request context and a body that decodes to a non-empty batch, when
no `Save` of the loop fails and the response marshals, `Batch` answers 201 Created with
content type `application/json` and, as body, the JSON of the list that has, for each entry
of the request in order, its `correlation_id` and the short URL `http://localhost:8080/`
followed by `GenerateShortURL` of its `original_url`; `Find` then reports every one of these
codes in the store. -/
theorem Batch_shape (env : Env) (codec : Codec) (ctx : Context)
    (sv : Server PostgresStorage) (w : ResponseWriter) (r : Request)
    (userID body response : String) (reqBatch : ReqBatch)
    (hctx : ctx.err = none) (hw : w.status = none)
    (huser : r.ctx.Value UserIDKey = some userID)
    (hbody : r.Body = some body) (hdec : codec.DecodeReqBatch body = .ok reqBatch)
    (hne : reqBatch ≠ [])
    (hsaves : (batchLoop (NewHandler PostgresStorage.repository) userID
      (decide (env.Conf.File ≠ "")) reqBatch sv []).2 ≠ none)
    (hm : codec.MarshalRespBatch (reqBatch.map fun req =>
      { ID := req.ID,
        ShortURL := "http://localhost:8080/" ++ GenerateShortURL req.OriginalURL })
      = .ok response) :
    ∃ (sv2 : Server PostgresStorage) (w2 : ResponseWriter),
      (NewHandler PostgresStorage.repository).Batch env codec ctx sv w r = some (sv2, w2) ∧
      w2.status = some 201 ∧
      w2.body = w.body ++ response ∧
      w2.GetHeader "Content-Type" = "application/json" ∧
      ∀ req ∈ reqBatch,
        (PostgresStorage.Find sv2.store (GenerateShortURL req.OriginalURL)).2 = true := by
  cases hl : (batchLoop (NewHandler PostgresStorage.repository) userID
      (decide (env.Conf.File ≠ "")) reqBatch sv []).2 with
  | none => exact absurd hl hsaves
  | some resp =>
    have hresp := batchLoop_resp _ _ _ reqBatch sv [] resp hl
    rw [List.nil_append] at hresp
    rw [← hresp] at hm
    refine ⟨_, _, Batch_of_saved env codec ctx sv w r userID body response reqBatch resp
      hctx huser hbody hdec hne hl hm, ?_, ?_, ?_, ?_⟩
    · exact writeHeader_write_status _ _ _ hw
    · exact writeHeader_write_body _ _ _
    · rw [ResponseWriter.GetHeader, writeHeader_write_header]
      simp [ResponseWriter.SetHeader]
    · intro req hmem
      exact PostgresStorage_Find_of_row _ _ (batchLoop_rows _ _ reqBatch sv [] resp hl req hmem)

set_option maxRecDepth 100000 in
theorem Batch_shape_witness :
    ∃ (sv2 : Server PostgresStorage) (w2 : ResponseWriter),
      (NewHandler PostgresStorage.repository).Batch sampleEnv sampleCodec {}
        { store := NewPostgresStorage [] } {}
        { Body := some "[\x7b\"correlation_id\":\"1\",\"original_url\":\"https://a.example/\"\x7d,\x7b\"correlation_id\":\"2\",\"original_url\":\"https://b.example/\"\x7d]",
          ctx := { values := [(UserIDKey, "mockUserID")] } } = some (sv2, w2) ∧
      w2.status = some 201 ∧
      w2.body = "" ++ "[\x7b\"correlation_id\":\"1\",\"short_url\":\"http://localhost:8080/b8de1c4d\"\x7d,\x7b\"correlation_id\":\"2\",\"short_url\":\"http://localhost:8080/712b81dd\"\x7d]" ∧
      w2.GetHeader "Content-Type" = "application/json" ∧
      ∀ req ∈ [({ ID := "1", OriginalURL := "https://a.example/" } : MiniBatchReq),
          { ID := "2", OriginalURL := "https://b.example/" }],
        (PostgresStorage.Find sv2.store (GenerateShortURL req.OriginalURL)).2 = true :=
  Batch_shape sampleEnv sampleCodec {} { store := NewPostgresStorage [] } {}
    { Body := some "[\x7b\"correlation_id\":\"1\",\"original_url\":\"https://a.example/\"\x7d,\x7b\"correlation_id\":\"2\",\"original_url\":\"https://b.example/\"\x7d]",
      ctx := { values := [(UserIDKey, "mockUserID")] } }
    "mockUserID"
    "[\x7b\"correlation_id\":\"1\",\"original_url\":\"https://a.example/\"\x7d,\x7b\"correlation_id\":\"2\",\"original_url\":\"https://b.example/\"\x7d]"
    "[\x7b\"correlation_id\":\"1\",\"short_url\":\"http://localhost:8080/b8de1c4d\"\x7d,\x7b\"correlation_id\":\"2\",\"short_url\":\"http://localhost:8080/712b81dd\"\x7d]"
    [{ ID := "1", OriginalURL := "https://a.example/" },
      { ID := "2", OriginalURL := "https://b.example/" }]
    rfl rfl rfl rfl rfl (by decide) (by decide) rfl

set_option maxRecDepth 100000 in
/-- C17 at the failing input: the table holds `https://b.example/` under the short URL
`custom01`; the batch has `https://a.example/` and then `https://b.example/`. The second
`Save` fails on the unique index of `original_url`, `Batch` answers 500, and the row
`b8de1c4d` of the first entry is in the table after the request: the store is not the one
before the request. -/
theorem Batch_failed_save_keeps_earlier_rows :
    ((NewHandler PostgresStorage.repository).Batch sampleEnv sampleCodec {}
        { store := NewPostgresStorage [⟨"custom01", "https://b.example/", "u0", false⟩] } {}
        { Body := some "[\x7b\"correlation_id\":\"1\",\"original_url\":\"https://a.example/\"\x7d,\x7b\"correlation_id\":\"2\",\"original_url\":\"https://b.example/\"\x7d]",
          ctx := { values := [(UserIDKey, "mockUserID")] } }).map
        (fun p => (p.1.store, p.2.status, p.2.body)) =
      some (NewPostgresStorage [⟨"custom01", "https://b.example/", "u0", false⟩,
          ⟨"b8de1c4d", "https://a.example/", "mockUserID", false⟩],
        some 500, "Error saving the link to the repository.\n") := by
  decide

set_option maxRecDepth 100000 in
/-- C18 at the failing input: the batch has the one entry `not-a-valid-url`, which the
validation of `Fpost` rejects with 400; `Batch` answers 201 Created and the entry is saved
under `ebdb87f3`. -/
theorem Batch_saves_rejected_url :
    rejectsURL (sampleEnv.ParseRequestURI "not-a-valid-url") = true ∧
      ((NewHandler InMemoryStorage.repository).Fpost sampleEnv {}
        { store := NewInMemoryStorage } {}
        { Body := some "not-a-valid-url",
          ctx := { values := [(UserIDKey, "mockUserID")] } }).2.status = some 400 ∧
      ((NewHandler PostgresStorage.repository).Batch sampleEnv sampleCodec {}
        { store := NewPostgresStorage [] } {}
        { Body := some "[\x7b\"correlation_id\":\"1\",\"original_url\":\"not-a-valid-url\"\x7d]",
          ctx := { values := [(UserIDKey, "mockUserID")] } }).map
        (fun p => (p.1.store, p.2.status, p.2.body)) =
      some (NewPostgresStorage [⟨"ebdb87f3", "not-a-valid-url", "mockUserID", false⟩],
        some 201,
        "[\x7b\"correlation_id\":\"1\",\"short_url\":\"http://localhost:8080/ebdb87f3\"\x7d]") := by
  decide

/-- C19. Length cap on JSON shorten: for every `ModifPost` request whose body decodes to a
`url` longer than 2048 bytes, the server state is unchanged and, on a live context with a
fresh writer, the answer is 400 Bad Request with the message of the length check. A `url`
of exactly 2048 bytes passes the length check: it is answered by the URL validation when
it is not a valid URL, and with 201 Created when it is valid, not yet stored and saved. -/
theorem ModifPost_length_cap {σ : Type} (h : Handler σ) (env : Env) (codec : Codec)
    (ctx : Context) (sv : Server σ) (w : ResponseWriter) (r : Request)
    (buf : String) (req : RequestModifyPost)
    (hbody : r.Body = some buf) (hbuf : byteLen buf ≠ 0)
    (hreq : codec.UnmarshalModifyPost buf = .ok req) :
    (byteLen req.Body > 2048 →
      (h.ModifPost env codec ctx sv w r).1.store = sv.store ∧
      (h.ModifPost env codec ctx sv w r).1.file = sv.file ∧
      (ctx.err = none → w.status = none →
        (h.ModifPost env codec ctx sv w r).2.status = some 400 ∧
        (h.ModifPost env codec ctx sv w r).2.body =
          w.body ++ "Error: the request body is too long")) ∧
    (byteLen req.Body = 2048 → ctx.err = none → w.status = none →
      (rejectsURL (env.ParseRequestURI req.Body) = true →
        (h.ModifPost env codec ctx sv w r).2.body =
          w.body ++ "Url parsing error or empty schema or empty host") ∧
      (rejectsURL (env.ParseRequestURI req.Body) = false →
        ∀ userID resp, r.ctx.Value UserIDKey = some userID →
          (h.repo.Find sv.store (GenerateShortURL req.Body)).2 = false →
          (h.repo.Save sv.store (GenerateShortURL req.Body) req.Body userID).2 = none →
          codec.MarshalModifyPost
            { Body := "http://localhost:8080/" ++ GenerateShortURL req.Body } = .ok resp →
          (h.ModifPost env codec ctx sv w r).2.status = some 201 ∧
          (h.ModifPost env codec ctx sv w r).1.store =
            (h.repo.Save sv.store (GenerateShortURL req.Body) req.Body userID).1)) := by
  constructor
  · intro hlen
    obtain ⟨h1, h2⟩ := ModifPost_of_too_long h env codec ctx sv w r buf req hbody hreq hlen
    refine ⟨by rw [h1], by rw [h1], ?_⟩
    intro hctx hw
    rw [h2 hctx, if_neg hbuf]
    exact ⟨writeHeader_write_status _ _ _ hw, writeHeader_write_body _ _ _⟩
  · intro hlen hctx hw
    have hlen2 : ¬ byteLen req.Body > maxURLLength := by
      simp only [maxURLLength]; omega
    constructor
    · intro hbad
      simp only [Handler.ModifPost, hctx, hbody, hbuf, hreq, hlen2, hbad, ↓reduceIte]
      exact writeHeader_write_body _ _ _
    · intro hvalid userID resp hu hf hs hmarshal
      have hsw : (w.SetHeader "Content-Type" "application/json").status = none := hw
      simp only [Handler.ModifPost, hctx, hbody, hbuf, hreq, hlen2, hvalid, hu, hf, hs,
        hmarshal, Bool.false_eq_true, ↓reduceIte]
      exact ⟨writeHeader_write_status _ _ _ hsw, trivial⟩

set_option maxRecDepth 100000 in
theorem ModifPost_length_cap_witness :
    ((NewHandler InMemoryStorage.repository).ModifPost sampleEnv sampleCodec {}
        { store := NewInMemoryStorage } {}
        { Body := some ("\x7b\"url\":\"" ++ String.mk (List.replicate 2049 'a') ++ "\"\x7d"),
          ctx := { values := [(UserIDKey, "mockUserID")] } }).2.status = some 400 ∧
    ((NewHandler InMemoryStorage.repository).ModifPost sampleEnv sampleCodec {}
        { store := NewInMemoryStorage } {}
        { Body := some ("\x7b\"url\":\"" ++ String.mk (List.replicate 2048 'a') ++ "\"\x7d"),
          ctx := { values := [(UserIDKey, "mockUserID")] } }).2.body =
      "" ++ "Url parsing error or empty schema or empty host" :=
  ⟨(((ModifPost_length_cap (NewHandler InMemoryStorage.repository) sampleEnv sampleCodec {}
      { store := NewInMemoryStorage } {}
      { Body := some ("\x7b\"url\":\"" ++ String.mk (List.replicate 2049 'a') ++ "\"\x7d"),
        ctx := { values := [(UserIDKey, "mockUserID")] } }
      ("\x7b\"url\":\"" ++ String.mk (List.replicate 2049 'a') ++ "\"\x7d")
      { Body := String.mk (List.replicate 2049 'a') } rfl
      (by rw [byteLen_append, byteLen_append, byteLen_replicate]; decide)
      (sample_unmarshal_url _ (by
        intro c hc
        rw [List.mem_replicate] at hc
        rw [hc.2]; decide))).1
        (by rw [byteLen_replicate]; decide)).2.2 rfl rfl).1,
   ((ModifPost_length_cap (NewHandler InMemoryStorage.repository) sampleEnv sampleCodec {}
      { store := NewInMemoryStorage } {}
      { Body := some ("\x7b\"url\":\"" ++ String.mk (List.replicate 2048 'a') ++ "\"\x7d"),
        ctx := { values := [(UserIDKey, "mockUserID")] } }
      ("\x7b\"url\":\"" ++ String.mk (List.replicate 2048 'a') ++ "\"\x7d")
      { Body := String.mk (List.replicate 2048 'a') } rfl
      (by rw [byteLen_append, byteLen_append, byteLen_replicate]; decide)
      (sample_unmarshal_url _ (by
        intro c hc
        rw [List.mem_replicate] at hc
        rw [hc.2]; decide))).2
        (by rw [byteLen_replicate]; decide) rfl rfl).1 (by decide)⟩

/-- C20. Resolve by full short URL: when `Find` reports `U` under `GenerateShortURL(U)`
(the URL is stored and not deleted), `ModifFget` with `short-url` equal to
`http://localhost:8080/` or `http://127.0.0.1:8080/` followed by that code, a short URL the
parser validates, answers 200 OK with the JSON `result` `U`. A request whose key, after the
base is stripped, is empty or not found by the repository is answered 400 and changes
nothing. Contexts are live and writers fresh. -/
theorem ModifFget_resolve {σ : Type} (h : Handler σ) (env : Env) (codec : Codec)
    (ctx : Context) (sv : Server σ) (w : ResponseWriter) (r : Request)
    (buf : String) (req : RequestModifyGet)
    (hctx : ctx.err = none) (hw : w.status = none) (hbody : r.Body = some buf)
    (hreq : codec.UnmarshalModifyGet buf = .ok req) :
    (∀ U resp : String, byteLen buf ≠ 0 →
      (req.Body = "http://localhost:8080/" ++ GenerateShortURL U ∨
        req.Body = "http://127.0.0.1:8080/" ++ GenerateShortURL U) →
      rejectsURL (env.ParseRequestURI req.Body) = false →
      h.repo.Find sv.store (GenerateShortURL U) = (U, true) →
      codec.MarshalModifyGet { Body := U } = .ok resp →
      (h.ModifFget env codec ctx sv w r).2.status = some 200 ∧
      (h.ModifFget env codec ctx sv w r).2.body = w.body ++ resp ∧
      (h.ModifFget env codec ctx sv w r).2.GetHeader "Content-Type" = "application/json") ∧
    ((ReplaceFirst req.Body
        (if startsWith req.Body "http://127.0.0.1:8080/" then "http://127.0.0.1:8080/"
          else "http://localhost:8080/") "" = "" ∨
      (h.repo.Find sv.store (ReplaceFirst req.Body
        (if startsWith req.Body "http://127.0.0.1:8080/" then "http://127.0.0.1:8080/"
          else "http://localhost:8080/") "")).2 = false) →
      (h.ModifFget env codec ctx sv w r).2.status = some 400 ∧
      (h.ModifFget env codec ctx sv w r).1.store = sv.store) := by
  constructor
  · intro U resp hbuf hshort hvalid hstored hmarshal
    have hkey : ReplaceFirst req.Body
        (if startsWith req.Body "http://127.0.0.1:8080/" then "http://127.0.0.1:8080/"
          else "http://localhost:8080/") "" = GenerateShortURL U := by
      rcases hshort with hs | hs
      · rw [hs]; exact (ModifFget_key _).1
      · rw [hs]; exact (ModifFget_key _).2
    have hsw : (w.SetHeader "Content-Type" "application/json").status = none := hw
    rw [ModifFget_of_decoded h env codec ctx sv w r buf req hctx hbody hbuf hreq hvalid]
    simp only [hkey, GenerateShortURL_ne_empty U, hstored, hmarshal, Bool.not_true,
      Bool.false_eq_true, ↓reduceIte]
    refine ⟨writeHeader_write_status _ _ _ hsw, ?_, ?_⟩
    · rw [writeHeader_write_body]; rfl
    · simp [ResponseWriter.Write, ResponseWriter.WriteHeader, ResponseWriter.SetHeader,
        ResponseWriter.GetHeader, hw]
  · intro hkey
    obtain ⟨h1, h2⟩ := ModifFget_bad_request h env codec ctx sv w r buf req hctx hw hbody hreq hkey
    exact ⟨h1, by rw [h2]⟩

set_option maxRecDepth 100000 in
theorem ModifFget_resolve_witness :
    ((NewHandler InMemoryStorage.repository).ModifFget sampleEnv sampleCodec {}
        { store := { data := [("327c3fda", ⟨"https://example.com", "user"⟩)], UUID := 1 } } {}
        { Body := some "\x7b\"short-url\":\"http://127.0.0.1:8080/327c3fda\"\x7d" }).2.status
        = some 200 ∧
      ((NewHandler InMemoryStorage.repository).ModifFget sampleEnv sampleCodec {}
        { store := { data := [("327c3fda", ⟨"https://example.com", "user"⟩)], UUID := 1 } } {}
        { Body := some "\x7b\"short-url\":\"http://127.0.0.1:8080/327c3fda\"\x7d" }).2.body
        = "" ++ "\x7b\"result\":\"https://example.com\"\x7d" :=
  have h := (ModifFget_resolve (NewHandler InMemoryStorage.repository) sampleEnv sampleCodec {}
    { store := { data := [("327c3fda", ⟨"https://example.com", "user"⟩)], UUID := 1 } } {}
    { Body := some "\x7b\"short-url\":\"http://127.0.0.1:8080/327c3fda\"\x7d" }
    "\x7b\"short-url\":\"http://127.0.0.1:8080/327c3fda\"\x7d"
    { Body := "http://127.0.0.1:8080/327c3fda" } rfl rfl rfl rfl).1
    "https://example.com" "\x7b\"result\":\"https://example.com\"\x7d" (by decide)
    (Or.inr (by decide)) (by decide) (by decide) rfl
  ⟨h.1, h.2.1⟩

set_option maxRecDepth 100000 in
/-- C21 at the failing input: the table holds the deleted row `327c3fda` of
`https://example.com`. `Fget` for the code answers 410 Gone; `ModifFget` for
`http://localhost:8080/327c3fda` answers 200 OK with the result `deleted`. -/
theorem ModifFget_deleted_answers_ok :
    ((NewHandler PostgresStorage.repository).Fget {}
        { store := NewPostgresStorage [⟨"327c3fda", "https://example.com", "mockUserID", true⟩] }
        {} { Path := "/327c3fda", URLParams := [("shortURL", "327c3fda")] }).2.status
        = some 410 ∧
      ((NewHandler PostgresStorage.repository).ModifFget sampleEnv sampleCodec {}
        { store := NewPostgresStorage [⟨"327c3fda", "https://example.com", "mockUserID", true⟩] }
        {} { Body := some "\x7b\"short-url\":\"http://localhost:8080/327c3fda\"\x7d" }).2.status
        = some 200 ∧
      ((NewHandler PostgresStorage.repository).ModifFget sampleEnv sampleCodec {}
        { store := NewPostgresStorage [⟨"327c3fda", "https://example.com", "mockUserID", true⟩] }
        {} { Body := some "\x7b\"short-url\":\"http://localhost:8080/327c3fda\"\x7d" }).2.body
        = "\x7b\"result\":\"deleted\"\x7d" := by
  decide

/-- C22. Owner listing: on the relational backend, for every table and every user id in the
request context (live context, fresh writer), `GetUserURLs` leaves the table as it is and
answers 204 No Content exactly when no row has that owner; when a row has, it answers 200 OK
with content type `application/json` and the JSON of the list that has, for each row of that
owner and for no other row, deleted or not, the entry with `short_url`
`http://localhost:8080/` followed by the code and `original_url`. -/
theorem GetUserURLs_listing (codec : Codec) (ctx : Context) (sv : Server PostgresStorage)
    (w : ResponseWriter) (r : Request) (userID : String)
    (hctx : ctx.err = none) (hw : w.status = none)
    (huser : r.ctx.Value UserIDKey = some userID) :
    ∃ w2 : ResponseWriter,
      (NewHandler PostgresStorage.repository).GetUserURLs codec ctx sv w r = some (sv, w2) ∧
      (w2.status = some 204 ↔ ∀ row ∈ sv.store.urls, row.owner ≠ userID) ∧
      ((∃ row ∈ sv.store.urls, row.owner = userID) →
        ∀ resp : String,
          codec.MarshalToOwner
            ((sv.store.urls.filter fun row => row.owner == userID).map fun row =>
              { ShortURL := "http://localhost:8080/" ++ row.short_url,
                OriginalURL := row.original_url }) = .ok resp →
          w2.status = some 200 ∧ w2.body = w.body ++ resp ∧
            w2.GetHeader "Content-Type" = "application/json") := by
  have hrun := GetUserURLs_of_user codec ctx sv w r userID hctx huser
  have hnil := filter_owner_eq_nil sv.store.urls userID
  have hsw : (w.SetHeader "Content-Type" "application/json").status = none := hw
  simp only at hrun
  by_cases hlen : ((sv.store.urls.filter fun row => row.owner == userID).map fun row =>
      ({ ShortURL := "http://localhost:8080/" ++ row.short_url,
         OriginalURL := row.original_url } : ResponseToOwner)).length = 0
  · rw [if_pos hlen] at hrun
    refine ⟨_, hrun, ?_, ?_⟩
    · simp only [ResponseWriter.WriteHeader, hw, StatusNoContent, true_iff]
      exact hnil.mp hlen
    · rintro ⟨row, hrow, howner⟩
      exact absurd howner (hnil.mp hlen row hrow)
  · rw [if_neg hlen] at hrun
    have hsome : ¬ ∀ row ∈ sv.store.urls, row.owner ≠ userID := fun hall => hlen (hnil.mpr hall)
    cases hm : codec.MarshalToOwner
        ((sv.store.urls.filter fun row => row.owner == userID).map fun row =>
          { ShortURL := "http://localhost:8080/" ++ row.short_url,
            OriginalURL := row.original_url }) with
    | error e =>
      rw [hm] at hrun
      refine ⟨_, hrun, ?_, ?_⟩
      · rw [httpError_then_status w _ _ _ _ _ _ hw]
        simp only [StatusBadRequest]
        constructor
        · intro h; exact absurd h (by decide)
        · intro h; exact absurd h hsome
      · intro _ resp hresp
        exact absurd hresp (by simp)
    | ok resp0 =>
      rw [hm] at hrun
      refine ⟨_, hrun, ?_, ?_⟩
      · rw [writeHeader_write_status _ _ _ hsw]
        simp only [StatusOK]
        constructor
        · intro h; exact absurd h (by decide)
        · intro h; exact absurd h hsome
      · intro _ resp hresp
        have hr : resp0 = resp := by injection hresp
        subst hr
        refine ⟨writeHeader_write_status _ _ _ hsw, ?_, ?_⟩
        · rw [writeHeader_write_body]; rfl
        · rw [ResponseWriter.GetHeader, writeHeader_write_header]
          simp [ResponseWriter.SetHeader]

theorem GetUserURLs_listing_witness :
    ∃ w2 : ResponseWriter,
      (NewHandler PostgresStorage.repository).GetUserURLs sampleCodec {}
        { store := NewPostgresStorage [⟨"b559c7ed", "https://example.com/", "mockUserID", true⟩,
            ⟨"aaaaaaaa", "https://example.org/", "other", false⟩] } {}
        { ctx := { values := [(UserIDKey, "mockUserID")] } } =
        some ({ store := NewPostgresStorage [⟨"b559c7ed", "https://example.com/", "mockUserID", true⟩,
                  ⟨"aaaaaaaa", "https://example.org/", "other", false⟩] }, w2) ∧
      w2.status = some 200 ∧
      w2.body = "" ++ "[\x7b\"short_url\":\"http://localhost:8080/b559c7ed\",\"original_url\":\"https://example.com/\"\x7d]" ∧
      w2.GetHeader "Content-Type" = "application/json" :=
  have h := GetUserURLs_listing sampleCodec {}
    { store := NewPostgresStorage [⟨"b559c7ed", "https://example.com/", "mockUserID", true⟩,
        ⟨"aaaaaaaa", "https://example.org/", "other", false⟩] } {}
    { ctx := { values := [(UserIDKey, "mockUserID")] } } "mockUserID" rfl rfl rfl
  h.elim fun w2 hw2 => ⟨w2, hw2.1, hw2.2.2
    ⟨⟨"b559c7ed", "https://example.com/", "mockUserID", true⟩, by decide, rfl⟩ _ rfl⟩

/-- C23. Bulk delete always reports Accepted: for every repository that is a
`*PostgresStorage`, whatever its `DeleterURL` does and returns, a request with a user id in
its context (live context, fresh writer) and a body that decodes to a non-empty list of
codes is answered 202 Accepted with no body, and the store is the one after one
`DeleterURL(code, userID)` per listed code; an empty list is answered 400 and leaves the
store. On the relational backend the table after the deletions does not depend on the order
in which the goroutines run. -/
theorem DelUserUrls_accepted {σ : Type} (h : Handler σ) (db : PostgresMethods σ)
    (codec : Codec) (ctx : Context) (sv : Server σ) (w : ResponseWriter) (r : Request)
    (userID body : String) (req : UserDelUrls)
    (hdb : h.repo.asPostgres = some db) (hctx : ctx.err = none) (hw : w.status = none)
    (huser : r.ctx.Value UserIDKey = some userID) (hbody : r.Body = some body)
    (hdec : codec.DecodeUserDelUrls body = .ok req) :
    (req ≠ [] →
      ∃ (sv2 : Server σ) (w2 : ResponseWriter),
        h.DelUserUrls codec ctx sv w r = some (sv2, w2) ∧
        w2.status = some 202 ∧ w2.body = w.body ∧
        sv2.store = req.foldl (fun s url => (db.DeleterURL s url userID).1) sv.store ∧
        sv2.file = sv.file) ∧
    (req = [] →
      ∃ w2 : ResponseWriter,
        h.DelUserUrls codec ctx sv w r = some (sv, w2) ∧ w2.status = some 400) ∧
    (∀ (s : PostgresStorage) (req2 : UserDelUrls), req.Perm req2 →
      req.foldl (fun s url => (s.DeleterURL url userID).1) s =
        req2.foldl (fun s url => (s.DeleterURL url userID).1) s) := by
  have hrun := DelUserUrls_of_decoded h db codec ctx sv w r userID body req hdb hctx huser
    hbody hdec
  refine ⟨?_, ?_, ?_⟩
  · intro hne
    have hlen : ¬ req.length = 0 := fun h0 => hne (List.length_eq_zero.mp h0)
    rw [if_neg hlen] at hrun
    refine ⟨_, _, hrun, ?_, ?_, rfl, rfl⟩
    · simp [ResponseWriter.WriteHeader, hw, StatusAccepted]
    · simp [ResponseWriter.WriteHeader, hw]
  · intro hnil
    have hlen : req.length = 0 := by rw [hnil]; rfl
    rw [if_pos hlen] at hrun
    exact ⟨_, hrun, httpError_status w _ _ hw⟩
  · intro s req2 hp
    exact DeleterURL_foldl_perm userID req req2 hp s

theorem DelUserUrls_accepted_witness :
    ∃ (sv2 : Server PostgresStorage) (w2 : ResponseWriter),
      (NewHandler PostgresStorage.repository).DelUserUrls sampleCodec {}
        { store := NewPostgresStorage [⟨"b559c7ed", "https://example.com/", "mockUserID", false⟩,
            ⟨"aaaaaaaa", "https://example.org/", "other", false⟩] } {}
        { Body := some "[\"b559c7ed\",\"aaaaaaaa\",\"zzzzzzzz\"]",
          ctx := { values := [(UserIDKey, "mockUserID")] } } = some (sv2, w2) ∧
      w2.status = some 202 ∧ w2.body = "" ∧
      sv2.store = ["b559c7ed", "aaaaaaaa", "zzzzzzzz"].foldl
        (fun s url => (PostgresStorage.DeleterURL s url "mockUserID").1)
        (NewPostgresStorage [⟨"b559c7ed", "https://example.com/", "mockUserID", false⟩,
          ⟨"aaaaaaaa", "https://example.org/", "other", false⟩]) ∧
      sv2.file = [] :=
  (DelUserUrls_accepted (NewHandler PostgresStorage.repository)
    { Begin := PostgresStorage.Begin, Commit := PostgresStorage.Commit,
      Rollback := PostgresStorage.Rollback, FindAllByOwner := PostgresStorage.FindAllByOwner,
      DeleterURL := PostgresStorage.DeleterURL }
    sampleCodec {}
    { store := NewPostgresStorage [⟨"b559c7ed", "https://example.com/", "mockUserID", false⟩,
        ⟨"aaaaaaaa", "https://example.org/", "other", false⟩] } {}
    { Body := some "[\"b559c7ed\",\"aaaaaaaa\",\"zzzzzzzz\"]",
      ctx := { values := [(UserIDKey, "mockUserID")] } }
    "mockUserID" "[\"b559c7ed\",\"aaaaaaaa\",\"zzzzzzzz\"]" ["b559c7ed", "aaaaaaaa", "zzzzzzzz"]
    rfl rfl rfl rfl rfl rfl).1 (by decide)

/-- C24. Cancellation is checked first: each of the handlers `Fpost`, `Fget`, `ModifPost`,
`ModifFget`, `Batch`, `GetUserURLs` and `DelUserUrls`, given a context that is already done,
returns the server state it was given, whatever the repository is, and the one answer of
`http.Error` for the context error: on a fresh writer 504 with `Request timed out` for
`DeadlineExceeded` and 408 with `Request cancelled by the client` otherwise. -/
theorem cancellation_first {σ : Type} (h : Handler σ) (env : Env) (codec : Codec)
    (ctx : Context) (sv : Server σ) (w : ResponseWriter) (r : Request) (e : ContextError)
    (hctx : ctx.err = some e) :
    h.Fpost env ctx sv w r = (sv, contextDone e w) ∧
      h.Fget ctx sv w r = (sv, contextDone e w) ∧
      h.ModifPost env codec ctx sv w r = (sv, contextDone e w) ∧
      h.ModifFget env codec ctx sv w r = (sv, contextDone e w) ∧
      h.Batch env codec ctx sv w r = some (sv, contextDone e w) ∧
      h.GetUserURLs codec ctx sv w r = some (sv, contextDone e w) ∧
      h.DelUserUrls codec ctx sv w r = some (sv, contextDone e w) ∧
      (w.status = none →
        (contextDone e w).status =
          some (if e = ContextError.DeadlineExceeded then 504 else 408) ∧
        (contextDone e w).body =
          w.body ++ (if e = ContextError.DeadlineExceeded then "Request timed out\n"
            else "Request cancelled by the client\n")) := by
  refine ⟨?_, ?_, ?_, ?_, ?_, ?_, ?_, ?_⟩
  · simp only [Handler.Fpost, hctx]
  · simp only [Handler.Fget, hctx]
  · simp only [Handler.ModifPost, hctx]
  · simp only [Handler.ModifFget, hctx]
  · simp only [Handler.Batch, hctx]
  · simp only [Handler.GetUserURLs, hctx]
  · simp only [Handler.DelUserUrls, hctx]
  · intro hw
    exact ⟨contextDone_status e w hw, contextDone_body e w⟩

theorem cancellation_first_witness :
    (NewHandler InMemoryStorage.repository).DelUserUrls sampleCodec
        { err := some ContextError.Canceled } { store := NewInMemoryStorage } {}
        { Body := some "[\"b559c7ed\"]" }
      = some ({ store := NewInMemoryStorage },
          contextDone ContextError.Canceled {}) ∧
    (NewHandler PostgresStorage.repository).Fget { err := some ContextError.DeadlineExceeded }
        { store := NewPostgresStorage [] } {} {}
      = ({ store := NewPostgresStorage [] }, contextDone ContextError.DeadlineExceeded {}) ∧
    (contextDone ContextError.DeadlineExceeded {}).status = some 504 ∧
    (contextDone ContextError.Canceled {}).status = some 408 :=
  ⟨(cancellation_first (NewHandler InMemoryStorage.repository) sampleEnv sampleCodec
      { err := some ContextError.Canceled } { store := NewInMemoryStorage } {}
      { Body := some "[\"b559c7ed\"]" } ContextError.Canceled rfl).2.2.2.2.2.2.1,
    (cancellation_first (NewHandler PostgresStorage.repository) sampleEnv sampleCodec
      { err := some ContextError.DeadlineExceeded } { store := NewPostgresStorage [] } {} {}
      ContextError.DeadlineExceeded rfl).2.1,
    ((cancellation_first (NewHandler PostgresStorage.repository) sampleEnv sampleCodec
      { err := some ContextError.DeadlineExceeded } { store := NewPostgresStorage [] } {} {}
      ContextError.DeadlineExceeded rfl).2.2.2.2.2.2.2 rfl).1,
    ((cancellation_first (NewHandler InMemoryStorage.repository) sampleEnv sampleCodec
      { err := some ContextError.Canceled } { store := NewInMemoryStorage } {}
      { Body := some "[\"b559c7ed\"]" } ContextError.Canceled rfl).2.2.2.2.2.2.2 rfl).1⟩

set_option maxRecDepth 100000 in
/-- C26 at the failing input: the table holds `https://b.example/` under the short URL
`custom01`, so that the `Save` of `https://b.example/` under its code fails on the unique
index of `original_url`. `Fpost` answers 500 with its fixed message; `ModifPost` answers 400
with its fixed message. -/
theorem ModifPost_failed_save_answers_400 :
    (PostgresStorage.Save (NewPostgresStorage [⟨"custom01", "https://b.example/", "u0", false⟩])
        "712b81dd" "https://b.example/" "mockUserID").2
        = some "duplicate key value violates unique constraint idx_original_url" ∧
      ((NewHandler PostgresStorage.repository).Fpost sampleEnv {}
        { store := NewPostgresStorage [⟨"custom01", "https://b.example/", "u0", false⟩] } {}
        { Body := some "https://b.example/",
          ctx := { values := [(UserIDKey, "mockUserID")] } }).2.status = some 500 ∧
      ((NewHandler PostgresStorage.repository).ModifPost sampleEnv sampleCodec {}
        { store := NewPostgresStorage [⟨"custom01", "https://b.example/", "u0", false⟩] } {}
        { Body := some "\x7b\"url\":\"https://b.example/\"\x7d",
          ctx := { values := [(UserIDKey, "mockUserID")] } }).2.status = some 400 ∧
      ((NewHandler PostgresStorage.repository).ModifPost sampleEnv sampleCodec {}
        { store := NewPostgresStorage [⟨"custom01", "https://b.example/", "u0", false⟩] } {}
        { Body := some "\x7b\"url\":\"https://b.example/\"\x7d",
          ctx := { values := [(UserIDKey, "mockUserID")] } }).2.body
        = "error saving the link to the repository" := by
  decide

set_option maxRecDepth 100000 in
/-- C27 at the failing input: the base URL `config.Conf.Result` is `https://sho.rt` and the
URL is `https://example.com/`, of code `b559c7ed`. The Created response of `Fpost` renders
`https://sho.rt/b559c7ed`; its Conflict response and both responses of `ModifPost` render
`http://localhost:8080/b559c7ed`. -/
theorem shorten_ignores_base_url :
    ((NewHandler InMemoryStorage.repository).Fpost
        { sampleEnv with Conf := { sampleConf with Result := "https://sho.rt" } } {}
        { store := NewInMemoryStorage } {}
        { Body := some "https://example.com/",
          ctx := { values := [(UserIDKey, "mockUserID")] } }).2.body
        = "https://sho.rt/b559c7ed" ∧
      ((NewHandler InMemoryStorage.repository).Fpost
        { sampleEnv with Conf := { sampleConf with Result := "https://sho.rt" } } {}
        { store := { data := [("b559c7ed", ⟨"https://example.com/", "mockUserID"⟩)], UUID := 1 } } {}
        { Body := some "https://example.com/",
          ctx := { values := [(UserIDKey, "mockUserID")] } }).2.body
        = "http://localhost:8080/b559c7ed" ∧
      ((NewHandler InMemoryStorage.repository).ModifPost
        { sampleEnv with Conf := { sampleConf with Result := "https://sho.rt" } } sampleCodec {}
        { store := NewInMemoryStorage } {}
        { Body := some "\x7b\"url\":\"https://example.com/\"\x7d",
          ctx := { values := [(UserIDKey, "mockUserID")] } }).2.body
        = "\x7b\"result\":\"http://localhost:8080/b559c7ed\"\x7d" ∧
      ((NewHandler InMemoryStorage.repository).ModifPost
        { sampleEnv with Conf := { sampleConf with Result := "https://sho.rt" } } sampleCodec {}
        { store := { data := [("b559c7ed", ⟨"https://example.com/", "mockUserID"⟩)], UUID := 1 } } {}
        { Body := some "\x7b\"url\":\"https://example.com/\"\x7d",
          ctx := { values := [(UserIDKey, "mockUserID")] } }).2.body
        = "\x7b\"result\":\"http://localhost:8080/b559c7ed\"\x7d" := by
  decide

/-- C28 at the failing input: no DSN is configured, so `main` builds the in-memory
repository. On it the type assertion of `Batch` (non-empty batch), of `GetUserURLs` and of
`DelUserUrls` (non-empty list) panics: the handlers return no answer. -/
theorem owner_handlers_panic_in_memory :
    usesPostgres sampleConf = false ∧
      (NewHandler InMemoryStorage.repository).repo.asPostgres.isSome = false ∧
      ((NewHandler InMemoryStorage.repository).Batch sampleEnv sampleCodec {}
        { store := NewInMemoryStorage } {}
        { Body := some "[\x7b\"correlation_id\":\"1\",\"original_url\":\"https://a.example/\"\x7d]",
          ctx := { values := [(UserIDKey, "mockUserID")] } }).isNone = true ∧
      ((NewHandler InMemoryStorage.repository).GetUserURLs sampleCodec {}
        { store := NewInMemoryStorage } {}
        { ctx := { values := [(UserIDKey, "mockUserID")] } }).isNone = true ∧
      ((NewHandler InMemoryStorage.repository).DelUserUrls sampleCodec {}
        { store := NewInMemoryStorage } {}
        { Body := some "[\"b559c7ed\"]",
          ctx := { values := [(UserIDKey, "mockUserID")] } }).isNone = true := by
  decide

/-- C29. Records are immutable through the service: on the in-memory backend, for every
sequence of `Fpost` and `ModifPost` requests served one after another, a record held under
a short code before the sequence is held unchanged, original URL and owner, after it; and
from the new store, after every sequence, the stored codes are distinct and the record
count `GetUUID` is their number. -/
theorem records_immutable (env : Env) (codec : Codec) (sv : Server InMemoryStorage)
    (reqs : List ShortenRequest) :
    (∀ (code : String) (d : URLData), mapGet sv.store.data code = some d →
      mapGet ((NewHandler InMemoryStorage.repository).serveAll env codec sv reqs).store.data
        code = some d) ∧
    (∀ (reqs0 : List ShortenRequest) (code : String) (d : URLData),
      mapGet ((NewHandler InMemoryStorage.repository).serveAll env codec
        { store := NewInMemoryStorage, file := sv.file } reqs0).store.data code = some d →
      mapGet ((NewHandler InMemoryStorage.repository).serveAll env codec
        { store := NewInMemoryStorage, file := sv.file } (reqs0 ++ reqs)).store.data code
        = some d) ∧
    (((NewHandler InMemoryStorage.repository).serveAll env codec
        { store := NewInMemoryStorage, file := sv.file } reqs).store.data.map Prod.fst).Nodup ∧
    ((NewHandler InMemoryStorage.repository).serveAll env codec
        { store := NewInMemoryStorage, file := sv.file } reqs).store.GetUUID =
      ((NewHandler InMemoryStorage.repository).serveAll env codec
        { store := NewInMemoryStorage, file := sv.file } reqs).store.data.length := by
  have hnew := (serveAll_inv env codec reqs { store := NewInMemoryStorage, file := sv.file }).2
    ⟨List.nodup_nil, rfl⟩
  refine ⟨(serveAll_inv env codec reqs sv).1, ?_, hnew.1, hnew.2⟩
  intro reqs0 code d hd
  rw [serveAll_append]
  exact (serveAll_inv env codec reqs _).1 code d hd

theorem records_immutable_witness :
    mapGet ((NewHandler InMemoryStorage.repository).serveAll sampleEnv sampleCodec
        { store := { data := [("b559c7ed", ⟨"https://example.com/", "owner1"⟩)], UUID := 1 } }
        [ShortenRequest.Fpost {} {}
            { Body := some "https://example.com/", ctx := { values := [(UserIDKey, "owner2")] } },
          ShortenRequest.ModifPost {} {}
            { Body := some "\x7b\"url\":\"https://example.org/\"\x7d",
              ctx := { values := [(UserIDKey, "owner2")] } }]).store.data
      "b559c7ed" = some ⟨"https://example.com/", "owner1"⟩ :=
  (records_immutable sampleEnv sampleCodec
    { store := { data := [("b559c7ed", ⟨"https://example.com/", "owner1"⟩)], UUID := 1 } }
    [ShortenRequest.Fpost {} {}
        { Body := some "https://example.com/", ctx := { values := [(UserIDKey, "owner2")] } },
      ShortenRequest.ModifPost {} {}
        { Body := some "\x7b\"url\":\"https://example.org/\"\x7d",
          ctx := { values := [(UserIDKey, "owner2")] } }]).1
    "b559c7ed" ⟨"https://example.com/", "owner1"⟩ (by decide)

set_option maxRecDepth 100000 in
/-- C30, as stated, fails: `Batch` saves the text `deleted` as an original URL under the
code `b639f5cc`, not deleted; `Fget` for that code answers 410 Gone. The same holds on the
in-memory store for a record whose original URL is `deleted`. -/
theorem Fget_gone_without_delete :
    ((NewHandler PostgresStorage.repository).Batch sampleEnv sampleCodec {}
        { store := NewPostgresStorage [] } {}
        { Body := some "[\x7b\"correlation_id\":\"1\",\"original_url\":\"deleted\"\x7d]",
          ctx := { values := [(UserIDKey, "mockUserID")] } }).map (fun p => p.1.store)
        = some (NewPostgresStorage [⟨"b639f5cc", "deleted", "mockUserID", false⟩]) ∧
      ((NewHandler PostgresStorage.repository).Fget {}
        { store := NewPostgresStorage [⟨"b639f5cc", "deleted", "mockUserID", false⟩] } {}
        { Path := "/b639f5cc", URLParams := [("shortURL", "b639f5cc")] }).2.status
        = some 410 ∧
      ((NewHandler InMemoryStorage.repository).Fget {}
        { store := { data := [("b639f5cc", ⟨"deleted", "mockUserID"⟩)], UUID := 1 } } {}
        { Path := "/b639f5cc", URLParams := [("shortURL", "b639f5cc")] }).2.status
        = some 410 := by
  decide

/-- C30, amended. For every repository, store state and short code, `Fget` on a live context
and a fresh writer answers 410 Gone exactly when `Find` returns the text `deleted` as the
URL. On the relational backend that is when the row under the code is deleted or has the
original URL `deleted`; on the in-memory backend when the record under the code has the
original URL `deleted`. -/
theorem Fget_gone_iff (ctx : Context) (w : ResponseWriter) (r : Request)
    (hctx : ctx.err = none) (hw : w.status = none) :
    (∀ {σ : Type} (h : Handler σ) (sv : Server σ),
      (h.Fget ctx sv w r).2.status = some 410 ↔
        (h.repo.Find sv.store (URLParam r "shortURL")).1 = "deleted") ∧
    (∀ (s : PostgresStorage) (code : String),
      (s.Find code).1 = "deleted" ↔
        ∃ row, s.urls.find? (fun row => row.short_url == code) = some row ∧
          (row.DeletedFlag = true ∨ row.original_url = "deleted")) ∧
    (∀ (s : InMemoryStorage) (code : String),
      (s.Find code).1 = "deleted" ↔
        ∃ d, mapGet s.data code = some d ∧ d.OriginalURL = "deleted") := by
  refine ⟨?_, ?_, ?_⟩
  · intro σ h sv
    have hsw : ∀ k v, (w.SetHeader k v).status = none := fun _ _ => hw
    by_cases hd : (h.repo.Find sv.store (URLParam r "shortURL")).1 = "deleted"
    · rw [Fget_of_deleted h ctx sv w r hctx hd]
      simp [ResponseWriter.WriteHeader, hw, StatusGone, hd]
    · simp only [Handler.Fget, hctx, hd, ↓reduceIte, iff_false]
      split
      · simp [ResponseWriter.WriteHeader, hw, StatusBadRequest]
      · split
        · rw [writeHeader_write_status _ _ _ hw]; simp [StatusBadRequest]
        · simp [ResponseWriter.WriteHeader, hsw, StatusTemporaryRedirect]
  · intro s code
    unfold PostgresStorage.Find
    cases hf : s.urls.find? (fun row => row.short_url == code) with
    | none => simp
    | some row =>
      cases hdel : row.DeletedFlag with
      | true => simp [hdel]
      | false => simp [hdel]
  · intro s code
    unfold InMemoryStorage.Find
    cases hg : mapGet s.data code with
    | none => simp
    | some d => simp

theorem Fget_gone_iff_witness :
    ((NewHandler PostgresStorage.repository).Fget {}
        { store := NewPostgresStorage [⟨"b559c7ed", "https://example.com/", "mockUserID", true⟩] }
        {} { Path := "/b559c7ed", URLParams := [("shortURL", "b559c7ed")] }).2.status
        = some 410 ↔
      (PostgresStorage.repository.Find
        (NewPostgresStorage [⟨"b559c7ed", "https://example.com/", "mockUserID", true⟩])
        (URLParam { Path := "/b559c7ed", URLParams := [("shortURL", "b559c7ed")] }
          "shortURL")).1 = "deleted" :=
  (Fget_gone_iff {} {} { Path := "/b559c7ed", URLParams := [("shortURL", "b559c7ed")] }
    rfl rfl).1 (NewHandler PostgresStorage.repository)
    { store := NewPostgresStorage [⟨"b559c7ed", "https://example.com/", "mockUserID", true⟩] }

end LinkShortener
